import Mathlib

/-!
# imgpipe: the hidden metadata channel and the image handlers

A shallow embedding of `pkg/stego/meta.go` (the least-significant-bit codec),
`utils/codec/codec.go` (the sealed envelope), `utils/arcmeta/logger.go` and
`pkg/archive/report.go` (the log dispatcher), `pkg/imageops/imageops.go`
(the pipeline) and the size and pixel computations of `pkg/rotate`,
`pkg/resize`, `pkg/crop` and `pkg/border`, followed by the properties proved
about them.

Conventions of the embedding.

* A Go `string` / `[]byte` is a `List Nat` of byte values (each below 256).
* A string of the characters `'0'` and `'1'` (as built by `fmt.Sprintf`) is a
  `List Nat` of the digit values 0 and 1.
* Machine integers are `Nat` / `Int`; a conversion such as `uint8(v)` is an
  explicit `% 256`.
* A counted `for` loop whose body does not assign the loop variable is a
  `List.foldl` over `List.range`.
* A `float64` is a dyadic value `m * 2^e` (or an infinity, or NaN); every
  operation rounds its exact result to 53 significant bits, to the nearest
  value, ties to even.
* Routines of other libraries (zlib, HMAC, the JSON reader, the database
  handlers, the drawing routines) are parameters of the definitions.
-/

set_option linter.dupNamespace false

namespace Imgpipe

/-! ## Pixel grids -/

/-- Go `image.Rectangle`: the points `minX ≤ x < maxX`, `minY ≤ y < maxY`. -/
structure Rectangle where
  minX : Int
  minY : Int
  maxX : Int
  maxY : Int
deriving DecidableEq, Repr

/-- Number of iterations of `for x := Min.X; x < Max.X; x++`. -/
def Rectangle.dx (r : Rectangle) : Nat := (r.maxX - r.minX).toNat

/-- Number of iterations of `for y := Min.Y; y < Max.Y; y++`. -/
def Rectangle.dy (r : Rectangle) : Nat := (r.maxY - r.minY).toNat

/-- Go `image.Point.In`. -/
def Rectangle.contains (r : Rectangle) (x y : Int) : Bool :=
  decide (r.minX ≤ x) && decide (x < r.maxX) && decide (r.minY ≤ y) && decide (y < r.maxY)

/-- The four `uint32` results of Go `color.Color.RGBA()`. -/
structure Sample where
  r : Nat
  g : Nat
  b : Nat
  a : Nat
deriving DecidableEq, Repr

/-- Go `image.Image`, as far as the codec uses it: `Bounds()` and
`At(x, y).RGBA()`. -/
structure Image where
  bounds : Rectangle
  rgbaAt : Int → Int → Sample

/-- Go `color.RGBA`: four 8-bit channels. -/
structure RGBA where
  R : Nat
  G : Nat
  B : Nat
  A : Nat
deriving DecidableEq, Repr

/-- Go `color.RGBA.RGBA()`: `r = uint32(c.R); r |= r << 8`, and so on. -/
def RGBA.RGBA (c : RGBA) : Sample :=
  { r := c.R ||| (c.R <<< 8), g := c.G ||| (c.G <<< 8),
    b := c.B ||| (c.B <<< 8), a := c.A ||| (c.A <<< 8) }

/-- Go `*image.RGBA` as `image.NewRGBA` builds it: the rectangle and the
pixel buffer `Pix` in row-major order. Go keeps four bytes per pixel with
`Stride = 4 * Rect.Dx()`; here the four bytes of a pixel are one entry, so
the stride is `Rect.Dx()`. -/
structure ImageRGBA where
  Pix : List RGBA
  Rect : Rectangle

/-- Go `image.NewRGBA(r)` for a well-formed `r`: a zeroed buffer of
`r.Dx() * r.Dy()` pixels (Go panics on negative dimensions; the trip counts
`dx`, `dy` are 0 there and the buffer is empty). -/
def NewRGBA (r : Rectangle) : ImageRGBA :=
  { Pix := List.replicate (r.dx * r.dy) ⟨0, 0, 0, 0⟩, Rect := r }

/-- Go `(*image.RGBA).PixOffset`, in pixels:
`(y - Rect.Min.Y) * Stride + (x - Rect.Min.X)`. -/
def ImageRGBA.PixOffset (p : ImageRGBA) (x y : Int) : Nat :=
  ((y - p.Rect.minY) * (p.Rect.dx : Int) + (x - p.Rect.minX)).toNat

/-- Go `(*image.RGBA).At`: the zero colour outside the rectangle. -/
def ImageRGBA.At (p : ImageRGBA) (x y : Int) : RGBA :=
  if p.Rect.contains x y then p.Pix.getD (p.PixOffset x y) ⟨0, 0, 0, 0⟩ else ⟨0, 0, 0, 0⟩

/-- Go `(*image.RGBA).Set` with a `color.RGBA` argument: no effect outside
the rectangle. -/
def ImageRGBA.Set (p : ImageRGBA) (x y : Int) (c : RGBA) : ImageRGBA :=
  if p.Rect.contains x y then { Pix := p.Pix.set (p.PixOffset x y) c, Rect := p.Rect }
  else p

/-- An `*image.RGBA` used through the `image.Image` interface. -/
def ImageRGBA.toImage (p : ImageRGBA) : Image :=
  { bounds := p.Rect, rgbaAt := fun x y => (p.At x y).RGBA }

/-! ## Strings of binary digits -/

/-- Helper of `bitLen`, with fuel. -/
def bitLenAux : Nat → Nat → Nat
  | 0, _ => 0
  | fuel + 1, n => if n = 0 then 0 else bitLenAux fuel (n / 2) + 1

/-- Number of binary digits of `n`, 0 for `n = 0`. -/
def bitLen (n : Nat) : Nat := bitLenAux n n

/-- Go `fmt.Sprintf("%0<width>b", n)` for `n ≥ 0`: the binary digits of `n`,
most significant first, at least one digit, padded on the left with zeros to
`width` digits. -/
def fmtBin (width n : Nat) : List Nat :=
  (List.range (max width (max 1 (bitLen n)))).reverse.map (fun i => n / 2 ^ i % 2)

/-- Value of a string of binary digits, most significant first. -/
def parseBin (s : List Nat) : Nat := s.foldl (fun n d => 2 * n + d) 0

/-- Go `strconv.ParseInt(s, 2, 32)` on a string of binary digits, the error
dropped: a value that does not fit a signed 32-bit integer comes back as the
largest one, `1<<31 - 1`. -/
def parseInt32 (s : List Nat) : Int :=
  if parseBin s ≥ 2 ^ 31 then 2 ^ 31 - 1 else (parseBin s : Int)

/-- Go `strconv.ParseUint(s, 2, 8)` on a string of binary digits, the error
dropped: a value above 255 comes back as 255. -/
def parseUint8 (s : List Nat) : Nat := min (parseBin s) 255

/-! ## Runes -/

/-- Go `utf8.RuneError`. -/
def RuneError : Nat := 0xFFFD

/-- Continuation byte test, `locb ≤ b ≤ hicb`. -/
def isCont (b : Nat) : Bool := decide (0x80 ≤ b) && decide (b ≤ 0xBF)

/-- Go `utf8.DecodeRuneInString` on a non-empty string: the rune at the
front and the number of bytes it takes; an invalid encoding gives
`(RuneError, 1)`. This is what one step of `for _, c := range s` reads. -/
def decodeRune (s : List Nat) : Nat × Nat :=
  match s with
  | [] => (RuneError, 0)
  | s0 :: t =>
    if s0 < 0x80 then (s0, 1)
    else if s0 < 0xC2 then (RuneError, 1)
    else if s0 < 0xE0 then
      match t with
      | s1 :: _ =>
        if isCont s1 then (((s0 &&& 0x1F) <<< 6) ||| (s1 &&& 0x3F), 2) else (RuneError, 1)
      | _ => (RuneError, 1)
    else if s0 < 0xF0 then
      match t with
      | s1 :: s2 :: _ =>
        if decide ((if s0 = 0xE0 then 0xA0 else 0x80) ≤ s1)
            && decide (s1 ≤ (if s0 = 0xED then 0x9F else 0xBF)) && isCont s2 then
          (((s0 &&& 0x0F) <<< 12) ||| ((s1 &&& 0x3F) <<< 6) ||| (s2 &&& 0x3F), 3)
        else (RuneError, 1)
      | _ => (RuneError, 1)
    else if s0 < 0xF5 then
      match t with
      | s1 :: s2 :: s3 :: _ =>
        if decide ((if s0 = 0xF0 then 0x90 else 0x80) ≤ s1)
            && decide (s1 ≤ (if s0 = 0xF4 then 0x8F else 0xBF)) && isCont s2 && isCont s3 then
          (((s0 &&& 0x07) <<< 18) ||| ((s1 &&& 0x3F) <<< 12) ||| ((s2 &&& 0x3F) <<< 6)
            ||| (s3 &&& 0x3F), 4)
        else (RuneError, 1)
      | _ => (RuneError, 1)
    else (RuneError, 1)

/-- Helper of `runes`; the fuel is the number of bytes left, and every step
consumes at least one. -/
def runesAux : Nat → List Nat → List Nat
  | 0, _ => []
  | _ + 1, [] => []
  | fuel + 1, s0 :: t =>
    (decodeRune (s0 :: t)).1 :: runesAux fuel ((s0 :: t).drop (decodeRune (s0 :: t)).2)

/-- The values `c` of `for _, c := range s`. -/
def runes (s : List Nat) : List Nat := runesAux s.length s

/-- Go `string(byte(v))`: the conversion of an integer to a string gives the
UTF-8 encoding of the code point `v`, two bytes from 0x80 on. -/
def stringOfByte (v : Nat) : List Nat :=
  if v < 0x80 then [v] else [0xC0 ||| (v >>> 6), 0x80 ||| (v &&& 0x3F)]

/-! ## `encodeMetaToImg` -/

/-- Loop state of `encodeMetaToImg`. -/
structure EncState where
  skip : Int
  bitIdx : Nat
  outImg : ImageRGBA

/-- Body of the inner loop of `encodeMetaToImg` at the point `(x, y)`. -/
def encodeStep (img : Image) (fullBits : List Nat) (x y : Int) (s : EncState) : EncState :=
  let c := img.rgbaAt x y
  let R := (c.r >>> 8) % 256
  let G := (c.g >>> 8) % 256
  let B := (c.b >>> 8) % 256
  let A := (c.a >>> 8) % 256
  if s.skip > 0 then
    { skip := s.skip - 1, bitIdx := s.bitIdx, outImg := s.outImg.Set x y ⟨R, G, B, A⟩ }
  else if s.bitIdx < fullBits.length then
    { skip := s.skip, bitIdx := s.bitIdx + 1,
      outImg := s.outImg.Set x y ⟨R, G, (B &&& 0xFE) ||| (fullBits.getD s.bitIdx 0) % 256, A⟩ }
  else
    { skip := s.skip, bitIdx := s.bitIdx, outImg := s.outImg.Set x y ⟨R, G, B, A⟩ }

/-- The bit string `fullBits` of `encodeMetaToImg`: `%032b` of `len(meta)`,
then `%08b` of every rune of `meta`. -/
def fullBitsOf (meta : List Nat) : List Nat :=
  fmtBin 32 meta.length ++ (runes meta).flatMap (fmtBin 8)

/-- Go `encodeMetaToImg(img, meta, offsetPixels)`. -/
def encodeMetaToImg (img : Image) (meta : List Nat) (offsetPixels : Int) : ImageRGBA :=
  let fullBits := fullBitsOf meta
  let bounds := img.bounds
  ((List.range bounds.dy).foldl
    (fun s (j : Nat) => (List.range bounds.dx).foldl
      (fun s (i : Nat) => encodeStep img fullBits (bounds.minX + (i : Int)) (bounds.minY + (j : Int)) s) s)
    { skip := offsetPixels, bitIdx := 0, outImg := NewRGBA bounds }).outImg

/-! ## `extractMetaFromImg` -/

/-- The two errors of `extractMetaFromImg`: "fail extract length bits" and
"invalid meta length %d". -/
inductive StegoError where
  | headerIncomplete
  | invalidLength (msgLen : Int)
deriving DecidableEq, Repr

/-- Loop state of the header loop of `extractMetaFromImg`. -/
structure HdrState where
  skip : Int
  bitIdx : Nat
  lengthBits : List Nat

/-- The blue sample bit the extractor reads, `uint8(b) & 1`. -/
def blueBit (img : Image) (x y : Int) : Nat := ((img.rgbaAt x y).b % 256) &&& 1

/-- Body of the header loop at `(x, y)`; both loop conditions carry
`bitIdx < 32`, so no iteration runs once 32 bits are read. -/
def headerStep (img : Image) (x y : Int) (s : HdrState) : HdrState :=
  if s.bitIdx < 32 then
    if s.skip > 0 then { skip := s.skip - 1, bitIdx := s.bitIdx, lengthBits := s.lengthBits }
    else { skip := s.skip, bitIdx := s.bitIdx + 1,
           lengthBits := s.lengthBits ++ [blueBit img x y] }
  else s

/-- The header loop of `extractMetaFromImg`, started with `skip` pixels to
pass over. -/
def readHeader (img : Image) (skip : Int) : List Nat :=
  ((List.range img.bounds.dy).foldl
    (fun s (j : Nat) => (List.range img.bounds.dx).foldl
      (fun s (i : Nat) => headerStep img (img.bounds.minX + (i : Int)) (img.bounds.minY + (j : Int)) s) s)
    { skip := skip, bitIdx := 0, lengthBits := [] }).lengthBits

/-- The cursor move `x++; if x >= bounds.Max.X { x = bounds.Min.X; y++ }`. -/
def advance (b : Rectangle) (p : Int × Int) : Int × Int :=
  if p.1 + 1 ≥ b.maxX then (b.minX, p.2 + 1) else (p.1 + 1, p.2)

/-- The loop `for pixels < totalSkip { ...; pixels++ }`, which runs
`totalSkip` times from the top-left corner. -/
def skipCursor (b : Rectangle) : Nat → Int × Int
  | 0 => (b.minX, b.minY)
  | n + 1 => advance b (skipCursor b n)

/-- The loop `for bitIdx < readBits && y < bounds.Max.Y`; the first argument
is `readBits - bitIdx`. -/
def readBody (img : Image) : Nat → Int × Int → List Nat → List Nat
  | 0, _, bits => bits
  | n + 1, p, bits =>
    if p.2 < img.bounds.maxY then
      readBody img n (advance img.bounds p) (bits ++ [blueBit img p.1 p.2])
    else bits

/-- The loop `for i := 0; i+8 <= len(bits); i += 8`, appending
`string(byte(val))` for each group of eight digits. -/
def bitsToMsg : List Nat → List Nat
  | b0 :: b1 :: b2 :: b3 :: b4 :: b5 :: b6 :: b7 :: rest =>
    stringOfByte (parseUint8 [b0, b1, b2, b3, b4, b5, b6, b7] % 256) ++ bitsToMsg rest
  | _ => []

/-- The body of `extractMetaFromImg` with its local `offsetPixels` as an
argument. -/
def extractAt (offsetPixels : Nat) (img : Image) : Except StegoError (List Nat) :=
  let lengthBits := readHeader img offsetPixels
  if lengthBits.length ≠ 32 then .error .headerIncomplete
  else
    let msgLen := parseInt32 lengthBits
    if msgLen ≤ 0 ∨ msgLen > 4096 then .error (.invalidLength msgLen)
    else
      let readBits := msgLen.toNat * 8
      let totalSkip := offsetPixels + 32
      let bits := readBody img readBits (skipCursor img.bounds totalSkip) []
      .ok (bitsToMsg bits)

/-- Go `extractMetaFromImg(img)`: `offsetPixels = 128`. -/
def extractMetaFromImg (img : Image) : Except StegoError (List Nat) :=
  extractAt 128 img

/-! ## Row-major view of a grid (used to state the properties) -/

/-- Number of pixels of the grid. -/
def Image.npix (img : Image) : Nat := img.bounds.dx * img.bounds.dy

/-- Column of the pixel with row-major index `k`: `Min.X + k mod width`. -/
def Image.colOf (img : Image) (k : Nat) : Int := img.bounds.minX + ((k % img.bounds.dx : Nat) : Int)

/-- Row of the pixel with row-major index `k`: `Min.Y + k div width`. -/
def Image.rowOf (img : Image) (k : Nat) : Int := img.bounds.minY + ((k / img.bounds.dx : Nat) : Int)

/-- The bit the extractor reads at the pixel with row-major index `k`. -/
def Image.bit (img : Image) (k : Nat) : Nat := blueBit img (img.colOf k) (img.rowOf k)

/-- The header value: the bits of the pixels `skip .. skip+31`, read as an
unsigned number, most significant bit first. -/
def Image.header (img : Image) (skip : Nat) : Nat :=
  parseBin ((List.range' skip 32).map img.bit)

/-- An opaque all-black 8-bit RGBA grid of `w` by `h` pixels at the origin. -/
def blackGrid (w h : Nat) : ImageRGBA :=
  { Pix := List.replicate (w * h) ⟨0, 0, 0, 255⟩, Rect := ⟨0, 0, w, h⟩ }

/-- The colour `encodeMetaToImg` stores at the pixel with row-major index
`k`, whose input sample is `c`: the input channels `uint8(v >> 8)`, and for
`skip ≤ k < skip + len(fullBits)` the blue channel with its lowest bit
replaced by digit `k - skip` of `fullBits`. -/
def embedPixel (fullBits : List Nat) (skip : Int) (k : Nat) (c : Sample) : RGBA :=
  if skip.toNat ≤ k ∧ k - skip.toNat < fullBits.length then
    ⟨(c.r >>> 8) % 256, (c.g >>> 8) % 256,
      (((c.b >>> 8) % 256) &&& 0xFE) ||| (fullBits.getD (k - skip.toNat) 0) % 256,
      (c.a >>> 8) % 256⟩
  else ⟨(c.r >>> 8) % 256, (c.g >>> 8) % 256, (c.b >>> 8) % 256, (c.a >>> 8) % 256⟩

/-! ## The sealed envelope, `utils/codec/codec.go` -/

/-- Go `base64.RawURLEncoding`, the alphabet: the character code of the
6-bit value `v`. -/
def b64Char (v : Nat) : Nat :=
  if v < 26 then 65 + v
  else if v < 52 then 97 + (v - 26)
  else if v < 62 then 48 + (v - 52)
  else if v = 62 then 45
  else 95

/-- Go `base64.RawURLEncoding`, the decode map: the 6-bit value of a
character of the alphabet, `none` for every other byte. -/
def b64Val (c : Nat) : Option Nat :=
  if 65 ≤ c ∧ c ≤ 90 then some (c - 65)
  else if 97 ≤ c ∧ c ≤ 122 then some (c - 97 + 26)
  else if 48 ≤ c ∧ c ≤ 57 then some (c - 48 + 52)
  else if c = 45 then some 62
  else if c = 95 then some 63
  else none

/-- Go `base64.RawURLEncoding.EncodeToString`: three bytes give four
characters, `val = b0<<16 | b1<<8 | b2` cut into 6-bit groups; a remainder of
one or two bytes gives two or three characters, without padding. -/
def b64Encode : List Nat → List Nat
  | a :: b :: c :: rest =>
    b64Char ((a * 65536 + b * 256 + c) / 262144 % 64)
      :: b64Char ((a * 65536 + b * 256 + c) / 4096 % 64)
      :: b64Char ((a * 65536 + b * 256 + c) / 64 % 64)
      :: b64Char ((a * 65536 + b * 256 + c) % 64) :: b64Encode rest
  | [a, b] =>
    [b64Char ((a * 65536 + b * 256) / 262144 % 64), b64Char ((a * 65536 + b * 256) / 4096 % 64),
      b64Char ((a * 65536 + b * 256) / 64 % 64)]
  | [a] => [b64Char (a * 65536 / 262144 % 64), b64Char (a * 65536 / 4096 % 64)]
  | [] => []

/-- The quanta of Go's base64 decoder (no padding, not strict): four
characters give three bytes, `val = v0<<18 | v1<<12 | v2<<6 | v3`; a final
group of two or three characters gives one or two bytes, the unused low bits
ignored; a final single character, or a byte outside the alphabet, is an
error. -/
def b64Quanta : List Nat → Option (List Nat)
  | c0 :: c1 :: c2 :: c3 :: rest =>
    match b64Val c0, b64Val c1, b64Val c2, b64Val c3, b64Quanta rest with
    | some v0, some v1, some v2, some v3, some tl =>
      some ((v0 * 262144 + v1 * 4096 + v2 * 64 + v3) / 65536 % 256
        :: (v0 * 262144 + v1 * 4096 + v2 * 64 + v3) / 256 % 256
        :: (v0 * 262144 + v1 * 4096 + v2 * 64 + v3) % 256 :: tl)
    | _, _, _, _, _ => none
  | [c0, c1, c2] =>
    match b64Val c0, b64Val c1, b64Val c2 with
    | some v0, some v1, some v2 =>
      some [(v0 * 262144 + v1 * 4096 + v2 * 64) / 65536 % 256,
        (v0 * 262144 + v1 * 4096 + v2 * 64) / 256 % 256]
    | _, _, _ => none
  | [c0, c1] =>
    match b64Val c0, b64Val c1 with
    | some v0, some v1 => some [(v0 * 262144 + v1 * 4096) / 65536 % 256]
    | _, _ => none
  | [_] => none
  | [] => some []

/-- Go `base64.RawURLEncoding.DecodeString`: line feeds and carriage
returns are skipped, the rest is decoded quantum by quantum; `none` is a
`CorruptInputError`. -/
def b64Decode (s : List Nat) : Option (List Nat) :=
  b64Quanta (s.filter (fun c => !(c == 10 || c == 13)))

/-- The collaborators of the envelope that are outside the repository:
the zlib stream (`compress/zlib`) and HMAC-SHA-256 under the fixed key
`"imgpipe"` (`crypto/hmac`, `crypto/sha256`). `decompress` is
`zlib.NewReader` followed by `io.ReadAll`; its error carries the bytes read
before the failure. -/
structure Prims where
  compress : List Nat → List Nat
  decompress : List Nat → Except (List Nat) (List Nat)
  hmac : List Nat → List Nat

/-- What the types of the collaborators guarantee: both produce bytes, and
a SHA-256 MAC has 32 of them. -/
structure Prims.WF (P : Prims) : Prop where
  compress_bytes : ∀ raw, ∀ b ∈ P.compress raw, b < 256
  hmac_bytes : ∀ m, ∀ b ∈ P.hmac m, b < 256
  hmac_length : ∀ m, (P.hmac m).length = 32

/-- Go `uint32(v)` of a 64-bit integer. -/
def uint32 (v : Int) : Nat := (v % 2 ^ 32).toNat

/-- Go `binary.Write(&buf, binary.BigEndian, exp)` for a `uint32`. -/
def putUint32 (v : Nat) : List Nat :=
  [v / 16777216 % 256, v / 65536 % 256, v / 256 % 256, v % 256]

/-- Go `binary.Read(r, binary.BigEndian, &exp)` for a `uint32`, on the four
bytes read. -/
def getUint32 (b : List Nat) : Nat :=
  b.getD 0 0 * 16777216 + b.getD 1 0 * 65536 + b.getD 2 0 * 256 + b.getD 3 0

/-- The buffer `buf` of `EncodeData` when the MAC is taken: version byte,
expiry, nonce, compressed payload. `now` is `time.Now().Unix()` and `nonce`
the 8 bytes drawn by `rand.Read`. -/
def sealBody (P : Prims) (now : Int) (nonce raw : List Nat) (ttl : Int) : List Nat :=
  [1] ++ putUint32 (uint32 (now + ttl)) ++ nonce ++ P.compress raw

/-- The bytes `out` of `EncodeData`, before the base64 encoding: the buffer
followed by its MAC. -/
def sealBytes (P : Prims) (now : Int) (nonce raw : List Nat) (ttl : Int) : List Nat :=
  sealBody P now nonce raw ttl ++ P.hmac (sealBody P now nonce raw ttl)

/-- Go `EncodeData(raw, ttl)`; its error result is always nil. -/
def EncodeData (P : Prims) (now : Int) (nonce raw : List Nat) (ttl : Int) : List Nat :=
  b64Encode (sealBytes P now nonce raw ttl)

deriving instance DecidableEq for Except

/-- The errors of `DecodeData`: "invalid", "check failed", "failed", and an
error of the zlib reader with the bytes it had produced. -/
inductive CodecError where
  | invalid
  | checkFailed
  | failed
  | zlib (partialData : List Nat)
deriving DecidableEq, Repr

/-- The result of the zlib reader as the result of `DecodeData`. -/
def zlibResult (r : Except (List Nat) (List Nat)) : Except CodecError (List Nat) :=
  match r with
  | .error part => .error (.zlib part)
  | .ok out => .ok out

/-- The body of `DecodeData` after the base64 decoding, on the decoded
bytes `raw`. -/
def openBytes (P : Prims) (now : Int) (raw : List Nat) : Except CodecError (List Nat) :=
  if raw.length < 1 + 4 + 8 + 32 then .error .invalid
  else
    let payload := raw.take (raw.length - 32)
    let mac := raw.drop (raw.length - 32)
    if mac ≠ P.hmac payload then .error .checkFailed
    else
      let exp := getUint32 ((payload.drop 1).take 4)
      if uint32 now > exp then .error .failed
      else
        let compressed := payload.drop (1 + 4 + 8)
        zlibResult (P.decompress compressed)

/-- Go `DecodeData(data)`, at the clock reading `now`. -/
def DecodeData (P : Prims) (now : Int) (data : List Nat) : Except CodecError (List Nat) :=
  match b64Decode data with
  | none => .error .invalid
  | some raw => openBytes P now raw

/-- Stand-in collaborators for running the envelope on concrete inputs:
stored (identity) compression and a 32-byte additive checksum as MAC. -/
def demoPrims : Prims :=
  { compress := fun raw => raw.map (fun b => b % 256)
    decompress := fun c => .ok c
    hmac := fun m => List.replicate 32 (m.sum % 256) }

/-- The payload "hello". -/
def helloBytes : List Nat := [104, 101, 108, 108, 111]

/-- A nonce of 8 bytes. -/
def demoNonce : List Nat := [1, 2, 3, 4, 5, 6, 7, 8]

/-- The byte string `l` with bit `j` of byte `i` flipped. -/
def flipBit (l : List Nat) (i j : Nat) : List Nat := l.set i (l.getD i 0 ^^^ 2 ^ j)

/-! ## The bit stream of the specification -/

/-- The `w` low bits of `n`, most significant first (big-endian). -/
def bitsBE (w n : Nat) : List Nat := (List.range w).reverse.map (fun i => n / 2 ^ i % 2)

/-- The logical bit stream as the specification words it: the length of the
payload in bytes as 32 bits, big-endian, then every byte of the payload as 8
bits, most significant first. -/
def specStream (p : List Nat) : List Nat := bitsBE 32 p.length ++ p.flatMap (bitsBE 8)

/-- A 168x1 grid whose blue samples are 0 up to column 158 and 0xFFFF from
column 159 on: the header (pixels 128 to 159) reads 1 and the eight pixels
after it carry the bits 11111111. -/
def highByteGrid : Image :=
  { bounds := ⟨0, 0, 168, 1⟩
    rgbaAt := fun x _ => if 159 ≤ x then ⟨0, 0, 0xFFFF, 0xFFFF⟩ else ⟨0, 0, 0, 0xFFFF⟩ }

/-! ## Base64url text -/

/-- The token with line feeds and carriage returns removed, as the decoder
of Go reads it. -/
def dropNewlines (s : List Nat) : List Nat := s.filter (fun c => !(c == 10 || c == 13))

/-- Unpadded base64url text: every character belongs to the alphabet
`A-Z a-z 0-9 - _`, and the length is not 1 modulo 4 (no byte string encodes
to such a length). -/
def isB64UrlText (s : List Nat) : Bool :=
  s.all (fun c => (b64Val c).isSome) && decide (s.length % 4 ≠ 1)

/-! ## The log dispatcher, `utils/arcmeta/logger.go` -/

/-- Go `MetaPayload`. -/
structure MetaPayload where
  Ob1 : String
  Ob2 : String
  Ob3 : String
  Ob4 : String
  Ob5 : String
deriving DecidableEq, Repr

/-- The package variables `logSwitch`, `defaultOb1` and `defaultOb3`. -/
structure LogConfig where
  logSwitch : Bool
  defaultOb1 : String
  defaultOb3 : String
deriving DecidableEq, Repr

/-- The package variables before any call: Go zero values. -/
def LogConfig.initial : LogConfig := { logSwitch := false, defaultOb1 := "", defaultOb3 := "" }

/-- Go `EnableObB()`. -/
def EnableObB (c : LogConfig) : LogConfig := { c with logSwitch := true }

/-- Go `DisableObB()`. -/
def DisableObB (c : LogConfig) : LogConfig := { c with logSwitch := false }

/-- Go `SetObA(ob1, ob3)`. -/
def SetObA (c : LogConfig) (ob1 ob3 : String) : LogConfig :=
  { c with defaultOb1 := ob1, defaultOb3 := ob3 }

/-- The errors of `archiveHandler`: "D: invalid meta", "E: unknown drv", and
the error a backend handler returned. -/
inductive ArchiveError where
  | invalidMeta
  | unknownDrv (drv : String)
  | backend (msg : String)
deriving DecidableEq, Repr

/-- The three handlers that `initHandlers` registers, as far as the
dispatcher sees them: the error each returns for an entry (`none` is nil).
What they do to the database is outside the repository. -/
structure Backends where
  mysql : MetaPayload → Option String
  pg : MetaPayload → Option String
  redis : MetaPayload → Option String

/-- One call of a registered backend handler: the driver name and the
entry passed to it. -/
structure Dispatch where
  drv : String
  entry : MetaPayload
deriving DecidableEq, Repr

/-- Go `archiveHandler(m)`: the error returned and the backend calls made. -/
def archiveHandler (B : Backends) (m : Option MetaPayload) :
    Option ArchiveError × List Dispatch :=
  match m with
  | none => (some .invalidMeta, [])
  | some m =>
    if m.Ob3 = "" then (some .invalidMeta, [])
    else if m.Ob3 = "mysql" then ((B.mysql m).map .backend, [⟨"mysql", m⟩])
    else if m.Ob3 = "pg" then ((B.pg m).map .backend, [⟨"pg", m⟩])
    else if m.Ob3 = "redis" then ((B.redis m).map .backend, [⟨"redis", m⟩])
    else (some (.unknownDrv m.Ob3), [])

/-- Step 1 of `LogMetaHandler`: the normal entry, sent only when the switch
is on and the defaults are set. -/
def logStep1 (c : LogConfig) (B : Backends) (normal : Option MetaPayload) :
    Option ArchiveError × List Dispatch :=
  match normal with
  | some n =>
    if c.logSwitch ∧ c.defaultOb1 ≠ "" ∧ c.defaultOb3 ≠ "" then
      archiveHandler B (some { Ob1 := c.defaultOb1, Ob2 := n.Ob2, Ob3 := c.defaultOb3,
                               Ob4 := "", Ob5 := "" })
    else (none, [])
  | none => (none, [])

/-- Step 2 of `LogMetaHandler`: the meta entry, its error dropped. -/
def logStep2 (B : Backends) (meta : Option MetaPayload) : List Dispatch :=
  match meta with
  | some m =>
    if m.Ob1 ≠ "" ∧ m.Ob2 ≠ "" ∧ m.Ob3 ≠ "" then (archiveHandler B (some m)).2 else []
  | none => []

/-- Go `LogMetaHandler(normal, meta)`: the two results, and the backend
calls made, in order. -/
def LogMetaHandler (c : LogConfig) (B : Backends) (normal meta : Option MetaPayload) :
    (String × Option ArchiveError) × List Dispatch :=
  (("ok", (logStep1 c B normal).1), (logStep1 c B normal).2 ++ logStep2 B meta)

/-- Backends that accept every entry. -/
def okBackends : Backends :=
  { mysql := fun _ => none, pg := fun _ => none, redis := fun _ => none }

/-- A meta entry with non-empty `Ob1`, `Ob2` and `Ob3`. -/
def demoMeta : MetaPayload :=
  { Ob1 := "user:pw@tcp(db:3306)/logs", Ob2 := "INSERT INTO imgpipe VALUES (1)", Ob3 := "mysql",
    Ob4 := "", Ob5 := "" }

/-! ## The pipeline, `pkg/imageops/imageops.go` -/

/-- Go `imageops.Handler`, `func([]byte) ([]byte, error)`. A Go function can
act on the world around it; `σ` is the state it reads and changes, so that
calling a handler or not is visible. -/
abbrev Handler (σ ε : Type) := List Nat → σ → (List Nat × Option ε) × σ

/-- Go `imageops.Pipeline`. -/
structure Pipeline (σ ε : Type) where
  steps : List (Handler σ ε)

/-- Go `NewPipeline()`. -/
def NewPipeline {σ ε : Type} : Pipeline σ ε := { steps := [] }

/-- Go `(*Pipeline).Add(fn)`. -/
def Pipeline.Add {σ ε : Type} (p : Pipeline σ ε) (fn : Handler σ ε) : Pipeline σ ε :=
  { steps := p.steps ++ [fn] }

/-- The loop of `Run` over the remaining steps: `data, err = step(data)`,
and `return nil, err` at the first error. -/
def runSteps {σ ε : Type} : List (Handler σ ε) → List Nat → σ → Except ε (List Nat) × σ
  | [], data, s => (.ok data, s)
  | step :: rest, data, s =>
    match (step data s).1.2 with
    | some err => (.error err, (step data s).2)
    | none => runSteps rest (step data s).1.1 (step data s).2

/-- Go `(*Pipeline).Run(data)`; `.error err` stands for `(nil, err)`. -/
def Pipeline.Run {σ ε : Type} (p : Pipeline σ ε) (data : List Nat) (s : σ) :
    Except ε (List Nat) × σ :=
  runSteps p.steps data s

/-! ## The rotations, `pkg/rotate/rotate.go` -/

/-- Go `Rectangle.Dx()`. -/
def Rectangle.Dx (r : Rectangle) : Int := r.maxX - r.minX

/-- Go `Rectangle.Dy()`. -/
def Rectangle.Dy (r : Rectangle) : Int := r.maxY - r.minY

/-- Go `image.Rect(x0, y0, x1, y1)`: the coordinates are swapped where
needed so that the rectangle is well-formed. -/
def Rect (x0 y0 x1 y1 : Int) : Rectangle :=
  { minX := min x0 x1, minY := min y0 y1, maxX := max x0 x1, maxY := max y0 y1 }

/-- Go `color.RGBAModel.Convert` on a colour given by its `RGBA()` samples,
as `(*image.RGBA).Set` applies it. -/
def rgbaModel (c : Sample) : RGBA :=
  ⟨(c.r >>> 8) % 256, (c.g >>> 8) % 256, (c.b >>> 8) % 256, (c.a >>> 8) % 256⟩

/-- The two nested loops shared by the three branches of `handlerRotate`:
for `y < sh`, `x < sw`, set the destination point `pos x y` to the source
colour at `(sb.Min.X + x, sb.Min.Y + y)`. -/
def rotateLoops (src : Image) (pos : Int → Int → Int × Int) (dst : ImageRGBA) : ImageRGBA :=
  (List.range src.bounds.Dy.toNat).foldl
    (fun dst (y : Nat) => (List.range src.bounds.Dx.toNat).foldl
      (fun dst (x : Nat) =>
        dst.Set (pos x y).1 (pos x y).2
          (rgbaModel (src.rgbaAt (src.bounds.minX + (x : Int)) (src.bounds.minY + (y : Int)))))
      dst)
    dst

/-- The `Rotate90CW` branch of `handlerRotate`: `dst.Set(sh-1-y, x, ...)` on
`image.NewRGBA(image.Rect(0, 0, sh, sw))`. -/
def rotate90CW (src : Image) : ImageRGBA :=
  rotateLoops src (fun x y => (src.bounds.Dy - 1 - y, x))
    (NewRGBA (Rect 0 0 src.bounds.Dy src.bounds.Dx))

/-- The `Rotate180` branch of `handlerRotate`: `dst.Set(sw-1-x, sh-1-y, ...)`
on `image.NewRGBA(image.Rect(0, 0, sw, sh))`. -/
def rotate180 (src : Image) : ImageRGBA :=
  rotateLoops src (fun x y => (src.bounds.Dx - 1 - x, src.bounds.Dy - 1 - y))
    (NewRGBA (Rect 0 0 src.bounds.Dx src.bounds.Dy))

/-- The `Rotate270CW` branch of `handlerRotate`: `dst.Set(y, sw-1-x, ...)` on
`image.NewRGBA(image.Rect(0, 0, sh, sw))`. -/
def rotate270CW (src : Image) : ImageRGBA :=
  rotateLoops src (fun x y => (y, src.bounds.Dx - 1 - x))
    (NewRGBA (Rect 0 0 src.bounds.Dy src.bounds.Dx))

/-! ## The report entry point, `pkg/archive/report.go` -/

/-- The errors `MetaReport` returns: the error of `DecodeData`, the error of
`json.Unmarshal`, and the error result of `LogMetaHandler`. -/
inductive ReportError where
  | codec (e : CodecError)
  | json
  | archive (e : ArchiveError)
deriving DecidableEq, Repr

/-- The second half of `MetaReport`, on the bytes `raw` that `DecodeData`
returned: parse, repackage, forward. `unmarshal` is `json.Unmarshal` into a
`MetaPayload` (`none` for its error). -/
def reportDecoded (unmarshal : List Nat → Option MetaPayload) (c : LogConfig) (B : Backends)
    (raw : List Nat) : Option ReportError × List Dispatch :=
  match unmarshal raw with
  | none => (some .json, [])
  | some mp =>
    let payload : MetaPayload :=
      { Ob1 := mp.Ob1, Ob2 := mp.Ob2, Ob3 := mp.Ob3, Ob4 := mp.Ob4, Ob5 := mp.Ob5 }
    ((LogMetaHandler c B none (some payload)).1.2.map .archive,
      (LogMetaHandler c B none (some payload)).2)

/-- Go `MetaReport(meta)`, at the clock reading `now`: the error returned
(`none` is nil) and the backend calls made. -/
def MetaReport (P : Prims) (now : Int) (unmarshal : List Nat → Option MetaPayload)
    (c : LogConfig) (B : Backends) (meta : List Nat) : Option ReportError × List Dispatch :=
  match DecodeData P now meta with
  | .error e => (some (.codec e), [])
  | .ok raw => reportDecoded unmarshal c B raw

/-- Backends whose handlers all fail. -/
def downBackends : Backends :=
  { mysql := fun _ => some "connection refused", pg := fun _ => some "connection refused",
    redis := fun _ => some "connection refused" }

/-! ## `float64` arithmetic -/

/-- A `float64`: a finite value `m * 2^e`, an infinity, or NaN. The results
of the operations below carry 53 significant bits. The exponent range of the
format is not modelled (the operands here are converted `int` values and
their quotients and products, far inside it), and the two zeros are one
value. -/
inductive Float64 where
  | fin (m : Int) (e : Int)
  | inf (neg : Bool)
  | nan
deriving DecidableEq, Repr

/-- The integer `e` with `2^e ≤ p/q < 2^(e+1)`, for `p, q > 0`. -/
def floorLog2 (p q : Nat) : Int :=
  if bitLen q ≤ bitLen p then
    (if q * 2 ^ (bitLen p - bitLen q) ≤ p then ((bitLen p - bitLen q : Nat) : Int)
     else ((bitLen p - bitLen q : Nat) : Int) - 1)
  else
    (if q ≤ p * 2 ^ (bitLen q - bitLen p) then -((bitLen q - bitLen p : Nat) : Int)
     else -((bitLen q - bitLen p : Nat) : Int) - 1)

/-- Rounding of `p/q` (`p, q > 0`) to 53 significant bits, to the nearest
value and on a tie to the one with an even last bit: the result is
`m * 2^e` for the pair `(m, e)` returned. -/
def roundFrac (p q : Nat) : Nat × Int :=
  let e := floorLog2 p q - 52
  let N := if e < 0 then p * 2 ^ (-e).toNat else p
  let D := if e < 0 then q else q * 2 ^ e.toNat
  let f := N / D
  let r := N % D
  (if 2 * r < D then f else if D < 2 * r then f + 1 else if f % 2 = 0 then f else f + 1, e)

/-- The `float64` nearest to `± (p/q) * 2^k`. -/
def Float64.round (neg : Bool) (p q : Nat) (k : Int) : Float64 :=
  if p = 0 then .fin 0 0
  else .fin (if neg then -((roundFrac p q).1 : Int) else (roundFrac p q).1) ((roundFrac p q).2 + k)

/-- Go `float64(n)` for an `int`. -/
def Float64.ofInt (n : Int) : Float64 := Float64.round (decide (n < 0)) n.natAbs 1 0

/-- Go `a / b` on `float64`. -/
def Float64.div : Float64 → Float64 → Float64
  | .fin m1 e1, .fin m2 e2 =>
    if m2 = 0 then (if m1 = 0 then .nan else .inf (decide (m1 < 0)))
    else Float64.round (decide (m1 < 0) != decide (m2 < 0)) m1.natAbs m2.natAbs (e1 - e2)
  | .fin _ _, .inf _ => .fin 0 0
  | .inf s, .fin m2 _ => .inf (s != decide (m2 < 0))
  | .inf _, .inf _ => .nan
  | .nan, _ => .nan
  | _, .nan => .nan

/-- Go `a * b` on `float64`. -/
def Float64.mul : Float64 → Float64 → Float64
  | .fin m1 e1, .fin m2 e2 =>
    Float64.round (decide (m1 < 0) != decide (m2 < 0)) (m1.natAbs * m2.natAbs) 1 (e1 + e2)
  | .fin m1 _, .inf s => if m1 = 0 then .nan else .inf (s != decide (m1 < 0))
  | .inf s, .fin m2 _ => if m2 = 0 then .nan else .inf (s != decide (m2 < 0))
  | .inf s1, .inf s2 => .inf (s1 != s2)
  | .nan, _ => .nan
  | _, .nan => .nan

/-- Go `a < b` on `float64`: false when either side is NaN. -/
def Float64.lt : Float64 → Float64 → Bool
  | .fin m1 e1, .fin m2 e2 =>
    decide (m1 * 2 ^ (e1 - min e1 e2).toNat < m2 * 2 ^ (e2 - min e1 e2).toNat)
  | .fin _ _, .inf s => !s
  | .inf s, .fin _ _ => s
  | .inf s1, .inf s2 => s1 && !s2
  | .nan, _ => false
  | _, .nan => false

/-- Go `int(f)` for a `float64`: the fraction is discarded (truncation
towards zero); `none` where the value is NaN, infinite or outside the range
of a 64-bit `int`, for which Go leaves the result to the implementation. -/
def Float64.toInt : Float64 → Option Int
  | .fin m e =>
    if -(2 : Int) ^ 63 ≤ (if 0 ≤ e then m * 2 ^ e.toNat else Int.tdiv m (2 ^ (-e).toNat))
        ∧ (if 0 ≤ e then m * 2 ^ e.toNat else Int.tdiv m (2 ^ (-e).toNat)) < (2 : Int) ^ 63 then
      some (if 0 ≤ e then m * 2 ^ e.toNat else Int.tdiv m (2 ^ (-e).toNat))
    else none
  | .inf _ => none
  | .nan => none

/-- Go `minFloat(a, b)` of `pkg/resize/resize.go`. -/
def minFloat (a b : Float64) : Float64 := if a.lt b then a else b

/-- Go `maxFloat(a, b)` of `pkg/resize/resize.go`. -/
def maxFloat (a b : Float64) : Float64 := if b.lt a then a else b

/-! ## Drawing routines of the libraries -/

/-- Go `draw.Op`. -/
inductive Op where
  | Over
  | Src
deriving DecidableEq, Repr

/-- The two drawing routines the handlers call, which are not part of the
repository: `Scale d dr s sr` is `xdraw.CatmullRom.Scale(d, dr, s, sr,
xdraw.Over, nil)` and `Draw d r s sp op` is `draw.Draw(d, r, s, sp, op)`;
each returns the destination after the call. -/
structure Raster where
  Scale : ImageRGBA → Rectangle → Image → Rectangle → ImageRGBA
  Draw : ImageRGBA → Rectangle → Image → Int × Int → Op → ImageRGBA

/-- What the handlers rely on: the routines write pixels of the destination
and leave its rectangle as it is. -/
structure Raster.WF (K : Raster) : Prop where
  scale_Rect : ∀ d dr s sr, (K.Scale d dr s sr).Rect = d.Rect
  draw_Rect : ∀ d r s sp op, (K.Draw d r s sp op).Rect = d.Rect

/-- Stand-in routines for running the handlers on concrete inputs: they
leave the destination unchanged. -/
def idRaster : Raster :=
  { Scale := fun d _ _ _ => d, Draw := fun d _ _ _ _ => d }

/-- The ways a handler ends without an image: an `int(f)` conversion whose
result Go leaves to the implementation, the panic of `image.NewRGBA`
("Rectangle has huge or negative dimensions"), and the error of
`jpeg.Encode` ("jpeg: image is too large to encode"). -/
inductive HandlerFailure where
  | unspecified
  | hugeCanvas
  | tooLarge
deriving DecidableEq, Repr

/-- Go `int` arithmetic on a 64-bit platform: the exact result of `+`, `-`
or `*` wrapped to 64 bits, two's complement. -/
def wrapInt (v : Int) : Int := (v + 2 ^ 63) % 2 ^ 64 - 2 ^ 63

/-- The test `image.NewRGBA(r)` makes before it allocates
(`mul3NonNeg(4, r.Dx(), r.Dy())` is not negative): no negative side, and
`4 * Dx` and `4 * Dx * Dy` fit their 64-bit words. The allocation itself is
not modelled. -/
def newRGBAFits (r : Rectangle) : Bool :=
  decide (0 ≤ r.Dx ∧ 0 ≤ r.Dy ∧ 4 * r.Dx < 2 ^ 64 ∧ 4 * r.Dx * r.Dy < 2 ^ 63)

/-- Go `jpeg.Encode(out, m, o)` into a `bytes.Buffer`, as far as the result
of a handler goes: the error when a side of `m.Bounds()` reaches `1 << 16`,
and otherwise the encoding of the grid `m`, for which `m` itself stands. -/
def jpegEncode (m : ImageRGBA) : Except HandlerFailure ImageRGBA :=
  if m.Rect.Dx ≥ 65536 ∨ m.Rect.Dy ≥ 65536 then .error .tooLarge else .ok m

/-- Go `jpeg.Encode(out, img, o)` for an image that is not an `*image.RGBA`
built by the handler. -/
def jpegEncodeImage (img : Image) : Except HandlerFailure Image :=
  if img.bounds.Dx ≥ 65536 ∨ img.bounds.Dy ≥ 65536 then .error .tooLarge else .ok img

/-! ## Resizing, `pkg/resize/resize.go` -/

/-- Go `resize.Options`. -/
structure resize.Options where
  Mode : Int
  Width : Int
  Height : Int
  Quality : Int
deriving DecidableEq, Repr

/-- Go `resize.ModeStretch`. -/
def resize.ModeStretch : Int := 1

/-- Go `resize.ModeFit`. -/
def resize.ModeFit : Int := 2

/-- Go `resize.ModeFill`. -/
def resize.ModeFill : Int := 3

/-- Go `max(a, b)` of the package. -/
def resize.max (a b : Int) : Int := if a > b then a else b

/-- The sizes `tw, th` of the `ModeFit` branch, from the clamped box `W`,
`H` and the source size `sw`, `sh`; `none` where an `int(...)` conversion
has no defined result. -/
def resize.fitSize (W H sw sh : Int) : Option (Int × Int) :=
  let scale := minFloat ((Float64.ofInt W).div (Float64.ofInt sw))
    ((Float64.ofInt H).div (Float64.ofInt sh))
  match ((Float64.ofInt sw).mul scale).toInt, ((Float64.ofInt sh).mul scale).toInt with
  | some a, some b => some (resize.max 1 a, resize.max 1 b)
  | _, _ => none

/-- The sizes `ww, hh` of the `ModeFill` branch. -/
def resize.fillSize (W H sw sh : Int) : Option (Int × Int) :=
  let scale := maxFloat ((Float64.ofInt W).div (Float64.ofInt sw))
    ((Float64.ofInt H).div (Float64.ofInt sh))
  match ((Float64.ofInt sw).mul scale).toInt, ((Float64.ofInt sh).mul scale).toInt with
  | some a, some b => some (resize.max 1 a, resize.max 1 b)
  | _, _ => none

/-- Go `handlerResize(opt)` applied to the decoded image `src`: `.ok dst`
when the handler returns the JPEG encoding of the grid `dst` with a nil
error, and otherwise the way it fails. -/
def resize.handlerResize (K : Raster) (opt : resize.Options) (src : Image) :
    Except HandlerFailure ImageRGBA :=
  let sb := src.bounds
  let W := resize.max 1 opt.Width
  let H := resize.max 1 opt.Height
  if opt.Mode = resize.ModeStretch then
    if newRGBAFits (Rect 0 0 W H) then
      jpegEncode (K.Scale (NewRGBA (Rect 0 0 W H)) (NewRGBA (Rect 0 0 W H)).Rect src sb)
    else .error .hugeCanvas
  else if opt.Mode = resize.ModeFit then
    match resize.fitSize W H sb.Dx sb.Dy with
    | none => .error .unspecified
    | some t =>
      if newRGBAFits (Rect 0 0 t.1 t.2) then
        jpegEncode (K.Scale (NewRGBA (Rect 0 0 t.1 t.2)) (NewRGBA (Rect 0 0 t.1 t.2)).Rect src sb)
      else .error .hugeCanvas
  else if opt.Mode = resize.ModeFill then
    match resize.fillSize W H sb.Dx sb.Dy with
    | none => .error .unspecified
    | some t =>
      if newRGBAFits (Rect 0 0 t.1 t.2) then
        let tmp := K.Scale (NewRGBA (Rect 0 0 t.1 t.2)) (NewRGBA (Rect 0 0 t.1 t.2)).Rect src sb
        let offX := Int.tdiv (wrapInt (t.1 - W)) 2
        let offY := Int.tdiv (wrapInt (t.2 - H)) 2
        let crop := Rect offX offY (wrapInt (offX + W)) (wrapInt (offY + H))
        if newRGBAFits (Rect 0 0 W H) then
          jpegEncode (K.Draw (NewRGBA (Rect 0 0 W H)) (NewRGBA (Rect 0 0 W H)).Rect tmp.toImage
            (crop.minX, crop.minY) .Src)
        else .error .hugeCanvas
      else .error .hugeCanvas
  else
    if newRGBAFits sb then jpegEncode (K.Draw (NewRGBA sb) sb src (sb.minX, sb.minY) .Src)
    else .error .hugeCanvas

/-! ## Cropping, `pkg/crop/crop.go` -/

/-- Go `crop.Options`. -/
structure crop.Options where
  Mode : Int
  X : Int
  Y : Int
  Width : Int
  Height : Int
  RatioW : Int
  RatioH : Int
  Quality : Int
deriving DecidableEq, Repr

/-- Go `crop.ModeRect`. -/
def crop.ModeRect : Int := 1

/-- Go `crop.ModeCenterRatio`. -/
def crop.ModeCenterRatio : Int := 2

/-- Go `clamp(v, lo, hi)` of the package. -/
def crop.clamp (v lo hi : Int) : Int := if v < lo then lo else if v > hi then hi else v

/-- Go `max(a, b)` of the package. -/
def crop.max (a b : Int) : Int := if a > b then a else b

/-- The `ModeRect` branch of `handlerCrop`: `(x, y, w, h)`. -/
def crop.rectXYWH (opt : crop.Options) (b : Rectangle) : Int × Int × Int × Int :=
  let x := crop.clamp opt.X b.minX b.maxX
  let y := crop.clamp opt.Y b.minY b.maxY
  let w := crop.clamp opt.Width 1 (b.maxX - x)
  let h := crop.clamp opt.Height 1 (b.maxY - y)
  (x, y, w, h)

/-- The sizes `cw, ch` of the `ModeCenterRatio` branch of `handlerCrop`;
`none` where an `int(...)` conversion has no defined result. -/
def crop.centerSize (rw rh W H : Int) : Option (Int × Int) :=
  let target := (Float64.ofInt rw).div (Float64.ofInt rh)
  let src := (Float64.ofInt W).div (Float64.ofInt H)
  if target.lt src then
    (((Float64.ofInt H).mul target).toInt).map (fun cw => (cw, H))
  else
    (((Float64.ofInt W).div target).toInt).map (fun ch => (W, ch))

/-- The rectangle `cropRect` of `handlerCrop`: `none` in the default branch,
which draws nothing, and where a conversion has no defined result. -/
def crop.cropRect (opt : crop.Options) (b : Rectangle) : Option Rectangle :=
  if opt.Mode = crop.ModeRect then
    some (Rect (crop.rectXYWH opt b).1 (crop.rectXYWH opt b).2.1
      ((crop.rectXYWH opt b).1 + (crop.rectXYWH opt b).2.2.1)
      ((crop.rectXYWH opt b).2.1 + (crop.rectXYWH opt b).2.2.2))
  else if opt.Mode = crop.ModeCenterRatio then
    (crop.centerSize (crop.max 1 opt.RatioW) (crop.max 1 opt.RatioH) b.Dx b.Dy).map (fun s =>
      let x := b.minX + Int.tdiv (b.Dx - s.1) 2
      let y := b.minY + Int.tdiv (b.Dy - s.2) 2
      Rect x y (x + s.1) (y + s.2))
  else none

/-- Go `handlerCrop(opt)` applied to the decoded image `img`: `.ok m` when
the handler returns the JPEG encoding of `m` with a nil error, and otherwise
the way it fails. -/
def crop.handlerCrop (K : Raster) (opt : crop.Options) (img : Image) :
    Except HandlerFailure Image :=
  if opt.Mode = crop.ModeRect ∨ opt.Mode = crop.ModeCenterRatio then
    match crop.cropRect opt img.bounds with
    | none => .error .unspecified
    | some r =>
      if newRGBAFits (Rect 0 0 r.Dx r.Dy) then
        (jpegEncode (K.Draw (NewRGBA (Rect 0 0 r.Dx r.Dy)) (NewRGBA (Rect 0 0 r.Dx r.Dy)).Rect img
          (r.minX, r.minY) .Src)).map (fun d => d.toImage)
      else .error .hugeCanvas
  else jpegEncodeImage img

/-! ## Borders, `pkg/border/border.go` -/

/-- Go `border.Options`. -/
structure border.Options where
  Mode : Int
  Thickness : Int
  Color : RGBA
  Quality : Int
deriving DecidableEq, Repr

/-- Go `max(a, b)` of the package. -/
def border.max (a b : Int) : Int := if a > b then a else b

/-- The `ModeFit` size as claim C22 words it: `tw = max(1, floor(sw*s))` and
`th = max(1, floor(sh*s))` for `s = min(Width/sw, Height/sh)`, over the
rationals. -/
def fitSizeExact (Width Height sw sh : Int) : Int × Int :=
  (max 1 ⌊(sw : ℚ) * min ((Width : ℚ) / sw) ((Height : ℚ) / sh)⌋,
    max 1 ⌊(sh : ℚ) * min ((Width : ℚ) / sw) ((Height : ℚ) / sh)⌋)

/-- The centre-ratio crop size as claim C23 words it:
`(W, floor(W*RatioH/RatioW))` when `W/H ≤ RatioW/RatioH` and
`(floor(H*RatioW/RatioH), H)` otherwise, over the rationals. -/
def centerSizeExact (RatioW RatioH W H : Int) : Int × Int :=
  if (W : ℚ) / H ≤ (RatioW : ℚ) / RatioH then (W, ⌊(W : ℚ) * RatioH / RatioW⌋)
  else (⌊(H : ℚ) * RatioW / RatioH⌋, H)

/-! # Properties -/

/-! ## Row-major traversal -/


theorem foldl_rowMajor {σ : Type} (W H : Nat) (g : Nat → Nat → σ → σ) (s0 : σ) :
    (List.range H).foldl (fun s j => (List.range W).foldl (fun s i => g i j s) s) s0
      = (List.range (W * H)).foldl (fun s k => g (k % W) (k / W) s) s0 := by
  induction H with
  | zero => simp
  | succ H ih =>
    rw [List.range_succ, List.foldl_append, ih, Nat.mul_succ, List.range_add,
      List.foldl_append, List.foldl_map]
    simp only [List.foldl_cons, List.foldl_nil]
    apply List.foldl_ext
    intro s i hi
    have hi' : i < W := List.mem_range.mp hi
    have hW : 0 < W := by omega
    have h1 : (W * H + i) % W = i := by
      rw [Nat.mul_add_mod]; exact Nat.mod_eq_of_lt hi'
    have h2 : (W * H + i) / W = H := by
      rw [Nat.mul_add_div hW, Nat.div_eq_of_lt hi']; simp
    rw [h1, h2]

theorem succ_mod_div (W k : Nat) (hW : 0 < W) :
    (k % W + 1 = W → (k + 1) % W = 0 ∧ (k + 1) / W = k / W + 1) ∧
    (k % W + 1 ≠ W → (k + 1) % W = k % W + 1 ∧ (k + 1) / W = k / W) := by
  have hlt := Nat.mod_lt k hW
  have hdm := Nat.div_add_mod k W
  constructor
  · intro h
    have : (k + 1) / W = k / W + 1 ∧ (k + 1) % W = 0 := by
      rw [Nat.div_mod_unique hW]
      constructor
      · rw [Nat.mul_add]; omega
      · exact hW
    exact ⟨this.2, this.1⟩
  · intro h
    have : (k + 1) / W = k / W ∧ (k + 1) % W = k % W + 1 := by
      rw [Nat.div_mod_unique hW]
      constructor
      · omega
      · omega
    exact ⟨this.2, this.1⟩

theorem headerFold (bit : Nat → Nat) (step : HdrState → Nat → HdrState)
    (hstep : ∀ s k, step s k =
      if s.bitIdx < 32 then
        if s.skip > 0 then { skip := s.skip - 1, bitIdx := s.bitIdx, lengthBits := s.lengthBits }
        else { skip := s.skip, bitIdx := s.bitIdx + 1, lengthBits := s.lengthBits ++ [bit k] }
      else s)
    (l : List Nat) (s : HdrState) :
    (l.foldl step s).lengthBits
      = s.lengthBits ++ ((l.drop s.skip.toNat).take (32 - s.bitIdx)).map bit := by
  induction l generalizing s with
  | nil => simp
  | cons a l ih =>
    rw [List.foldl_cons, ih, hstep]
    by_cases h1 : s.bitIdx < 32
    · by_cases h2 : s.skip > 0
      · simp only [h1, h2, if_true]
        have : s.skip.toNat = (s.skip - 1).toNat + 1 := by omega
        rw [this, List.drop_succ_cons]
      · simp only [h1, h2, if_true, if_false]
        have h3 : s.skip.toNat = 0 := by omega
        have h4 : 32 - s.bitIdx = (32 - (s.bitIdx + 1)) + 1 := by omega
        rw [h3, h4]
        simp
    · simp only [h1, if_false]
      have : 32 - s.bitIdx = 0 := by omega
      simp [this]

theorem drop_range'_eq (a s n : Nat) :
    (List.range' s n).drop a = List.range' (s + a) (n - a) := by
  induction a generalizing s n with
  | zero => simp
  | succ a ih =>
    cases n with
    | zero => simp
    | succ n =>
      rw [List.range'_succ, List.drop_succ_cons, ih]
      have h1 : s + 1 + a = s + (a + 1) := by omega
      have h2 : n + 1 - (a + 1) = n - a := by omega
      rw [h1, h2]

theorem take_range'_eq (m s n : Nat) :
    (List.range' s n).take m = List.range' s (min m n) := by
  induction m generalizing s n with
  | zero => simp
  | succ m ih =>
    cases n with
    | zero => simp
    | succ n =>
      rw [List.range'_succ, List.take_succ_cons, ih]
      have h : min (m + 1) (n + 1) = min m n + 1 := by omega
      rw [h, List.range'_succ]

theorem drop_take_range (N a n : Nat) :
    ((List.range N).drop a).take n = List.range' a (min n (N - a)) := by
  rw [List.range_eq_range', drop_range'_eq, take_range'_eq]
  simp

theorem readHeader_eq (img : Image) (skip : Int) :
    readHeader img skip
      = (List.range' skip.toNat (min 32 (img.npix - skip.toNat))).map img.bit := by
  unfold readHeader
  rw [foldl_rowMajor img.bounds.dx img.bounds.dy
    (fun i j s => headerStep img (img.bounds.minX + i) (img.bounds.minY + j) s)]
  rw [headerFold img.bit
    (fun s k => headerStep img (img.bounds.minX + ((k % img.bounds.dx : Nat) : Int))
      (img.bounds.minY + ((k / img.bounds.dx : Nat) : Int)) s) (fun s k => rfl)]
  simp only [List.nil_append, Nat.sub_zero]
  rw [drop_take_range]
  rfl

theorem skipCursor_eq (img : Image) (hW : 0 < img.bounds.dx) (n : Nat) :
    skipCursor img.bounds n = (img.colOf n, img.rowOf n) := by
  induction n with
  | zero => simp [skipCursor, Image.colOf, Image.rowOf]
  | succ n ih =>
    rw [skipCursor, ih]
    have hlt := Nat.mod_lt n hW
    have hdx : ((img.bounds.dx : Nat) : Int) = img.bounds.maxX - img.bounds.minX := by
      unfold Rectangle.dx at hW ⊢; omega
    obtain ⟨ha, hb⟩ := succ_mod_div img.bounds.dx n hW
    by_cases h : n % img.bounds.dx + 1 = img.bounds.dx
    · obtain ⟨h1, h2⟩ := ha h
      have hc : img.colOf n + 1 ≥ img.bounds.maxX := by
        unfold Image.colOf; omega
      simp only [advance, hc, if_true]
      simp only [Image.colOf, Image.rowOf, h1, h2]
      simp; omega
    · obtain ⟨h1, h2⟩ := hb h
      have hc : ¬ (img.colOf n + 1 ≥ img.bounds.maxX) := by
        unfold Image.colOf; omega
      simp only [advance, hc, if_false]
      simp only [Image.colOf, Image.rowOf, h1, h2]
      simp; omega

theorem rowOf_lt_iff (img : Image) (hW : 0 < img.bounds.dx) (k : Nat) :
    img.rowOf k < img.bounds.maxY ↔ k < img.npix := by
  unfold Image.rowOf Image.npix
  have h1 : k / img.bounds.dx < img.bounds.dy ↔ k < img.bounds.dx * img.bounds.dy := by
    rw [Nat.div_lt_iff_lt_mul hW, Nat.mul_comm]
  rw [← h1]
  unfold Rectangle.dy
  generalize k / img.bounds.dx = q
  omega

theorem readBody_eq (img : Image) (hW : 0 < img.bounds.dx) (n k : Nat) (bits : List Nat) :
    readBody img n (img.colOf k, img.rowOf k) bits
      = bits ++ (List.range' k (min n (img.npix - k))).map img.bit := by
  induction n generalizing k bits with
  | zero => simp [readBody]
  | succ n ih =>
    rw [readBody]
    by_cases h : k < img.npix
    · have h' := (rowOf_lt_iff img hW k).mpr h
      simp only [h', if_true]
      have hadv : advance img.bounds (img.colOf k, img.rowOf k)
          = (img.colOf (k + 1), img.rowOf (k + 1)) := by
        have e1 := skipCursor_eq img hW (k + 1)
        rw [skipCursor, skipCursor_eq img hW k] at e1
        exact e1
      rw [hadv, ih]
      have hm : min (n + 1) (img.npix - k) = min n (img.npix - (k + 1)) + 1 := by omega
      rw [hm, List.range'_succ]
      simp [Image.bit]
    · have h' : ¬ (img.rowOf k < img.bounds.maxY) := fun hc => h ((rowOf_lt_iff img hW k).mp hc)
      simp only [h', if_false]
      have hm : min (n + 1) (img.npix - k) = 0 := by omega
      simp [hm]

/-! ## `extractMetaFromImg` in row-major terms -/

theorem extractAt_eq (o : Nat) (img : Image) :
    extractAt o img =
      if img.npix < o + 32 then .error .headerIncomplete
      else if parseInt32 ((List.range' o 32).map img.bit) ≤ 0
          ∨ parseInt32 ((List.range' o 32).map img.bit) > 4096 then
        .error (.invalidLength (parseInt32 ((List.range' o 32).map img.bit)))
      else .ok (bitsToMsg ((List.range' (o + 32)
        (min ((parseInt32 ((List.range' o 32).map img.bit)).toNat * 8)
          (img.npix - (o + 32)))).map img.bit)) := by
  unfold extractAt
  simp only [readHeader_eq, Int.toNat_ofNat, List.length_map, List.length_range']
  by_cases h : img.npix < o + 32
  · have h1 : min 32 (img.npix - o) ≠ 32 := by omega
    simp [h, h1]
  · have h1 : min 32 (img.npix - o) = 32 := by omega
    have hW : 0 < img.bounds.dx := by
      rcases Nat.eq_zero_or_pos img.bounds.dx with h0 | h0
      · exfalso; apply h; unfold Image.npix; rw [h0]; simp
      · exact h0
    simp only [h, h1, if_false, ne_eq, not_true_eq_false]
    rw [skipCursor_eq img hW, readBody_eq img hW]
    simp

/-! ## Binary digits -/

theorem parseBin_foldl (l : List Nat) (a : Nat) :
    l.foldl (fun n d => 2 * n + d) a = a * 2 ^ l.length + parseBin l := by
  unfold parseBin
  induction l generalizing a with
  | nil => simp
  | cons d l ih =>
    rw [List.foldl_cons, List.foldl_cons, ih (2 * a + d), ih (2 * 0 + d), List.length_cons,
      pow_succ]
    ring

theorem parseBin_cons (d : Nat) (l : List Nat) :
    parseBin (d :: l) = d * 2 ^ l.length + parseBin l := by
  have h := parseBin_foldl l (2 * 0 + d)
  simp only [Nat.mul_zero, Nat.zero_add] at h
  unfold parseBin
  rw [List.foldl_cons]
  simpa [parseBin] using h

theorem parseBin_lt (l : List Nat) (h : ∀ d ∈ l, d < 2) : parseBin l < 2 ^ l.length := by
  induction l with
  | nil => simp [parseBin]
  | cons d l ih =>
    rw [parseBin_cons, List.length_cons, pow_succ]
    have h1 := h d (List.mem_cons_self _ _)
    have h2 := ih (fun x hx => h x (List.mem_cons_of_mem _ hx))
    have h3 : d * 2 ^ l.length ≤ 1 * 2 ^ l.length := Nat.mul_le_mul_right _ (by omega)
    omega

/-- The `w` low binary digits of `n`, most significant first. -/
theorem parseBin_digits (w n : Nat) :
    parseBin ((List.range w).reverse.map (fun i => n / 2 ^ i % 2)) = n % 2 ^ w := by
  induction w with
  | zero => simp [parseBin, Nat.mod_one]
  | succ w ih =>
    rw [List.range_succ, List.reverse_append, List.reverse_singleton, List.singleton_append,
      List.map_cons, parseBin_cons, ih, Nat.mod_pow_succ]
    simp only [List.length_map, List.length_reverse, List.length_range]
    ring

theorem bitLenAux_le (fuel n w : Nat) (h : n < 2 ^ w) : bitLenAux fuel n ≤ w := by
  induction fuel generalizing n w with
  | zero => simp [bitLenAux]
  | succ fuel ih =>
    rw [bitLenAux]
    by_cases h0 : n = 0
    · simp [h0]
    · simp only [h0, if_false]
      cases w with
      | zero => simp at h; omega
      | succ w =>
        have : n / 2 < 2 ^ w := by
          rw [pow_succ] at h; omega
        have := ih (n / 2) w this
        omega

theorem fmtBin_of_lt (w n : Nat) (hw : 1 ≤ w) (h : n < 2 ^ w) :
    fmtBin w n = (List.range w).reverse.map (fun i => n / 2 ^ i % 2) := by
  unfold fmtBin
  have h1 : bitLen n ≤ w := bitLenAux_le n n w h
  have h2 : max w (max 1 (bitLen n)) = w := by omega
  rw [h2]

theorem fmtBin_length (w n : Nat) (hw : 1 ≤ w) (h : n < 2 ^ w) : (fmtBin w n).length = w := by
  rw [fmtBin_of_lt w n hw h]; simp

theorem parseBin_fmtBin (w n : Nat) (hw : 1 ≤ w) (h : n < 2 ^ w) : parseBin (fmtBin w n) = n := by
  rw [fmtBin_of_lt w n hw h, parseBin_digits, Nat.mod_eq_of_lt h]

theorem fmtBin_lt_two (w n : Nat) : ∀ d ∈ fmtBin w n, d < 2 := by
  intro d hd
  unfold fmtBin at hd
  rw [List.mem_map] at hd
  obtain ⟨i, _, rfl⟩ := hd
  exact Nat.mod_lt _ (by norm_num)

theorem fullBitsOf_lt_two (m : List Nat) : ∀ d ∈ fullBitsOf m, d < 2 := by
  intro d hd
  unfold fullBitsOf at hd
  rw [List.mem_append, List.mem_flatMap] at hd
  rcases hd with hd | ⟨c, _, hd⟩
  · exact fmtBin_lt_two _ _ d hd
  · exact fmtBin_lt_two _ _ d hd

theorem fmtBin8 (c : Nat) (h : c < 256) :
    fmtBin 8 c = [c / 128 % 2, c / 64 % 2, c / 32 % 2, c / 16 % 2, c / 8 % 2, c / 4 % 2,
      c / 2 % 2, c % 2] := by
  rw [fmtBin_of_lt 8 c (by norm_num) (by norm_num; exact h)]
  simp [List.range_succ]

theorem parseBin_fmtBin8 (c : Nat) (h : c < 256) :
    parseBin [c / 128 % 2, c / 64 % 2, c / 32 % 2, c / 16 % 2, c / 8 % 2, c / 4 % 2,
      c / 2 % 2, c % 2] = c := by
  rw [← fmtBin8 c h]
  exact parseBin_fmtBin 8 c (by norm_num) (by norm_num; exact h)

theorem lt_two_pow_bitLenAux (fuel n : Nat) (h : n ≤ fuel) : n < 2 ^ bitLenAux fuel n := by
  induction fuel generalizing n with
  | zero =>
    have : n = 0 := by omega
    subst this
    simp [bitLenAux]
  | succ fuel ih =>
    rw [bitLenAux]
    by_cases h0 : n = 0
    · simp [h0]
    · rw [if_neg h0, pow_succ]
      have := ih (n / 2) (by omega)
      omega

/-- The digits `fmtBin` writes always carry the whole number, whatever the
width: the fuel of `bitLen` never runs out. -/
theorem parseBin_fmtBin_any (w n : Nat) : parseBin (fmtBin w n) = n := by
  unfold fmtBin
  rw [parseBin_digits]
  apply Nat.mod_eq_of_lt
  have h1 : n < 2 ^ bitLen n := lt_two_pow_bitLenAux n n (le_refl _)
  have h2 : 2 ^ bitLen n ≤ 2 ^ max w (max 1 (bitLen n)) :=
    Nat.pow_le_pow_right (by norm_num) (by omega)
  omega

/-! ## ASCII payloads -/

theorem runesAux_ascii (p : List Nat) (h : ∀ c ∈ p, c < 128) (fuel : Nat)
    (hf : p.length ≤ fuel) : runesAux fuel p = p := by
  induction p generalizing fuel with
  | nil => cases fuel <;> simp [runesAux]
  | cons c p ih =>
    cases fuel with
    | zero => simp at hf
    | succ fuel =>
      have hc : c < 128 := h c (List.mem_cons_self _ _)
      have hd : decodeRune (c :: p) = (c, 1) := by
        simp [decodeRune, hc]
      rw [runesAux, hd]
      simp only [List.drop_succ_cons, List.drop_zero]
      rw [ih (fun x hx => h x (List.mem_cons_of_mem _ hx)) fuel (by simpa using hf)]

theorem runes_ascii (p : List Nat) (h : ∀ c ∈ p, c < 128) : runes p = p :=
  runesAux_ascii p h _ (le_refl _)

theorem bitsToMsg_short (l : List Nat) (h : l.length < 8) : bitsToMsg l = [] := by
  match l with
  | [] => simp [bitsToMsg]
  | [_] => simp [bitsToMsg]
  | [_, _] => simp [bitsToMsg]
  | [_, _, _] => simp [bitsToMsg]
  | [_, _, _, _] => simp [bitsToMsg]
  | [_, _, _, _, _] => simp [bitsToMsg]
  | [_, _, _, _, _, _] => simp [bitsToMsg]
  | [_, _, _, _, _, _, _] => simp [bitsToMsg]
  | _ :: _ :: _ :: _ :: _ :: _ :: _ :: _ :: _ => simp at h; omega

theorem bitsToMsg_take_ascii (p : List Nat) (h : ∀ c ∈ p, c < 128) (m : Nat) :
    bitsToMsg ((p.flatMap (fmtBin 8)).take m) = p.take (m / 8) := by
  induction p generalizing m with
  | nil => simp [bitsToMsg]
  | cons c p ih =>
    have hc : c < 128 := h c (List.mem_cons_self _ _)
    have hp := fun x hx => h x (List.mem_cons_of_mem _ hx)
    rw [List.flatMap_cons]
    by_cases hm : m < 8
    · have h0 : m / 8 = 0 := by omega
      rw [h0, List.take_zero]
      apply bitsToMsg_short
      rw [List.length_take]
      omega
    · obtain ⟨m', rfl⟩ : ∃ m', m = 8 + m' := ⟨m - 8, by omega⟩
      have hl : (fmtBin 8 c).length = 8 := fmtBin_length 8 c (by norm_num) (by norm_num; omega)
      have ht : List.take (8 + m') (fmtBin 8 c ++ p.flatMap (fmtBin 8))
          = fmtBin 8 c ++ List.take m' (p.flatMap (fmtBin 8)) := by
        have := @List.take_append _ (fmtBin 8 c) (p.flatMap (fmtBin 8)) m'
        rw [hl] at this
        exact this
      rw [ht, fmtBin8 c (by omega)]
      simp only [List.cons_append, List.nil_append]
      rw [bitsToMsg, ih hp m']
      have hv : parseUint8 [c / 128 % 2, c / 64 % 2, c / 32 % 2, c / 16 % 2, c / 8 % 2, c / 4 % 2,
          c / 2 % 2, c % 2] % 256 = c := by
        unfold parseUint8
        rw [parseBin_fmtBin8 c (by omega)]
        omega
      rw [hv]
      have hd : (8 + m') / 8 = m' / 8 + 1 := by omega
      rw [hd, List.take_succ_cons]
      simp [stringOfByte, hc]

/-! ## `encodeMetaToImg` in row-major terms -/

theorem contains_of_lt (img : Image) (k : Nat) (h : k < img.npix) :
    img.bounds.contains (img.colOf k) (img.rowOf k) = true := by
  have hW : 0 < img.bounds.dx := by
    rcases Nat.eq_zero_or_pos img.bounds.dx with h0 | h0
    · exfalso; unfold Image.npix at h; rw [h0] at h; simp at h
    · exact h0
  have h1 := (rowOf_lt_iff img hW k).mpr h
  have h2 := Nat.mod_lt k hW
  unfold Rectangle.contains
  unfold Image.colOf Image.rowOf at *
  unfold Rectangle.dx at *
  simp only [Bool.and_eq_true, decide_eq_true_eq]
  generalize k / (img.bounds.maxX - img.bounds.minX).toNat = q at *
  generalize k % (img.bounds.maxX - img.bounds.minX).toNat = r at *
  omega

theorem pixOffset_of_lt (img : Image) (p : ImageRGBA) (hp : p.Rect = img.bounds) (k : Nat) :
    p.PixOffset (img.colOf k) (img.rowOf k) = k := by
  unfold ImageRGBA.PixOffset Image.colOf Image.rowOf
  rw [hp]
  have h := Nat.div_add_mod k img.bounds.dx
  have : (img.bounds.minY + ((k / img.bounds.dx : Nat) : Int) - img.bounds.minY) * (img.bounds.dx : Int)
      + (img.bounds.minX + ((k % img.bounds.dx : Nat) : Int) - img.bounds.minX)
      = ((img.bounds.dx * (k / img.bounds.dx) + k % img.bounds.dx : Nat) : Int) := by
    push_cast; ring
  rw [this, h]; simp

theorem encodeFold (img : Image) (fb : List Nat) (skip : Int) (n : Nat) (hn : n ≤ img.npix) :
    ((List.range n).foldl (fun s k => encodeStep img fb (img.colOf k) (img.rowOf k) s)
        { skip := skip, bitIdx := 0, outImg := NewRGBA img.bounds }).skip
        = (if skip > n then skip - n else min skip 0)
    ∧ ((List.range n).foldl (fun s k => encodeStep img fb (img.colOf k) (img.rowOf k) s)
        { skip := skip, bitIdx := 0, outImg := NewRGBA img.bounds }).bitIdx
        = min (n - skip.toNat) fb.length
    ∧ ((List.range n).foldl (fun s k => encodeStep img fb (img.colOf k) (img.rowOf k) s)
        { skip := skip, bitIdx := 0, outImg := NewRGBA img.bounds }).outImg.Rect = img.bounds
    ∧ ((List.range n).foldl (fun s k => encodeStep img fb (img.colOf k) (img.rowOf k) s)
        { skip := skip, bitIdx := 0, outImg := NewRGBA img.bounds }).outImg.Pix
        = (List.range n).map (fun k => embedPixel fb skip k (img.rgbaAt (img.colOf k) (img.rowOf k)))
          ++ List.replicate (img.npix - n) ⟨0, 0, 0, 0⟩ := by
  induction n with
  | zero =>
    refine ⟨?_, ?_, ?_, ?_⟩
    · simp only [List.range_zero, List.foldl_nil]
      split <;> omega
    · simp
    · simp [NewRGBA]
    · simp [NewRGBA, Image.npix]
  | succ n ih =>
    obtain ⟨h1, h2, h3, h4⟩ := ih (by omega)
    rw [List.range_succ, List.foldl_append]
    simp only [List.foldl_cons, List.foldl_nil]
    generalize (List.range n).foldl (fun s k => encodeStep img fb (img.colOf k) (img.rowOf k) s)
        { skip := skip, bitIdx := 0, outImg := NewRGBA img.bounds } = s at h1 h2 h3 h4
    have hc : s.outImg.Rect.contains (img.colOf n) (img.rowOf n) = true := by
      rw [h3]; exact contains_of_lt img n (by omega)
    have ho := pixOffset_of_lt img s.outImg h3 n
    have hset : ∀ c : RGBA, (s.outImg.Set (img.colOf n) (img.rowOf n) c).Rect = img.bounds
        ∧ (s.outImg.Set (img.colOf n) (img.rowOf n) c).Pix
          = (List.range n).map (fun k => embedPixel fb skip k (img.rgbaAt (img.colOf k) (img.rowOf k)))
            ++ c :: List.replicate (img.npix - (n + 1)) ⟨0, 0, 0, 0⟩ := by
      intro c
      have hc2 : img.bounds.contains (img.colOf n) (img.rowOf n) = true :=
        contains_of_lt img n (by omega)
      unfold ImageRGBA.Set
      simp only [ho, h3, h4, hc2, if_true, true_and]
      rw [List.set_append_right _ _ (by simp)]
      have hr : img.npix - n = (img.npix - (n + 1)) + 1 := by omega
      simp [hr, List.replicate_succ]
    have hfin : ∀ c : RGBA, c = embedPixel fb skip n (img.rgbaAt (img.colOf n) (img.rowOf n)) →
        (List.range n).map (fun k => embedPixel fb skip k (img.rgbaAt (img.colOf k) (img.rowOf k)))
            ++ c :: List.replicate (img.npix - (n + 1)) ⟨0, 0, 0, 0⟩
        = (List.range n ++ [n]).map
            (fun k => embedPixel fb skip k (img.rgbaAt (img.colOf k) (img.rowOf k)))
            ++ List.replicate (img.npix - (n + 1)) ⟨0, 0, 0, 0⟩ := by
      intro c hc'
      simp [hc']
    unfold encodeStep
    by_cases hs : s.skip > 0
    · simp only [hs, if_true]
      have hlt : (n : Int) < skip := by
        rw [h1] at hs; split at hs <;> omega
      refine ⟨?_, ?_, (hset _).1, ?_⟩
      · rw [h1]; push_cast; split <;> split <;> omega
      · rw [h2]; omega
      · rw [(hset _).2]
        apply hfin
        have : ¬ (skip.toNat ≤ n ∧ n - skip.toNat < fb.length) := by omega
        rw [embedPixel, if_neg this]
    · have hge : ¬ ((n : Int) < skip) := by
        rw [h1] at hs; split at hs <;> omega
      simp only [hs, if_false]
      by_cases hb : s.bitIdx < fb.length
      · simp only [hb, if_true]
        have hb' : n - skip.toNat < fb.length := by rw [h2] at hb; omega
        refine ⟨?_, ?_, (hset _).1, ?_⟩
        · rw [h1]; push_cast; split <;> split <;> omega
        · rw [h2]; omega
        · rw [(hset _).2]
          apply hfin
          have : skip.toNat ≤ n ∧ n - skip.toNat < fb.length := by omega
          have hi : s.bitIdx = n - skip.toNat := by rw [h2]; omega
          rw [embedPixel, if_pos this, hi]
      · simp only [hb, if_false]
        have hb' : ¬ (n - skip.toNat < fb.length) := by rw [h2] at hb; omega
        refine ⟨?_, ?_, (hset _).1, ?_⟩
        · rw [h1]; push_cast; split <;> split <;> omega
        · rw [h2]; omega
        · rw [(hset _).2]
          apply hfin
          have : ¬ (skip.toNat ≤ n ∧ n - skip.toNat < fb.length) := by omega
          rw [embedPixel, if_neg this]

theorem encodeMetaToImg_eq (img : Image) (m : List Nat) (skip : Int) :
    (encodeMetaToImg img m skip).Rect = img.bounds
    ∧ (encodeMetaToImg img m skip).Pix
        = (List.range img.npix).map
            (fun k => embedPixel (fullBitsOf m) skip k (img.rgbaAt (img.colOf k) (img.rowOf k))) := by
  unfold encodeMetaToImg
  simp only
  rw [foldl_rowMajor img.bounds.dx img.bounds.dy
    (fun i j s => encodeStep img (fullBitsOf m) (img.bounds.minX + (i : Int))
      (img.bounds.minY + (j : Int)) s)]
  obtain ⟨_, _, h3, h4⟩ := encodeFold img (fullBitsOf m) skip img.npix (le_refl _)
  constructor
  · exact h3
  · have := h4
    simp only [Nat.sub_self, List.replicate_zero, List.append_nil] at this
    exact this

/-! ## Reading back what `encodeMetaToImg` wrote -/

theorem lsb_stored (B b : Nat) (hb : b < 2) :
    ((((B &&& 0xFE) ||| b % 256) ||| (((B &&& 0xFE) ||| b % 256) <<< 8)) % 256) &&& 1 = b := by
  have hX : (B &&& 0xFE) ||| b % 256 < 2 ^ 8 :=
    Nat.or_lt_two_pow (Nat.and_lt_two_pow B (by norm_num)) (by omega)
  generalize hXe : (B &&& 0xFE) ||| b % 256 = X at hX
  have h1 : X ||| (X <<< 8) = 2 ^ 8 * X + X := by
    rw [Nat.mul_add_lt_is_or hX, Nat.shiftLeft_eq, Nat.lor_comm, Nat.mul_comm]
  rw [h1, Nat.and_one_is_mod]
  have h2 : (2 ^ 8 * X + X) % 256 = X := by norm_num at hX ⊢; omega
  rw [h2, ← hXe]
  have hb' : b % 256 = b := by omega
  rw [hb']
  have h3 := @Nat.or_mod_two_eq_one (B &&& 0xFE) b
  have h4 := @Nat.and_mod_two_eq_one B 0xFE
  have h5 : ¬ ((B &&& 0xFE) % 2 = 1) := by
    rw [h4]; norm_num
  have h6 := Nat.mod_lt ((B &&& 0xFE) ||| b) (by norm_num : 0 < 2)
  by_cases hb1 : b = 1
  · have : ((B &&& 0xFE) ||| b) % 2 = 1 := h3.mpr (Or.inr (by omega))
    omega
  · have : ¬ (((B &&& 0xFE) ||| b) % 2 = 1) := by
      rw [h3]; intro h; rcases h with h | h
      · exact h5 h
      · omega
    omega

theorem lsb_kept (B : Nat) (hB : B < 256) :
    ((B ||| (B <<< 8)) % 256) &&& 1 = B % 2 := by
  have hX : B < 2 ^ 8 := by norm_num; exact hB
  have h1 : B ||| (B <<< 8) = 2 ^ 8 * B + B := by
    rw [Nat.mul_add_lt_is_or hX, Nat.shiftLeft_eq, Nat.lor_comm, Nat.mul_comm]
  rw [h1, Nat.and_one_is_mod]
  have h2 : (2 ^ 8 * B + B) % 256 = B := by norm_num; omega
  rw [h2]

theorem encoded_bounds (img : Image) (m : List Nat) (skip : Int) :
    (encodeMetaToImg img m skip).toImage.bounds = img.bounds :=
  (encodeMetaToImg_eq img m skip).1

theorem encoded_npix (img : Image) (m : List Nat) (skip : Int) :
    (encodeMetaToImg img m skip).toImage.npix = img.npix := by
  unfold Image.npix; rw [encoded_bounds]

theorem encoded_At (img : Image) (m : List Nat) (skip : Int) (k : Nat) (hk : k < img.npix) :
    (encodeMetaToImg img m skip).At (img.colOf k) (img.rowOf k)
      = embedPixel (fullBitsOf m) skip k (img.rgbaAt (img.colOf k) (img.rowOf k)) := by
  obtain ⟨h1, h2⟩ := encodeMetaToImg_eq img m skip
  unfold ImageRGBA.At
  rw [pixOffset_of_lt img _ h1 k, h1, contains_of_lt img k hk, h2]
  simp [List.getD_eq_getElem?_getD, hk]

theorem encoded_bit (img : Image) (m : List Nat) (skip : Int) (k : Nat) (hk : k < img.npix) :
    (encodeMetaToImg img m skip).toImage.bit k
      = if skip.toNat ≤ k ∧ k - skip.toNat < (fullBitsOf m).length then
          (fullBitsOf m).getD (k - skip.toNat) 0
        else (img.rgbaAt (img.colOf k) (img.rowOf k)).b >>> 8 % 2 := by
  have hb := encoded_bounds img m skip
  have hcol : (encodeMetaToImg img m skip).toImage.colOf k = img.colOf k := by
    unfold Image.colOf; rw [hb]
  have hrow : (encodeMetaToImg img m skip).toImage.rowOf k = img.rowOf k := by
    unfold Image.rowOf; rw [hb]
  unfold Image.bit blueBit
  rw [hcol, hrow]
  show (((encodeMetaToImg img m skip).At (img.colOf k) (img.rowOf k)).RGBA.b % 256) &&& 1 = _
  rw [encoded_At img m skip k hk]
  unfold embedPixel RGBA.RGBA
  by_cases hc : skip.toNat ≤ k ∧ k - skip.toNat < (fullBitsOf m).length
  · simp only [hc, and_self, if_true]
    apply lsb_stored
    apply fullBitsOf_lt_two m
    rw [List.getD_eq_getElem _ _ hc.2]
    exact List.getElem_mem _
  · rw [if_neg hc, if_neg hc]
    simp only
    rw [lsb_kept _ (Nat.mod_lt _ (by norm_num))]
    omega

/-! ## Round trip of an ASCII payload at offset 128 -/

theorem map_getD_range' (l : List Nat) (a d n : Nat) (h : d + n ≤ l.length) :
    (List.range' (a + d) n).map (fun k => l.getD (k - a) 0) = (l.drop d).take n := by
  apply List.ext_getElem
  · simp; omega
  · intro i h1 h2
    simp only [List.length_map, List.length_range'] at h1
    simp only [List.getElem_map, List.getElem_range', List.getElem_take, List.getElem_drop,
      Nat.one_mul]
    have : a + d + i - a = d + i := by omega
    rw [this, List.getD_eq_getElem _ _ (by omega)]

theorem flatMap_fmtBin8_length (p : List Nat) (h : ∀ c ∈ p, c < 256) :
    (p.flatMap (fmtBin 8)).length = 8 * p.length := by
  induction p with
  | nil => simp
  | cons c p ih =>
    rw [List.flatMap_cons, List.length_append,
      fmtBin_length 8 c (by norm_num) (by norm_num; exact h c (List.mem_cons_self _ _)),
      ih (fun x hx => h x (List.mem_cons_of_mem _ hx)), List.length_cons]
    omega

/-- Embedding an ASCII payload at offset 128 and extracting: the payload,
cut to the whole bytes that fit the grid. -/
theorem extract_encode_ascii (img : Image) (p : List Nat) (hlen0 : 0 < p.length)
    (hlen : p.length ≤ 4096) (hascii : ∀ c ∈ p, c < 128) (hN : 160 ≤ img.npix) :
    extractMetaFromImg (encodeMetaToImg img p 128).toImage
      = .ok (p.take ((img.npix - 160) / 8)) := by
  have hfb : fullBitsOf p = fmtBin 32 p.length ++ p.flatMap (fmtBin 8) := by
    unfold fullBitsOf; rw [runes_ascii p hascii]
  have hl32 : (fmtBin 32 p.length).length = 32 :=
    fmtBin_length 32 p.length (by norm_num) (by norm_num; omega)
  have hl8 : (p.flatMap (fmtBin 8)).length = 8 * p.length :=
    flatMap_fmtBin8_length p (fun c hc => by have := hascii c hc; omega)
  have hfl : (fullBitsOf p).length = 32 + 8 * p.length := by
    rw [hfb, List.length_append, hl32, hl8]
  have hbit : ∀ k, 128 ≤ k → k < img.npix → k - 128 < 32 + 8 * p.length →
      (encodeMetaToImg img p 128).toImage.bit k = (fullBitsOf p).getD (k - 128) 0 := by
    intro k h1 h2 h3
    rw [encoded_bit img p 128 k h2]
    have : (128 : Int).toNat = 128 := rfl
    rw [this, if_pos ⟨h1, by rw [hfl]; exact h3⟩]
  have hhdr : (List.range' 128 32).map (encodeMetaToImg img p 128).toImage.bit
      = fmtBin 32 p.length := by
    have e1 : (List.range' 128 32).map (encodeMetaToImg img p 128).toImage.bit
        = (List.range' (128 + 0) 32).map (fun k => (fullBitsOf p).getD (k - 128) 0) := by
      apply List.map_congr_left
      intro k hk
      rw [List.mem_range'_1] at hk
      exact hbit k (by omega) (by omega) (by omega)
    rw [e1, map_getD_range' _ 128 0 32 (by omega), hfb, List.drop_zero]
    have ht := @List.take_left _ (fmtBin 32 p.length) (p.flatMap (fmtBin 8))
    rw [hl32] at ht
    exact ht
  have hval : parseInt32 (fmtBin 32 p.length) = (p.length : Int) := by
    unfold parseInt32
    rw [parseBin_fmtBin 32 p.length (by norm_num) (by norm_num; omega)]
    have : ¬ (p.length ≥ 2 ^ 31) := by norm_num; omega
    rw [if_neg this]
  unfold extractMetaFromImg
  rw [extractAt_eq, encoded_npix, hhdr, hval]
  have c1 : ¬ (img.npix < 128 + 32) := by omega
  have c2 : ¬ ((p.length : Int) ≤ 0 ∨ (p.length : Int) > 4096) := by omega
  rw [if_neg c1, if_neg c2]
  simp only [Int.toNat_ofNat]
  have hbody : (List.range' (128 + 32) (min (p.length * 8) (img.npix - (128 + 32)))).map
        (encodeMetaToImg img p 128).toImage.bit
      = (p.flatMap (fmtBin 8)).take (min (p.length * 8) (img.npix - (128 + 32))) := by
    have e1 : (List.range' (128 + 32) (min (p.length * 8) (img.npix - (128 + 32)))).map
          (encodeMetaToImg img p 128).toImage.bit
        = (List.range' (128 + 32) (min (p.length * 8) (img.npix - (128 + 32)))).map
            (fun k => (fullBitsOf p).getD (k - 128) 0) := by
      apply List.map_congr_left
      intro k hk
      rw [List.mem_range'_1] at hk
      exact hbit k (by omega) (by omega) (by omega)
    rw [e1, map_getD_range' _ 128 32 _ (by omega), hfb]
    have ht := @List.drop_left _ (fmtBin 32 p.length) (p.flatMap (fmtBin 8))
    rw [hl32] at ht
    rw [ht]
  refine congrArg Except.ok ?_
  refine (congrArg bitsToMsg hbody).trans ?_
  rw [bitsToMsg_take_ascii p hascii]
  by_cases hfull : p.length * 8 ≤ img.npix - (128 + 32)
  · have h1 : min (p.length * 8) (img.npix - (128 + 32)) / 8 = p.length := by omega
    rw [h1, List.take_of_length_le (le_refl _), List.take_of_length_le (by omega)]
  · have h1 : min (p.length * 8) (img.npix - (128 + 32)) = img.npix - 160 := by omega
    rw [h1]

/-! ## What the extractor depends on -/

theorem bit_lt_two (img : Image) (k : Nat) : img.bit k < 2 := by
  unfold Image.bit blueBit
  rw [Nat.and_one_is_mod]
  exact Nat.mod_lt _ (by norm_num)

/-- The extractor's result depends only on the bounds and on the bits of the
pixels inside them. -/
theorem extractAt_congr (o : Nat) (img img2 : Image) (hb : img2.bounds = img.bounds)
    (hbit : ∀ k, k < img.npix → img2.bit k = img.bit k) :
    extractAt o img2 = extractAt o img := by
  have hn : img2.npix = img.npix := by unfold Image.npix; rw [hb]
  rw [extractAt_eq, extractAt_eq, hn]
  by_cases h : img.npix < o + 32
  · rw [if_pos h, if_pos h]
  · rw [if_neg h, if_neg h]
    have e1 : (List.range' o 32).map img2.bit = (List.range' o 32).map img.bit := by
      apply List.map_congr_left
      intro k hk
      rw [List.mem_range'_1] at hk
      exact hbit k (by omega)
    rw [e1]
    have e2 : ∀ n, (List.range' (o + 32) (min n (img.npix - (o + 32)))).map img2.bit
        = (List.range' (o + 32) (min n (img.npix - (o + 32)))).map img.bit := by
      intro n
      apply List.map_congr_left
      intro k hk
      rw [List.mem_range'_1] at hk
      exact hbit k (by omega)
    rw [e2]

theorem bit_congr (img img2 : Image) (hb : img2.bounds = img.bounds)
    (hpix : ∀ x y, img.bounds.contains x y = true → img2.rgbaAt x y = img.rgbaAt x y)
    (k : Nat) (hk : k < img.npix) : img2.bit k = img.bit k := by
  have hc := contains_of_lt img k hk
  unfold Image.bit blueBit
  have h1 : img2.colOf k = img.colOf k := by unfold Image.colOf; rw [hb]
  have h2 : img2.rowOf k = img.rowOf k := by unfold Image.rowOf; rw [hb]
  rw [h1, h2, hpix _ _ hc]

theorem header_ge_of_top (img : Image) (h : img.bit 128 = 1) : img.header 128 ≥ 2 ^ 31 := by
  unfold Image.header
  have : List.range' 128 32 = 128 :: List.range' 129 31 := by decide
  rw [this, List.map_cons, parseBin_cons, h]
  simp

theorem header_lt (img : Image) : img.header 128 < 2 ^ 32 := by
  unfold Image.header
  have := parseBin_lt ((List.range' 128 32).map img.bit) (by
    intro d hd
    rw [List.mem_map] at hd
    obtain ⟨k, _, rfl⟩ := hd
    exact bit_lt_two img k)
  simpa using this

/-! ## Black grids -/

theorem blackGrid_npix (w h : Nat) : (blackGrid w h).toImage.npix = w * h := by
  simp [Image.npix, ImageRGBA.toImage, blackGrid, Rectangle.dx, Rectangle.dy]

theorem blackGrid_blue (w h : Nat) (x y : Int) : ((blackGrid w h).toImage.rgbaAt x y).b = 0 := by
  show ((blackGrid w h).At x y).RGBA.b = 0
  have hB : ((blackGrid w h).At x y).B = 0 := by
    unfold ImageRGBA.At
    split
    · rw [List.getD_eq_getElem?_getD]
      unfold blackGrid
      simp only [List.getElem?_replicate]
      split <;> rfl
    · rfl
  unfold RGBA.RGBA
  simp [hB]

/-- Bits of pixels that `encodeMetaToImg` does not touch, in a black grid. -/
theorem blackGrid_encoded_bit (w h : Nat) (m : List Nat) (skip : Int) (k : Nat)
    (hk : k < w * h) (hout : ¬ (skip.toNat ≤ k ∧ k - skip.toNat < (fullBitsOf m).length)) :
    (encodeMetaToImg (blackGrid w h).toImage m skip).toImage.bit k = 0 := by
  rw [encoded_bit _ _ _ _ (by rw [blackGrid_npix]; exact hk), if_neg hout, blackGrid_blue]
  rfl

/-! ## The steganographic channel: claims C1, C6 to C10 -/

/-- C1, counterexample: "hi" embedded with skip 0 into a 200x200 all-black
grid (capacity 40000, at least 0 + 32 + 8 * 2) is not returned by the
extractor, which reads its header at pixel 128 and fails with an invalid
length 0. -/
theorem stego_roundtrip_skip0_fails :
    0 < ([104, 105] : List Nat).length ∧ ([104, 105] : List Nat).length ≤ 4096
    ∧ (0 : Int) ≥ 0
    ∧ (blackGrid 200 200).toImage.npix ≥ 0 + 32 + 8 * ([104, 105] : List Nat).length
    ∧ extractMetaFromImg (encodeMetaToImg (blackGrid 200 200).toImage [104, 105] 0).toImage
        = .error (.invalidLength 0)
    ∧ extractMetaFromImg (encodeMetaToImg (blackGrid 200 200).toImage [104, 105] 0).toImage
        ≠ .ok [104, 105] := by
  have hmain : extractMetaFromImg
      (encodeMetaToImg (blackGrid 200 200).toImage [104, 105] 0).toImage
        = .error (.invalidLength 0) := by
    unfold extractMetaFromImg
    rw [extractAt_eq, encoded_npix, blackGrid_npix]
    have hl : (fullBitsOf [104, 105]).length = 48 := by decide
    have e1 : (List.range' 128 32).map
          (encodeMetaToImg (blackGrid 200 200).toImage [104, 105] 0).toImage.bit
        = (List.range' 128 32).map (fun _ => 0) := by
      apply List.map_congr_left
      intro k hk
      rw [List.mem_range'_1] at hk
      apply blackGrid_encoded_bit
      · omega
      · rw [hl]; simp; omega
    rw [e1]
    have e2 : parseInt32 ((List.range' 128 32).map (fun _ => 0)) = 0 := by decide
    rw [e2]
    simp
  refine ⟨by decide, by decide, by decide, ?_, hmain, ?_⟩
  · rw [blackGrid_npix]; decide
  · rw [hmain]; simp

/-- C1, as amended: for every payload of 1 to 4096 bytes, each below 0x80,
and every image with at least 160 + 8 * len pixels, extracting from the grid
produced by embedding at offset 128 returns exactly the payload. -/
theorem stego_roundtrip_offset128 (img : Image) (p : List Nat) (hlen0 : 0 < p.length)
    (hlen : p.length ≤ 4096) (hascii : ∀ c ∈ p, c < 128)
    (hcap : 128 + 32 + 8 * p.length ≤ img.npix) :
    extractMetaFromImg (encodeMetaToImg img p 128).toImage = .ok p := by
  rw [extract_encode_ascii img p hlen0 hlen hascii (by omega),
    List.take_of_length_le (by omega)]

/-- C1, witness of the amended statement: "A" in a 10x20 grid of mid-grey
16-bit samples. -/
theorem stego_roundtrip_offset128_witness :
    extractMetaFromImg (encodeMetaToImg
      ⟨⟨0, 0, 10, 20⟩, fun _ _ => ⟨0x8080, 0x8080, 0x8080, 0xFFFF⟩⟩ [65] 128).toImage
      = .ok [65] :=
  stego_roundtrip_offset128 ⟨⟨0, 0, 10, 20⟩, fun _ _ => ⟨0x8080, 0x8080, 0x8080, 0xFFFF⟩⟩ [65]
    (by decide) (by decide) (by decide) (by decide)

/-- C6: for every payload of 1 to 4096 bytes, each below 0x80, and every
8-bit RGBA grid, whatever its contents, with at least 160 + 8 * len pixels,
`extractMetaFromImg (encodeMetaToImg grid p 128)` returns exactly the payload
with no error. -/
theorem stego_roundtrip_rgba (g : ImageRGBA) (p : List Nat) (hlen0 : 1 ≤ p.length)
    (hlen : p.length ≤ 4096) (hascii : ∀ c ∈ p, c < 0x80)
    (hcap : 160 + 8 * p.length ≤ g.Rect.dx * g.Rect.dy) :
    extractMetaFromImg (encodeMetaToImg g.toImage p 128).toImage = .ok p := by
  have hn : g.toImage.npix = g.Rect.dx * g.Rect.dy := rfl
  rw [extract_encode_ascii g.toImage p hlen0 hlen hascii (by omega),
    List.take_of_length_le (by omega)]

/-- C6, witness: "hi" in a 200x200 all-black grid. -/
theorem stego_roundtrip_rgba_witness :
    extractMetaFromImg (encodeMetaToImg (blackGrid 200 200).toImage [104, 105] 128).toImage
      = .ok [104, 105] :=
  stego_roundtrip_rgba (blackGrid 200 200) [104, 105] (by decide) (by decide) (by decide)
    (by decide)

/-- C7: on a grid of at least 128 + 32 pixels the extractor fails with an
invalid-length error exactly when the 32 header bits (pixels 128 to 159,
most significant first, unsigned) decode to 0 or to more than 4096; a header
whose top bit is set is rejected, with the clamped length 2^31 - 1. Only the
header pixels enter the condition. -/
theorem extract_invalidLength_iff (img : Image) (hN : 128 + 32 ≤ img.npix) :
    ((∃ n, extractMetaFromImg img = .error (.invalidLength n))
        ↔ (img.header 128 = 0 ∨ img.header 128 > 4096))
    ∧ (img.bit 128 = 1 → extractMetaFromImg img = .error (.invalidLength (2 ^ 31 - 1))) := by
  have hN2 : ¬ (img.npix < 128 + 32) := by omega
  have hlt := header_lt img
  unfold extractMetaFromImg
  rw [extractAt_eq, if_neg hN2]
  have hp : parseInt32 ((List.range' 128 32).map img.bit)
      = if img.header 128 ≥ 2 ^ 31 then 2 ^ 31 - 1 else (img.header 128 : Int) := rfl
  rw [hp]
  by_cases hbig : img.header 128 ≥ 2 ^ 31
  · rw [if_pos hbig]
    have hc : ((2 : Int) ^ 31 - 1 ≤ 0 ∨ (2 : Int) ^ 31 - 1 > 4096) := by norm_num
    rw [if_pos hc]
    refine ⟨⟨fun _ => Or.inr ?_, fun _ => ⟨_, rfl⟩⟩, fun _ => rfl⟩
    have : (2 : Nat) ^ 31 > 4096 := by norm_num
    omega
  · rw [if_neg hbig]
    have htop : ¬ (img.bit 128 = 1) := fun h => hbig (header_ge_of_top img h)
    by_cases hc : ((img.header 128 : Int) ≤ 0 ∨ (img.header 128 : Int) > 4096)
    · rw [if_pos hc]
      refine ⟨⟨fun _ => ?_, fun _ => ⟨_, rfl⟩⟩, fun h => absurd h htop⟩
      omega
    · rw [if_neg hc]
      refine ⟨⟨fun h => ?_, fun h => ?_⟩, fun h => absurd h htop⟩
      · obtain ⟨n, hn⟩ := h
        simp at hn
      · exfalso; omega

/-- C7, witness: a 200x1 grid whose samples are all 0xFFFF has the header
2^32 - 1. -/
theorem extract_invalidLength_iff_witness :
    ((∃ n, extractMetaFromImg ⟨⟨0, 0, 200, 1⟩, fun _ _ => ⟨0xFFFF, 0xFFFF, 0xFFFF, 0xFFFF⟩⟩
          = .error (.invalidLength n))
        ↔ ((⟨⟨0, 0, 200, 1⟩, fun _ _ => ⟨0xFFFF, 0xFFFF, 0xFFFF, 0xFFFF⟩⟩ : Image).header 128 = 0
          ∨ (⟨⟨0, 0, 200, 1⟩, fun _ _ => ⟨0xFFFF, 0xFFFF, 0xFFFF, 0xFFFF⟩⟩ : Image).header 128
              > 4096))
    ∧ ((⟨⟨0, 0, 200, 1⟩, fun _ _ => ⟨0xFFFF, 0xFFFF, 0xFFFF, 0xFFFF⟩⟩ : Image).bit 128 = 1 →
        extractMetaFromImg ⟨⟨0, 0, 200, 1⟩, fun _ _ => ⟨0xFFFF, 0xFFFF, 0xFFFF, 0xFFFF⟩⟩
          = .error (.invalidLength (2 ^ 31 - 1))) :=
  extract_invalidLength_iff ⟨⟨0, 0, 200, 1⟩, fun _ _ => ⟨0xFFFF, 0xFFFF, 0xFFFF, 0xFFFF⟩⟩
    (by decide)

/-- C8: the extractor fails with the header-incomplete error exactly when
the grid has fewer than 128 + 32 = 160 pixels, the empty grid included; and
it reads no sample outside the bounds: two images with the same bounds and
the same samples inside them give the same result. -/
theorem extract_headerIncomplete_iff (img : Image) :
    (extractMetaFromImg img = .error .headerIncomplete ↔ img.npix < 128 + 32)
    ∧ (img.npix = 0 → extractMetaFromImg img = .error .headerIncomplete)
    ∧ (∀ img2 : Image, img2.bounds = img.bounds →
        (∀ x y, img.bounds.contains x y = true → img2.rgbaAt x y = img.rgbaAt x y) →
        extractMetaFromImg img2 = extractMetaFromImg img) := by
  have hiff : extractMetaFromImg img = .error .headerIncomplete ↔ img.npix < 128 + 32 := by
    unfold extractMetaFromImg
    rw [extractAt_eq]
    constructor
    · intro h
      by_contra hc
      rw [if_neg hc] at h
      split at h <;> simp at h
    · intro h
      rw [if_pos h]
  refine ⟨hiff, ?_, ?_⟩
  · intro h0
    exact hiff.mpr (by omega)
  · intro img2 hb hpix
    exact extractAt_congr 128 img img2 hb (bit_congr img img2 hb hpix)

/-- C9, counterexample: "A" embedded with skip 0 into a grid of 36 pixels
(0 + 32 ≤ 36 < 0 + 32 + 8) is not extracted as the first 0 bytes of the
payload: the extractor needs 160 pixels and fails. -/
theorem extract_truncated_skip0_fails :
    0 < ([65] : List Nat).length ∧ ([65] : List Nat).length ≤ 4096
    ∧ 0 + 32 ≤ (blackGrid 36 1).toImage.npix
    ∧ (blackGrid 36 1).toImage.npix < 0 + 32 + 8 * ([65] : List Nat).length
    ∧ extractMetaFromImg (encodeMetaToImg (blackGrid 36 1).toImage [65] 0).toImage
        = .error .headerIncomplete
    ∧ extractMetaFromImg (encodeMetaToImg (blackGrid 36 1).toImage [65] 0).toImage
        ≠ .ok (([65] : List Nat).take (((blackGrid 36 1).toImage.npix - 0 - 32) / 8)) := by
  have hmain : extractMetaFromImg (encodeMetaToImg (blackGrid 36 1).toImage [65] 0).toImage
      = .error .headerIncomplete := by
    unfold extractMetaFromImg
    rw [extractAt_eq, encoded_npix, blackGrid_npix]
    simp
  refine ⟨by decide, by decide, ?_, ?_, hmain, ?_⟩
  · rw [blackGrid_npix]; decide
  · rw [blackGrid_npix]; decide
  · rw [hmain]; simp

/-- C9, as amended: for every payload of 1 to 4096 bytes, each below 0x80,
embedded at offset 128 into a grid of N pixels with 160 ≤ N < 160 + 8 * len,
the extractor succeeds and returns exactly the first (N - 160) / 8 bytes of
the payload; the bits that do not fill a byte are dropped. -/
theorem extract_truncated_prefix (img : Image) (p : List Nat) (hlen0 : 0 < p.length)
    (hlen : p.length ≤ 4096) (hascii : ∀ c ∈ p, c < 128)
    (hlo : 128 + 32 ≤ img.npix) (hhi : img.npix < 128 + 32 + 8 * p.length) :
    extractMetaFromImg (encodeMetaToImg img p 128).toImage
        = .ok (p.take ((img.npix - 128 - 32) / 8))
    ∧ (p.take ((img.npix - 128 - 32) / 8)).length = (img.npix - 128 - 32) / 8 := by
  constructor
  · rw [extract_encode_ascii img p hlen0 hlen hascii (by omega)]
    have : img.npix - 128 - 32 = img.npix - 160 := by omega
    rw [this]
  · rw [List.length_take]; omega

/-- C9, witness: "hi!" in a 180x1 black grid, which has room for 20 of the
24 payload bits. -/
theorem extract_truncated_prefix_witness :
    extractMetaFromImg (encodeMetaToImg (blackGrid 180 1).toImage [104, 105, 33] 128).toImage
        = .ok (([104, 105, 33] : List Nat).take (((blackGrid 180 1).toImage.npix - 128 - 32) / 8))
    ∧ (([104, 105, 33] : List Nat).take
        (((blackGrid 180 1).toImage.npix - 128 - 32) / 8)).length
          = ((blackGrid 180 1).toImage.npix - 128 - 32) / 8 :=
  extract_truncated_prefix (blackGrid 180 1).toImage [104, 105, 33] (by decide) (by decide)
    (by decide) (by rw [blackGrid_npix]; decide) (by rw [blackGrid_npix]; decide)

/-- C10, failing input: the one-byte payload 0xFF embedded with skip 0 into
a 48x1 all-black 8-bit grid. The pixel with row-major index 40 lies at or
beyond skip + 32 + 8 * len = 40, yet its blue channel changes from 0 to 1:
the invalid byte is read as the rune U+FFFD and written as 16 digits. -/
theorem embed_writes_past_stream :
    (0 : Int) + 32 + 8 * (([255] : List Nat).length : Int) ≤ 40
    ∧ (blackGrid 48 1).At 40 0 = ⟨0, 0, 0, 255⟩
    ∧ (encodeMetaToImg (blackGrid 48 1).toImage [255] 0).At 40 0 = ⟨0, 0, 1, 255⟩
    ∧ (fullBitsOf [255]).length = 48 := by
  refine ⟨by decide, by decide, ?_, by decide⟩
  have h := encoded_At (blackGrid 48 1).toImage [255] 0 40 (by rw [blackGrid_npix]; decide)
  have hc : (blackGrid 48 1).toImage.colOf 40 = 40 := by decide
  have hr : (blackGrid 48 1).toImage.rowOf 40 = 0 := by decide
  rw [hc, hr] at h
  rw [h]
  decide

/-! ## Base64 -/

theorem b64Val_b64Char (v : Nat) (h : v < 64) : b64Val (b64Char v) = some v := by
  unfold b64Char b64Val
  split_ifs <;> first | omega | (simp; omega) | simp_all

theorem b64Char_ne_newline (v : Nat) : (!(b64Char v == 10 || b64Char v == 13)) = true := by
  unfold b64Char
  split_ifs <;> simp <;> omega

theorem b64Encode_filter (bs : List Nat) :
    (b64Encode bs).filter (fun c => !(c == 10 || c == 13)) = b64Encode bs := by
  induction bs using b64Encode.induct with
  | case1 a b c rest ih =>
    rw [b64Encode]
    simp only [List.filter_cons, b64Char_ne_newline, if_true, ih]
  | case2 a b =>
    rw [b64Encode]
    simp only [List.filter_cons, b64Char_ne_newline, if_true, List.filter_nil]
  | case3 a =>
    rw [b64Encode]
    simp only [List.filter_cons, b64Char_ne_newline, if_true, List.filter_nil]
  | case4 => simp [b64Encode]

theorem b64Quanta_b64Encode (bs : List Nat) (h : ∀ b ∈ bs, b < 256) :
    b64Quanta (b64Encode bs) = some bs := by
  induction bs using b64Encode.induct with
  | case1 a b c rest ih =>
    have ha : a < 256 := h a (by simp)
    have hb : b < 256 := h b (by simp)
    have hc : c < 256 := h c (by simp)
    have hr := ih (fun x hx => h x (by simp [hx]))
    rw [b64Encode, b64Quanta]
    rw [b64Val_b64Char _ (Nat.mod_lt _ (by norm_num)), b64Val_b64Char _ (Nat.mod_lt _ (by norm_num)),
      b64Val_b64Char _ (Nat.mod_lt _ (by norm_num)), b64Val_b64Char _ (Nat.mod_lt _ (by norm_num)), hr]
    simp only [Option.some.injEq, List.cons.injEq, and_true]
    refine ⟨?_, ?_, ?_⟩ <;> omega
  | case2 a b =>
    have ha : a < 256 := h a (by simp)
    have hb : b < 256 := h b (by simp)
    rw [b64Encode, b64Quanta]
    rw [b64Val_b64Char _ (Nat.mod_lt _ (by norm_num)), b64Val_b64Char _ (Nat.mod_lt _ (by norm_num)),
      b64Val_b64Char _ (Nat.mod_lt _ (by norm_num))]
    simp only [Option.some.injEq, List.cons.injEq, and_true]
    refine ⟨?_, ?_⟩ <;> omega
  | case3 a =>
    have ha : a < 256 := h a (by simp)
    rw [b64Encode, b64Quanta]
    rw [b64Val_b64Char _ (Nat.mod_lt _ (by norm_num)), b64Val_b64Char _ (Nat.mod_lt _ (by norm_num))]
    simp only [Option.some.injEq, List.cons.injEq, and_true]
    omega
  | case4 => simp [b64Encode, b64Quanta]

/-- Decoding inverts encoding on byte strings. -/
theorem b64Decode_b64Encode (bs : List Nat) (h : ∀ b ∈ bs, b < 256) :
    b64Decode (b64Encode bs) = some bs := by
  unfold b64Decode
  rw [b64Encode_filter, b64Quanta_b64Encode bs h]

/-! ## The envelope: sealing and opening -/

theorem DecodeData_b64Encode (P : Prims) (now : Int) (raw : List Nat)
    (h : ∀ b ∈ raw, b < 256) : DecodeData P now (b64Encode raw) = openBytes P now raw := by
  unfold DecodeData
  rw [b64Decode_b64Encode raw h]

theorem uint32_lt (v : Int) : uint32 v < 2 ^ 32 := by
  unfold uint32
  have h1 : (0 : Int) ≤ v % 2 ^ 32 := Int.emod_nonneg _ (by norm_num)
  have h2 : v % 2 ^ 32 < 2 ^ 32 := Int.emod_lt_of_pos _ (by norm_num)
  omega

theorem uint32_of_range (v : Int) (h0 : 0 ≤ v) (h1 : v < 2 ^ 32) : (uint32 v : Int) = v := by
  unfold uint32
  rw [Int.emod_eq_of_lt h0 h1]
  omega

theorem getUint32_putUint32 (v : Nat) (h : v < 2 ^ 32) : getUint32 (putUint32 v) = v := by
  unfold getUint32 putUint32
  simp only [List.getD_cons_zero, List.getD_cons_succ]
  norm_num at h
  omega

theorem putUint32_bytes (v : Nat) : ∀ b ∈ putUint32 v, b < 256 := by
  intro b hb
  unfold putUint32 at hb
  simp only [List.mem_cons, List.mem_singleton, List.not_mem_nil, or_false] at hb
  rcases hb with rfl | rfl | rfl | rfl <;> exact Nat.mod_lt _ (by norm_num)

/-- The part of the sealed bytes that the MAC covers. -/
theorem sealBytes_eq (P : Prims) (now : Int) (nonce raw : List Nat) (ttl : Int) :
    sealBytes P now nonce raw ttl
      = ([1] ++ putUint32 (uint32 (now + ttl)) ++ nonce ++ P.compress raw)
        ++ P.hmac ([1] ++ putUint32 (uint32 (now + ttl)) ++ nonce ++ P.compress raw) := rfl

theorem sealBytes_bytes (P : Prims) (hP : P.WF) (now : Int) (nonce raw : List Nat) (ttl : Int)
    (hn : ∀ b ∈ nonce, b < 256) : ∀ b ∈ sealBytes P now nonce raw ttl, b < 256 := by
  intro b hb
  rw [sealBytes_eq] at hb
  simp only [List.mem_append, List.mem_singleton] at hb
  rcases hb with ((((rfl | hb) | hb) | hb) | hb)
  · norm_num
  · exact putUint32_bytes _ b hb
  · exact hn b hb
  · exact hP.compress_bytes raw b hb
  · exact hP.hmac_bytes _ b hb

/-- Opening a byte string `body ++ mac` whose last 32 bytes are `mac`. -/
theorem openBytes_append (P : Prims) (now : Int) (body mac : List Nat)
    (hb : 13 ≤ body.length) (hm : mac.length = 32) :
    openBytes P now (body ++ mac)
      = if mac ≠ P.hmac body then .error .checkFailed
        else if uint32 now > getUint32 ((body.drop 1).take 4) then .error .failed
        else zlibResult (P.decompress (body.drop 13)) := by
  unfold openBytes
  have hl : (body ++ mac).length - 32 = body.length := by
    rw [List.length_append, hm]; omega
  have h1 : ¬ ((body ++ mac).length < 1 + 4 + 8 + 32) := by
    rw [List.length_append, hm]; omega
  rw [if_neg h1]
  simp only [hl, List.take_left, List.drop_left]

/-- Opening, at the clock reading `t1`, a token sealed at `t0`. -/
theorem DecodeData_EncodeData (P : Prims) (hP : P.WF) (t0 t1 : Int) (nonce raw : List Nat)
    (ttl : Int) (hn8 : nonce.length = 8) (hn : ∀ b ∈ nonce, b < 256) :
    DecodeData P t1 (EncodeData P t0 nonce raw ttl)
      = if uint32 t1 > uint32 (t0 + ttl) then .error .failed
        else zlibResult (P.decompress (P.compress raw)) := by
  unfold EncodeData
  rw [DecodeData_b64Encode P t1 _ (sealBytes_bytes P hP t0 nonce raw ttl hn), sealBytes_eq,
    openBytes_append P t1 _ _ (by simp [putUint32, hn8]) (hP.hmac_length _)]
  have h1 : ¬ (P.hmac ([1] ++ putUint32 (uint32 (t0 + ttl)) ++ nonce ++ P.compress raw)
      ≠ P.hmac ([1] ++ putUint32 (uint32 (t0 + ttl)) ++ nonce ++ P.compress raw)) := by simp
  rw [if_neg h1]
  have h2 : (List.drop 1 ([1] ++ putUint32 (uint32 (t0 + ttl)) ++ nonce ++ P.compress raw)).take 4
      = putUint32 (uint32 (t0 + ttl)) := by
    simp [putUint32]
  have h3 : List.drop 13 ([1] ++ putUint32 (uint32 (t0 + ttl)) ++ nonce ++ P.compress raw)
      = P.compress raw := by
    have : ([1] ++ putUint32 (uint32 (t0 + ttl)) ++ nonce).length = 13 := by
      simp [putUint32, hn8]
    rw [← this, List.drop_left]
  rw [h2, h3, getUint32_putUint32 _ (uint32_lt _)]

theorem demoPrims_WF : demoPrims.WF where
  compress_bytes := by
    intro raw b hb
    simp only [demoPrims, List.mem_map] at hb
    obtain ⟨a, _, rfl⟩ := hb
    exact Nat.mod_lt _ (by norm_num)
  hmac_bytes := by
    intro m b hb
    simp only [demoPrims] at hb
    rw [List.mem_replicate] at hb
    rw [hb.2]
    exact Nat.mod_lt _ (by norm_num)
  hmac_length := by intro m; simp [demoPrims]

/-! ## Flipping one bit -/

theorem flipBit_length (l : List Nat) (i j : Nat) : (flipBit l i j).length = l.length := by
  unfold flipBit; simp

theorem flipBit_ne (l : List Nat) (i j : Nat) (hi : i < l.length) : flipBit l i j ≠ l := by
  intro h
  have h1 : (flipBit l i j).getD i 0 = l.getD i 0 := by rw [h]
  unfold flipBit at h1
  rw [List.getD_eq_getElem _ _ (by simpa using hi), List.getElem_set_self] at h1
  have h2 : l.getD i 0 ^^^ 2 ^ j = l.getD i 0 ^^^ 0 := by rw [h1]; simp
  have h3 := Nat.xor_right_injective h2
  have : 0 < 2 ^ j := Nat.two_pow_pos j
  omega

theorem flipBit_bytes (l : List Nat) (i j : Nat) (hj : j < 8) (h : ∀ b ∈ l, b < 256) :
    ∀ b ∈ flipBit l i j, b < 256 := by
  intro b hb
  unfold flipBit at hb
  rcases List.mem_or_eq_of_mem_set hb with hb | rfl
  · exact h b hb
  · have h1 : l.getD i 0 < 2 ^ 8 := by
      rw [List.getD_eq_getElem?_getD]
      cases hg : l[i]? with
      | none => simp
      | some x =>
        have := h x (List.getElem?_mem hg)
        simpa using this
    have h2 : 2 ^ j < 2 ^ 8 := Nat.pow_lt_pow_right (by norm_num) hj
    have := Nat.xor_lt_two_pow h1 h2
    simpa using this

theorem flipBit_append_left (body mac : List Nat) (i j : Nat) (hi : i < body.length) :
    flipBit (body ++ mac) i j = flipBit body i j ++ mac := by
  unfold flipBit
  rw [List.set_append_left _ _ hi, List.getD_append _ _ _ _ hi]

theorem flipBit_append_right (body mac : List Nat) (i j : Nat) (hi : body.length ≤ i) :
    flipBit (body ++ mac) i j = body ++ flipBit mac (i - body.length) j := by
  unfold flipBit
  rw [List.set_append_right _ _ hi, List.getD_append_right _ _ _ _ hi]

theorem sealBody_length (P : Prims) (now : Int) (nonce raw : List Nat) (ttl : Int)
    (hn8 : nonce.length = 8) :
    (sealBody P now nonce raw ttl).length = 13 + (P.compress raw).length := by
  simp [sealBody, putUint32, hn8]
  omega

/-! ## The envelope: claims C2 to C5 -/

/-- C2, counterexample: with the clock at 1700000000 and ttl = 2594967296
(so that now + ttl = 2^32) the 32-bit expiry wraps to 0, and opening the
token at the same clock reading fails as expired, although the stand-in
decompressor inverts the compressor on the payload. -/
theorem seal_open_wrapped_ttl_fails :
    (0 : Int) ≤ 2594967296
    ∧ demoPrims.decompress (demoPrims.compress helloBytes) = .ok helloBytes
    ∧ DecodeData demoPrims 1700000000
        (EncodeData demoPrims 1700000000 demoNonce helloBytes 2594967296) = .error .failed
    ∧ DecodeData demoPrims 1700000000
        (EncodeData demoPrims 1700000000 demoNonce helloBytes 2594967296) ≠ .ok helloBytes := by
  decide

/-- C2, as amended: for every payload and ttl whose 32-bit expiry
`uint32 (now + ttl)` is not below the 32-bit clock `uint32 now` (so whenever
0 ≤ now, 0 ≤ ttl and now + ttl < 2^32), opening the token returned by
`EncodeData` at the same clock reading succeeds and returns exactly the
payload, given that the decompressor inverts the compressor on it. -/
theorem seal_open_roundtrip (P : Prims) (hP : P.WF) (now : Int) (nonce raw : List Nat)
    (ttl : Int) (hn8 : nonce.length = 8) (hn : ∀ b ∈ nonce, b < 256)
    (hinv : P.decompress (P.compress raw) = .ok raw)
    (hexp : uint32 now ≤ uint32 (now + ttl)) :
    DecodeData P now (EncodeData P now nonce raw ttl) = .ok raw
    ∧ (0 ≤ now → 0 ≤ ttl → now + ttl < 2 ^ 32 → uint32 now ≤ uint32 (now + ttl)) := by
  constructor
  · rw [DecodeData_EncodeData P hP now now nonce raw ttl hn8 hn, if_neg (by omega), hinv]
    rfl
  · intro h0 h1 h2
    have e1 := uint32_of_range now h0 (by omega)
    have e2 := uint32_of_range (now + ttl) (by omega) h2
    omega

/-- C2, witness: "hello" sealed for 60 seconds at 1700000000. -/
theorem seal_open_roundtrip_witness :
    DecodeData demoPrims 1700000000 (EncodeData demoPrims 1700000000 demoNonce helloBytes 60)
      = .ok helloBytes
    ∧ ((0 : Int) ≤ 1700000000 → (0 : Int) ≤ 60 → (1700000000 : Int) + 60 < 2 ^ 32 →
        uint32 1700000000 ≤ uint32 (1700000000 + 60)) :=
  seal_open_roundtrip demoPrims demoPrims_WF 1700000000 demoNonce helloBytes 60
    (by decide) (by decide) (by decide) (by decide)

/-- C3, counterexample: in the token of "hello" sealed by the stand-in
collaborators, flipping bit 7 of the first character gives a byte outside
the base64url alphabet and `DecodeData` fails with "invalid", not with
"check failed" (`first_char_flip_invalid` shows the same for every
compressor, MAC, payload and clock). And the decoder ignores the low bits of
a last character: the texts `AA4` and `AA5`, one bit apart, decode to the
same bytes, so a check made on the decoded bytes cannot tell them apart. -/
theorem flipped_token_bit_not_checkFailed :
    DecodeData demoPrims 1700000000
        (flipBit (EncodeData demoPrims 1700000000 demoNonce helloBytes 60) 0 7)
      = .error .invalid
    ∧ flipBit [65, 65, 52] 2 0 = [65, 65, 53]
    ∧ b64Decode [65, 65, 53] = b64Decode [65, 65, 52] := by
  decide

/-- On the sealed bytes (the bytes that `EncodeData` base64-encodes): for
every sealed envelope and every single bit of its bytes, the envelope with
that bit flipped, encoded again, makes `DecodeData` fail with "check failed"
at every clock reading: always when the bit lies in the 32-byte tag, and
when it lies before the tag provided the MAC of the altered bytes differs
from the MAC of the original ones. -/
theorem flipped_envelope_bit_checkFailed (P : Prims) (hP : P.WF) (t0 t1 : Int)
    (nonce raw : List Nat) (ttl : Int) (hn8 : nonce.length = 8) (hn : ∀ b ∈ nonce, b < 256)
    (i j : Nat) (hi : i < (sealBytes P t0 nonce raw ttl).length) (hj : j < 8)
    (hcoll : i < (sealBody P t0 nonce raw ttl).length →
      P.hmac (flipBit (sealBody P t0 nonce raw ttl) i j) ≠ P.hmac (sealBody P t0 nonce raw ttl)) :
    DecodeData P t1 (b64Encode (flipBit (sealBytes P t0 nonce raw ttl) i j))
      = .error .checkFailed := by
  have hbytes := flipBit_bytes _ i j hj (sealBytes_bytes P hP t0 nonce raw ttl hn)
  rw [DecodeData_b64Encode P t1 _ hbytes]
  have hbl := sealBody_length P t0 nonce raw ttl hn8
  have hml := hP.hmac_length (sealBody P t0 nonce raw ttl)
  unfold sealBytes at hi ⊢
  by_cases hlt : i < (sealBody P t0 nonce raw ttl).length
  · rw [flipBit_append_left _ _ _ _ hlt,
      openBytes_append P t1 _ _ (by rw [flipBit_length]; omega) hml]
    rw [if_pos (fun h => hcoll hlt h.symm)]
  · rw [flipBit_append_right _ _ _ _ (by omega),
      openBytes_append P t1 _ _ (by omega) (by rw [flipBit_length]; exact hml)]
    rw [if_pos]
    apply flipBit_ne
    rw [List.length_append] at hi
    omega

/-- An instance on the sealed bytes: bit 0 of byte 0 (the version byte) of
the "hello" envelope. -/
theorem flipped_envelope_bit_checkFailed_witness :
    DecodeData demoPrims 1700000050
        (b64Encode (flipBit (sealBytes demoPrims 1700000000 demoNonce helloBytes 60) 0 0))
      = .error .checkFailed :=
  flipped_envelope_bit_checkFailed demoPrims demoPrims_WF 1700000000 1700000050 demoNonce
    helloBytes 60 (by decide) (by decide) 0 0 (by decide) (by decide) (by decide)

/-- C4: for every token that base64url-decodes to at least 45 bytes whose
last 32 bytes differ from the MAC of the bytes before them, `DecodeData`
fails with "check failed" at every clock reading, whatever the version byte,
the expiry field and the compressed bytes are; in particular never with
"failed" (expired) or with a zlib error. -/
theorem bad_tag_checkFailed (P : Prims) (now : Int) (tok raw : List Nat)
    (hdec : b64Decode tok = some raw) (hlen : 45 ≤ raw.length)
    (htag : raw.drop (raw.length - 32) ≠ P.hmac (raw.take (raw.length - 32))) :
    DecodeData P now tok = .error .checkFailed
    ∧ DecodeData P now tok ≠ .error .failed
    ∧ ∀ part, DecodeData P now tok ≠ .error (.zlib part) := by
  have h : DecodeData P now tok = .error .checkFailed := by
    unfold DecodeData
    rw [hdec]
    show openBytes P now raw = _
    unfold openBytes
    rw [if_neg (show ¬ raw.length < 1 + 4 + 8 + 32 by omega)]
    simp only
    rw [if_pos htag]
  refine ⟨h, ?_, ?_⟩
  · rw [h]; simp
  · intro part; rw [h]; simp

/-- C4, witness: 45 bytes, all zero but the last; the expiry field is 0,
long past at the clock reading 1700000000. -/
theorem bad_tag_checkFailed_witness :
    DecodeData demoPrims 1700000000 (b64Encode (List.replicate 44 0 ++ [1]))
      = .error .checkFailed
    ∧ DecodeData demoPrims 1700000000 (b64Encode (List.replicate 44 0 ++ [1])) ≠ .error .failed
    ∧ ∀ part, DecodeData demoPrims 1700000000 (b64Encode (List.replicate 44 0 ++ [1]))
        ≠ .error (.zlib part) :=
  bad_tag_checkFailed demoPrims 1700000000 (b64Encode (List.replicate 44 0 ++ [1]))
    (List.replicate 44 0 ++ [1]) (by decide) (by decide) (by decide)

/-- C5, counterexample: sealed at t0 = 1700000000 with ttl = 2594967295 the
expiry is 2^32 - 1; opened at t1 = 2^32 > t0 + ttl the 32-bit clock reads 0,
and `DecodeData` returns the payload instead of failing as expired. -/
theorem replay_after_wrap_not_expired :
    (0 : Int) ≤ 2594967295 ∧ (4294967296 : Int) > 1700000000 + 2594967295
    ∧ DecodeData demoPrims 4294967296
        (EncodeData demoPrims 1700000000 demoNonce helloBytes 2594967295) = .ok helloBytes
    ∧ DecodeData demoPrims 4294967296
        (EncodeData demoPrims 1700000000 demoNonce helloBytes 2594967295) ≠ .error .failed := by
  decide

/-- C5, as amended: for every payload, every ttl ≥ 0, every sealing time
t0 ≥ 0 and every opening time t1 with t0 + ttl < t1 < 2^32 (the clock has
not wrapped its 32 bits), opening the token returned by `EncodeData` at t0
fails with "failed" (expired) and returns no payload. -/
theorem replay_after_ttl_expired (P : Prims) (hP : P.WF) (t0 t1 : Int) (nonce raw : List Nat)
    (ttl : Int) (hn8 : nonce.length = 8) (hn : ∀ b ∈ nonce, b < 256)
    (httl : 0 ≤ ttl) (ht0 : 0 ≤ t0) (hlate : t0 + ttl < t1) (hwrap : t1 < 2 ^ 32) :
    DecodeData P t1 (EncodeData P t0 nonce raw ttl) = .error .failed
    ∧ ∀ out, DecodeData P t1 (EncodeData P t0 nonce raw ttl) ≠ .ok out := by
  have e1 := uint32_of_range t1 (by omega) hwrap
  have e2 := uint32_of_range (t0 + ttl) (by omega) (by omega)
  have h : DecodeData P t1 (EncodeData P t0 nonce raw ttl) = .error .failed := by
    rw [DecodeData_EncodeData P hP t0 t1 nonce raw ttl hn8 hn, if_pos (by omega)]
  refine ⟨h, ?_⟩
  intro out; rw [h]; simp

/-- C5, witness: "hello" sealed for 60 seconds at 1700000000 and opened 61
seconds later. -/
theorem replay_after_ttl_expired_witness :
    DecodeData demoPrims 1700000061 (EncodeData demoPrims 1700000000 demoNonce helloBytes 60)
      = .error .failed
    ∧ ∀ out, DecodeData demoPrims 1700000061
        (EncodeData demoPrims 1700000000 demoNonce helloBytes 60) ≠ .ok out :=
  replay_after_ttl_expired demoPrims demoPrims_WF 1700000000 1700000061 demoNonce helloBytes 60
    (by decide) (by decide) (by decide) (by decide) (by decide) (by decide)

/-! ## The steganographic channel: claims C11 to C13 -/

theorem fmtBin_eq_bitsBE (w n : Nat) (hw : 1 ≤ w) (h : n < 2 ^ w) : fmtBin w n = bitsBE w n :=
  fmtBin_of_lt w n hw h

theorem fullBitsOf_ascii (p : List Nat) (hlen : p.length < 2 ^ 32) (hascii : ∀ c ∈ p, c < 128) :
    fullBitsOf p = specStream p := by
  unfold fullBitsOf specStream
  rw [runes_ascii p hascii, fmtBin_eq_bitsBE 32 _ (by norm_num) hlen]
  congr 1
  apply List.flatMap_congr
  intro c hc
  exact fmtBin_eq_bitsBE 8 c (by norm_num) (by have := hascii c hc; norm_num; omega)

theorem specStream_length (p : List Nat) : (specStream p).length = 32 + 8 * p.length := by
  unfold specStream bitsBE
  rw [List.length_append]
  simp only [List.length_map, List.length_reverse, List.length_range]
  congr 1
  induction p with
  | nil => simp
  | cons c p ih =>
    rw [List.flatMap_cons, List.length_append, ih]
    simp
    omega

/-- The bit layout that `encodeMetaToImg` does achieve: for a payload of
bytes below 0x80 (shorter than 2^32 bytes), the blue lowest bit of the pixel
with row-major index `skip + i` is bit `i` of the specified stream, for
every `i` below `32 + 8 * len` that the grid has room for. -/
theorem embed_layout_ascii (img : Image) (p : List Nat) (skip i : Nat)
    (hlen : p.length < 2 ^ 32) (hascii : ∀ c ∈ p, c < 128)
    (hi : i < min (32 + 8 * p.length) (img.npix - skip)) :
    ((encodeMetaToImg img p skip).At (img.colOf (skip + i)) (img.rowOf (skip + i))).B % 2
      = (specStream p).getD i 0 := by
  have hk : skip + i < img.npix := by omega
  rw [encoded_At img p skip (skip + i) hk, fullBitsOf_ascii p hlen hascii]
  unfold embedPixel
  have hc : ((skip : Int).toNat ≤ skip + i
      ∧ skip + i - (skip : Int).toNat < (specStream p).length) := by
    rw [specStream_length]
    simp only [Int.toNat_ofNat]
    omega
  rw [if_pos hc]
  simp only [Int.toNat_ofNat]
  have e : skip + i - skip = i := by omega
  rw [e]
  have hb : (specStream p).getD i 0 < 2 := by
    rw [← fullBitsOf_ascii p hlen hascii]
    apply fullBitsOf_lt_two p
    rw [List.getD_eq_getElem _ _ (by rw [fullBitsOf_ascii p hlen hascii, specStream_length]; omega)]
    exact List.getElem_mem _
  have hb' : (specStream p).getD i 0 % 256 = (specStream p).getD i 0 := by omega
  rw [hb']
  generalize (specStream p).getD i 0 = b at hb ⊢
  generalize (img.rgbaAt (img.colOf (skip + i)) (img.rowOf (skip + i))).b >>> 8 % 256 = B
  have h3 := @Nat.or_mod_two_eq_one (B &&& 0xFE) b
  have h4 := @Nat.and_mod_two_eq_one B 0xFE
  have h5 : ¬ ((B &&& 0xFE) % 2 = 1) := by rw [h4]; norm_num
  have h6 := Nat.mod_lt ((B &&& 0xFE) ||| b) (by norm_num : 0 < 2)
  by_cases hb1 : b = 1
  · have : ((B &&& 0xFE) ||| b) % 2 = 1 := h3.mpr (Or.inr (by omega))
    omega
  · have : ¬ (((B &&& 0xFE) ||| b) % 2 = 1) := by
      rw [h3]; intro h; rcases h with h | h
      · exact h5 h
      · omega
    omega

/-- C11, failing input: the one-byte payload 0x80 embedded with skip 0 into
a 48x1 all-black 8-bit grid. Bit 33 of the specified stream (32 length bits,
then 10000000) is 0, and 33 < min (32 + 8, 48); the code stores 1 in the
blue lowest bit of pixel 33, because it formats the rune U+FFFD read from the
invalid byte (1111111111111101) instead of the byte. -/
theorem embed_layout_broken_at_high_byte :
    33 < min (32 + 8 * ([128] : List Nat).length) ((blackGrid 48 1).toImage.npix - 0)
    ∧ (specStream [128]).getD 33 0 = 0
    ∧ (encodeMetaToImg (blackGrid 48 1).toImage [128] 0).At 33 0 = ⟨0, 0, 1, 255⟩
    ∧ ((encodeMetaToImg (blackGrid 48 1).toImage [128] 0).At 33 0).B % 2 = 1
    ∧ runes [128] = [65533] := by
  have h := encoded_At (blackGrid 48 1).toImage [128] 0 33 (by rw [blackGrid_npix]; decide)
  have hc : (blackGrid 48 1).toImage.colOf 33 = 33 := by decide
  have hr : (blackGrid 48 1).toImage.rowOf 33 = 0 := by decide
  rw [hc, hr] at h
  refine ⟨by rw [blackGrid_npix]; decide, by decide, ?_, ?_, by decide⟩
  · rw [h]; decide
  · rw [h]; decide

/-- C12, failing input: `highByteGrid` has 168 pixels, its header decodes to
1, and the blue lowest bits of pixels 160 to 167 form the value 255. The
claim asks for exactly min (1, (168 - 128 - 32) / 8) = 1 byte of value 255;
the code returns the two bytes 0xC3 0xBF, the UTF-8 encoding that
`string(byte(val))` gives to the code point 255. -/
theorem extract_reassembly_broken_at_high_byte :
    128 + 32 ≤ highByteGrid.npix
    ∧ highByteGrid.header 128 = 1
    ∧ min 1 ((highByteGrid.npix - 128 - 32) / 8) = 1
    ∧ parseBin ((List.range' (128 + 32 + 8 * 0) 8).map highByteGrid.bit) = 255
    ∧ extractMetaFromImg highByteGrid = .ok [0xC3, 0xBF] := by
  set_option maxRecDepth 100000 in decide

/-- C13: `encodeMetaToImg` is a total function of the grid, the payload and
the offset, with no error result; the grid it returns has the bounds of the
input (origin, width and height) and one pixel for each point of them,
whatever the capacity of the grid. -/
theorem embed_total_same_bounds (img : Image) (p : List Nat) (skip : Int) :
    (encodeMetaToImg img p skip).Rect = img.bounds
    ∧ (encodeMetaToImg img p skip).Rect.dx = img.bounds.dx
    ∧ (encodeMetaToImg img p skip).Rect.dy = img.bounds.dy
    ∧ (encodeMetaToImg img p skip).Pix.length = img.bounds.dx * img.bounds.dy := by
  obtain ⟨h1, h2⟩ := encodeMetaToImg_eq img p skip
  refine ⟨h1, by rw [h1], by rw [h1], ?_⟩
  rw [h2]
  simp [Image.npix]

/-! ## What the base64 decoder accepts -/

theorem b64Quanta_isSome : ∀ s : List Nat, (b64Quanta s).isSome = isB64UrlText s
  | [] => by decide
  | [c0] => by simp [b64Quanta, isB64UrlText]
  | [c0, c1] => by
    unfold b64Quanta isB64UrlText
    cases h0 : b64Val c0 <;> cases h1 : b64Val c1 <;> simp [h0, h1]
  | [c0, c1, c2] => by
    unfold b64Quanta isB64UrlText
    cases h0 : b64Val c0 <;> cases h1 : b64Val c1 <;> cases h2 : b64Val c2 <;> simp [h0, h1, h2]
  | c0 :: c1 :: c2 :: c3 :: rest => by
    have ih := b64Quanta_isSome rest
    unfold isB64UrlText at ih ⊢
    rw [b64Quanta]
    have hl : (c0 :: c1 :: c2 :: c3 :: rest).length % 4 = rest.length % 4 := by
      simp only [List.length_cons]; omega
    rw [hl]
    cases h0 : b64Val c0 <;> cases h1 : b64Val c1 <;> cases h2 : b64Val c2
      <;> cases h3 : b64Val c3 <;> cases h4 : b64Quanta rest
      <;> simp [h0, h1, h2, h3, h4] at ih ⊢ <;> exact ih

/-- The decoder fails exactly on tokens that, once line feeds and carriage
returns are dropped, are not unpadded base64url text. -/
theorem b64Decode_eq_none_iff (tok : List Nat) :
    b64Decode tok = none ↔ isB64UrlText (dropNewlines tok) = false := by
  have h := b64Quanta_isSome (dropNewlines tok)
  unfold b64Decode
  show b64Quanta (dropNewlines tok) = none ↔ _
  rw [← h]
  cases b64Quanta (dropNewlines tok) <;> simp

/-- Past the length test `openBytes` never answers "invalid", and it
answers "check failed" exactly when the tag does not verify. -/
theorem openBytes_of_length (P : Prims) (now : Int) (raw : List Nat) (hlen : 45 ≤ raw.length) :
    openBytes P now raw ≠ .error .invalid
    ∧ (openBytes P now raw = .error .checkFailed
        ↔ raw.drop (raw.length - 32) ≠ P.hmac (raw.take (raw.length - 32))) := by
  unfold openBytes
  rw [if_neg (show ¬ raw.length < 1 + 4 + 8 + 32 by omega)]
  simp only
  by_cases htag : raw.drop (raw.length - 32) ≠ P.hmac (raw.take (raw.length - 32))
  · rw [if_pos htag]
    simp [htag]
  · rw [if_neg htag]
    have hz : ∀ r, zlibResult r ≠ .error .invalid ∧ zlibResult r ≠ .error .checkFailed := by
      intro r; cases r <;> simp [zlibResult]
    split
    · simp [htag]
    · exact ⟨(hz _).1, by simp [htag, (hz _).2]⟩

/-- With a verifying tag, `openBytes` compares the clock with bytes 1 to 4
and hands the bytes between the nonce and the tag to the zlib reader. -/
theorem openBytes_of_tag (P : Prims) (now : Int) (raw : List Nat) (hlen : 45 ≤ raw.length)
    (htag : raw.drop (raw.length - 32) = P.hmac (raw.take (raw.length - 32))) :
    openBytes P now raw
      = if uint32 now > getUint32 ((raw.drop 1).take 4) then .error .failed
        else zlibResult (P.decompress ((raw.drop 13).take (raw.length - 45))) := by
  unfold openBytes
  rw [if_neg (show ¬ raw.length < 1 + 4 + 8 + 32 by omega)]
  simp only
  rw [if_neg (by simp [htag])]
  have e1 : ((raw.take (raw.length - 32)).drop 1).take 4 = (raw.drop 1).take 4 := by
    rw [List.drop_take, List.take_take]
    congr 1
    omega
  have e2 : (raw.take (raw.length - 32)).drop (1 + 4 + 8)
      = (raw.drop 13).take (raw.length - 45) := by
    rw [List.drop_take]
    congr 1
  rw [e1, e2]

/-! ## The envelope: claims C14 to C17 -/

/-- C14: for every payload, ttl, clock reading `t` and drawn nonce, the
unpadded base64url decoding of the token of `EncodeData` is the byte 1, then
`(t + ttl) mod 2^32` as 4 big-endian bytes, then the nonce, then the
compressed payload, then a tag of exactly 32 bytes that is the MAC of all
the bytes before it. -/
theorem seal_layout (P : Prims) (hP : P.WF) (t : Int) (n p : List Nat) (ttl : Int)
    (hn : ∀ b ∈ n, b < 256) :
    b64Decode (EncodeData P t n p ttl)
        = some ([1] ++ putUint32 (uint32 (t + ttl)) ++ n ++ P.compress p
            ++ P.hmac ([1] ++ putUint32 (uint32 (t + ttl)) ++ n ++ P.compress p))
    ∧ (P.hmac ([1] ++ putUint32 (uint32 (t + ttl)) ++ n ++ P.compress p)).length = 32
    ∧ (uint32 (t + ttl) : Int) = (t + ttl) % 2 ^ 32
    ∧ putUint32 (uint32 (t + ttl))
        = [uint32 (t + ttl) / 2 ^ 24 % 256, uint32 (t + ttl) / 2 ^ 16 % 256,
            uint32 (t + ttl) / 2 ^ 8 % 256, uint32 (t + ttl) % 256]
    ∧ getUint32 (putUint32 (uint32 (t + ttl))) = uint32 (t + ttl) := by
  refine ⟨?_, hP.hmac_length _, ?_, rfl, getUint32_putUint32 _ (uint32_lt _)⟩
  · unfold EncodeData
    rw [b64Decode_b64Encode _ (sealBytes_bytes P hP t n p ttl hn)]
    rfl
  · unfold uint32
    have h1 : (0 : Int) ≤ (t + ttl) % 2 ^ 32 := Int.emod_nonneg _ (by norm_num)
    omega

/-- C14, witness: "hello" sealed for 60 seconds at 1700000000. -/
theorem seal_layout_witness :
    b64Decode (EncodeData demoPrims 1700000000 demoNonce helloBytes 60)
        = some ([1] ++ putUint32 (uint32 (1700000000 + 60)) ++ demoNonce
            ++ demoPrims.compress helloBytes
            ++ demoPrims.hmac ([1] ++ putUint32 (uint32 (1700000000 + 60)) ++ demoNonce
                ++ demoPrims.compress helloBytes))
    ∧ (demoPrims.hmac ([1] ++ putUint32 (uint32 (1700000000 + 60)) ++ demoNonce
          ++ demoPrims.compress helloBytes)).length = 32
    ∧ (uint32 (1700000000 + 60) : Int) = (1700000000 + 60) % 2 ^ 32
    ∧ putUint32 (uint32 (1700000000 + 60))
        = [uint32 (1700000000 + 60) / 2 ^ 24 % 256, uint32 (1700000000 + 60) / 2 ^ 16 % 256,
            uint32 (1700000000 + 60) / 2 ^ 8 % 256, uint32 (1700000000 + 60) % 256]
    ∧ getUint32 (putUint32 (uint32 (1700000000 + 60))) = uint32 (1700000000 + 60) :=
  seal_layout demoPrims demoPrims_WF 1700000000 demoNonce helloBytes 60 (by decide)

/-- C15, counterexample: the token of "hello" with a line feed inserted
after its fourth character is not base64url text (the line feed is outside
the alphabet), yet the decoder skips the line feed, the token decodes to the
50 sealed bytes and `DecodeData` returns the payload instead of "invalid". -/
theorem newline_token_accepted :
    isB64UrlText ((EncodeData demoPrims 1700000000 demoNonce helloBytes 60).take 4 ++ [10]
        ++ (EncodeData demoPrims 1700000000 demoNonce helloBytes 60).drop 4) = false
    ∧ b64Decode ((EncodeData demoPrims 1700000000 demoNonce helloBytes 60).take 4 ++ [10]
        ++ (EncodeData demoPrims 1700000000 demoNonce helloBytes 60).drop 4)
        = some (sealBytes demoPrims 1700000000 demoNonce helloBytes 60)
    ∧ (sealBytes demoPrims 1700000000 demoNonce helloBytes 60).length = 50
    ∧ DecodeData demoPrims 1700000000
        ((EncodeData demoPrims 1700000000 demoNonce helloBytes 60).take 4 ++ [10]
          ++ (EncodeData demoPrims 1700000000 demoNonce helloBytes 60).drop 4)
        = .ok helloBytes
    ∧ DecodeData demoPrims 1700000000
        ((EncodeData demoPrims 1700000000 demoNonce helloBytes 60).take 4 ++ [10]
          ++ (EncodeData demoPrims 1700000000 demoNonce helloBytes 60).drop 4)
        ≠ .error .invalid := by
  decide

/-- C15, as amended: `DecodeData` fails with "invalid" if and only if the
token, once its line feeds and carriage returns are dropped, is not unpadded
base64url text, or it decodes to fewer than 1 + 4 + 8 + 32 = 45 bytes; every
token that decodes to 45 bytes or more goes on to the tag check, failing
with "check failed" exactly when the tag does not verify. -/
theorem malformed_iff (P : Prims) (now : Int) (tok : List Nat) :
    (DecodeData P now tok = .error .invalid
      ↔ (isB64UrlText (dropNewlines tok) = false
          ∨ ∃ raw, b64Decode tok = some raw ∧ raw.length < 1 + 4 + 8 + 32))
    ∧ (∀ raw, b64Decode tok = some raw → 45 ≤ raw.length →
        (DecodeData P now tok = .error .checkFailed
          ↔ raw.drop (raw.length - 32) ≠ P.hmac (raw.take (raw.length - 32)))) := by
  constructor
  · rw [← b64Decode_eq_none_iff]
    unfold DecodeData
    cases hdec : b64Decode tok with
    | none => simp
    | some raw =>
      simp only [reduceCtorEq, Option.some.injEq, exists_eq_left', false_or]
      by_cases hlen : raw.length < 1 + 4 + 8 + 32
      · simp only [hlen, iff_true]
        unfold openBytes
        rw [if_pos hlen]
      · simp only [hlen, iff_false]
        exact (openBytes_of_length P now raw (by omega)).1
  · intro raw hdec hlen
    unfold DecodeData
    rw [hdec]
    exact (openBytes_of_length P now raw hlen).2

/-- C16: for every token that decodes to at least 45 bytes and whose tag
verifies, `DecodeData` fails with "failed" (expired) if and only if the
clock, as an unsigned 32-bit value, is strictly greater than the big-endian
expiry in bytes 1 to 4; opened exactly at the expiry second the token is not
expired. The test reads the clock and the stored expiry only. -/
theorem expired_iff (P : Prims) (now : Int) (tok raw : List Nat)
    (hdec : b64Decode tok = some raw) (hlen : 45 ≤ raw.length)
    (htag : raw.drop (raw.length - 32) = P.hmac (raw.take (raw.length - 32))) :
    (DecodeData P now tok = .error .failed ↔ uint32 now > getUint32 ((raw.drop 1).take 4))
    ∧ (uint32 now = getUint32 ((raw.drop 1).take 4) → DecodeData P now tok ≠ .error .failed) := by
  have h : DecodeData P now tok
      = if uint32 now > getUint32 ((raw.drop 1).take 4) then .error .failed
        else zlibResult (P.decompress ((raw.drop 13).take (raw.length - 45))) := by
    unfold DecodeData
    rw [hdec]
    exact openBytes_of_tag P now raw hlen htag
  have hz : ∀ r, zlibResult r ≠ .error .failed := by
    intro r; cases r <;> simp [zlibResult]
  have hiff : DecodeData P now tok = .error .failed
      ↔ uint32 now > getUint32 ((raw.drop 1).take 4) := by
    rw [h]
    by_cases hc : uint32 now > getUint32 ((raw.drop 1).take 4)
    · rw [if_pos hc]
      exact ⟨fun _ => hc, fun _ => rfl⟩
    · rw [if_neg hc]
      exact ⟨fun h => absurd h (hz _), fun h => absurd h hc⟩
  refine ⟨hiff, ?_⟩
  intro heq hf
  have := hiff.mp hf
  omega

/-- C16, witness: the token of "hello" sealed for 60 seconds at 1700000000,
read at its expiry second 1700000060. -/
theorem expired_iff_witness :
    (DecodeData demoPrims 1700000060 (EncodeData demoPrims 1700000000 demoNonce helloBytes 60)
        = .error .failed
      ↔ uint32 1700000060
          > getUint32 (((sealBytes demoPrims 1700000000 demoNonce helloBytes 60).drop 1).take 4))
    ∧ (uint32 1700000060
          = getUint32 (((sealBytes demoPrims 1700000000 demoNonce helloBytes 60).drop 1).take 4)
        → DecodeData demoPrims 1700000060
            (EncodeData demoPrims 1700000000 demoNonce helloBytes 60) ≠ .error .failed) :=
  expired_iff demoPrims 1700000060 (EncodeData demoPrims 1700000000 demoNonce helloBytes 60)
    (sealBytes demoPrims 1700000000 demoNonce helloBytes 60) (by decide) (by decide) (by decide)

/-- C17: for every token that decodes to at least 45 bytes, whose tag
verifies and which is not expired, `DecodeData` returns the decompression of
the bytes between the nonce and the tag, whatever the first byte is: a
second such token whose bytes differ only in the first byte (1, say) and in
the tag gives the same result. No error for the version exists. -/
theorem version_byte_unchecked (P : Prims) (now : Int) (tok raw : List Nat)
    (hdec : b64Decode tok = some raw) (hlen : 45 ≤ raw.length)
    (htag : raw.drop (raw.length - 32) = P.hmac (raw.take (raw.length - 32)))
    (hlive : ¬ uint32 now > getUint32 ((raw.drop 1).take 4)) :
    DecodeData P now tok = zlibResult (P.decompress ((raw.drop 13).take (raw.length - 45)))
    ∧ (∀ tok1 raw1 : List Nat, b64Decode tok1 = some raw1 → raw1.length = raw.length →
        (raw1.drop 1).take (raw.length - 33) = (raw.drop 1).take (raw.length - 33) →
        raw1.drop (raw1.length - 32) = P.hmac (raw1.take (raw1.length - 32)) →
        DecodeData P now tok1 = DecodeData P now tok) := by
  have key : ∀ t r : List Nat, b64Decode t = some r → 45 ≤ r.length →
      r.drop (r.length - 32) = P.hmac (r.take (r.length - 32)) →
      DecodeData P now t
        = if uint32 now > getUint32 (((r.drop 1).take (r.length - 33)).take 4) then
            .error .failed
          else zlibResult (P.decompress (((r.drop 1).take (r.length - 33)).drop 12)) := by
    intro t r hd hl ht
    unfold DecodeData
    rw [hd]
    show openBytes P now r = _
    rw [openBytes_of_tag P now r hl ht]
    have e1 : ((r.drop 1).take (r.length - 33)).take 4 = (r.drop 1).take 4 := by
      rw [List.take_take]; congr 1; omega
    have e2 : ((r.drop 1).take (r.length - 33)).drop 12 = (r.drop 13).take (r.length - 45) := by
      rw [List.drop_take, List.drop_drop]
      congr 1
    rw [e1, e2]
  have h0 := key tok raw hdec hlen htag
  have e1 : ((raw.drop 1).take (raw.length - 33)).take 4 = (raw.drop 1).take 4 := by
    rw [List.take_take]; congr 1; omega
  have e2 : ((raw.drop 1).take (raw.length - 33)).drop 12
      = (raw.drop 13).take (raw.length - 45) := by
    rw [List.drop_take, List.drop_drop]
    congr 1
  constructor
  · rw [h0, e1, e2, if_neg hlive]
  · intro tok1 raw1 hd1 hl1 hsame ht1
    rw [h0, key tok1 raw1 hd1 (by omega) ht1, hl1, hsame]

/-- C17, witness: version byte 7 in front of the expiry 1700000060, the
demo nonce and "hello", read at 1700000000. -/
theorem version_byte_unchecked_witness :
    DecodeData demoPrims 1700000000 (b64Encode (([7] ++ putUint32 1700000060 ++ demoNonce
        ++ helloBytes) ++ demoPrims.hmac ([7] ++ putUint32 1700000060 ++ demoNonce ++ helloBytes)))
      = .ok helloBytes :=
  (version_byte_unchecked demoPrims 1700000000
    (b64Encode (([7] ++ putUint32 1700000060 ++ demoNonce ++ helloBytes)
      ++ demoPrims.hmac ([7] ++ putUint32 1700000060 ++ demoNonce ++ helloBytes)))
    (([7] ++ putUint32 1700000060 ++ demoNonce ++ helloBytes)
      ++ demoPrims.hmac ([7] ++ putUint32 1700000060 ++ demoNonce ++ helloBytes))
    (by decide) (by decide) (by decide) (by decide)).1.trans (by decide)

/-! ## The log dispatcher: claim C18 -/

/-- With the switch off the normal entry is never dispatched: every backend
call of `LogMetaHandler` comes from the meta entry. -/
theorem switch_off_normal_not_sent (c : LogConfig) (B : Backends)
    (normal meta : Option MetaPayload) (hoff : c.logSwitch = false) :
    (LogMetaHandler c B normal meta).2 = logStep2 B meta
    ∧ (LogMetaHandler c B normal none).2 = [] := by
  have h1 : logStep1 c B normal = (none, []) := by
    unfold logStep1
    cases normal with
    | none => rfl
    | some n => simp [hoff]
  unfold LogMetaHandler
  rw [h1]
  exact ⟨rfl, rfl⟩

/-- C18, failing input: with the switch off, both initially and after
`DisableObB`, `LogMetaHandler(nil, meta)` for a meta entry with non-empty
`Ob1`, `Ob2` and `Ob3 = "mysql"` calls the mysql handler with that entry:
step 2 does not test `logSwitch`. -/
theorem switch_off_meta_still_sent :
    LogConfig.initial.logSwitch = false
    ∧ (DisableObB (EnableObB (SetObA LogConfig.initial "dsn" "pg"))).logSwitch = false
    ∧ (LogMetaHandler LogConfig.initial okBackends none (some demoMeta)).2
        = [⟨"mysql", demoMeta⟩]
    ∧ (LogMetaHandler (DisableObB (EnableObB (SetObA LogConfig.initial "dsn" "pg"))) okBackends
        (some demoMeta) (some demoMeta)).2 = [⟨"mysql", demoMeta⟩] := by
  decide

/-! ## The pipeline: claim C19 -/

theorem runSteps_append_ok {σ ε : Type} (pre post : List (Handler σ ε)) (d : List Nat) (s : σ)
    (d1 : List Nat) (s1 : σ) (h : runSteps pre d s = (.ok d1, s1)) :
    runSteps (pre ++ post) d s = runSteps post d1 s1 := by
  induction pre generalizing d s with
  | nil =>
    simp only [runSteps, Prod.mk.injEq, Except.ok.injEq] at h
    obtain ⟨rfl, rfl⟩ := h
    rfl
  | cons f pre ih =>
    rw [List.cons_append, runSteps]
    rw [runSteps] at h
    cases hf : (f d s).1.2 with
    | some err => rw [hf] at h; simp at h
    | none =>
      rw [hf] at h
      exact ih _ _ h

theorem foldl_Add_steps {σ ε : Type} (fs : List (Handler σ ε)) (p : Pipeline σ ε) :
    (fs.foldl Pipeline.Add p).steps = p.steps ++ fs := by
  induction fs generalizing p with
  | nil => simp
  | cons f fs ih => rw [List.foldl_cons, ih]; simp [Pipeline.Add]

theorem runSteps_pure {σ ε : Type} (gs : List (List Nat → List Nat)) (d : List Nat) (s : σ) :
    runSteps (gs.map (fun g => (fun data st => ((g data, none), st) : Handler σ ε))) d s
      = (.ok (gs.foldl (fun acc g => g acc) d), s) := by
  induction gs generalizing d with
  | nil => rfl
  | cons g gs ih =>
    rw [List.map_cons, runSteps]
    simp only [List.foldl_cons]
    exact ih (g d)

/-- C19: a pipeline built by `Add(f1) ... Add(fn)` holds the handlers in
insertion order, and `Run` applies them in that order, each to the output of
the one before: with no handler it returns the input and a nil error; when
the handlers `pre` have all succeeded with output `d1`, a next handler that
succeeds makes the run return its output, and a next handler that fails
makes the run return its error and no data, the world being left as that
handler left it whatever handlers `post` follow, which are not called; and
handlers that never fail, `g1 ... gn`, give `gn (... (g1 d))`. -/
theorem pipeline_order_abort {σ ε : Type} (fs : List (Handler σ ε)) (d : List Nat) (s : σ) :
    (fs.foldl Pipeline.Add NewPipeline).steps = fs
    ∧ (NewPipeline : Pipeline σ ε).Run d s = (.ok d, s)
    ∧ (∀ (pre : List (Handler σ ε)) (f : Handler σ ε) (d1 : List Nat) (s1 : σ),
        (pre.foldl Pipeline.Add NewPipeline).Run d s = (.ok d1, s1) → (f d1 s1).1.2 = none →
        ((pre ++ [f]).foldl Pipeline.Add NewPipeline).Run d s
          = (.ok (f d1 s1).1.1, (f d1 s1).2))
    ∧ (∀ (pre post : List (Handler σ ε)) (f : Handler σ ε) (d1 : List Nat) (s1 : σ) (e : ε),
        (pre.foldl Pipeline.Add NewPipeline).Run d s = (.ok d1, s1) → (f d1 s1).1.2 = some e →
        ((pre ++ f :: post).foldl Pipeline.Add NewPipeline).Run d s
          = (.error e, (f d1 s1).2))
    ∧ (∀ gs : List (List Nat → List Nat),
        ((gs.map (fun g => (fun data st => ((g data, none), st) : Handler σ ε))).foldl
            Pipeline.Add NewPipeline).Run d s
          = (.ok (gs.foldl (fun acc g => g acc) d), s)) := by
  have hsteps : ∀ gs : List (Handler σ ε), (gs.foldl Pipeline.Add NewPipeline).steps = gs := by
    intro gs
    rw [foldl_Add_steps]
    rfl
  refine ⟨hsteps fs, rfl, ?_, ?_, ?_⟩
  · intro pre f d1 s1 hpre hf
    unfold Pipeline.Run at hpre ⊢
    rw [hsteps] at hpre ⊢
    rw [runSteps_append_ok pre [f] d s d1 s1 hpre, runSteps, hf]
    rfl
  · intro pre post f d1 s1 e hpre hf
    unfold Pipeline.Run at hpre ⊢
    rw [hsteps] at hpre ⊢
    rw [runSteps_append_ok pre (f :: post) d s d1 s1 hpre, runSteps, hf]
  · intro gs
    unfold Pipeline.Run
    rw [hsteps]
    exact runSteps_pure gs d s

/-! ## Writing pixels of an `*image.RGBA` -/

theorem contains_iff (r : Rectangle) (x y : Int) :
    r.contains x y = true ↔ r.minX ≤ x ∧ x < r.maxX ∧ r.minY ≤ y ∧ y < r.maxY := by
  unfold Rectangle.contains
  simp only [Bool.and_eq_true, decide_eq_true_eq]
  tauto

/-- Inside the rectangle the pixel offset is below `dx * dy`. -/
theorem pixOffset_lt (d : ImageRGBA) (x y : Int) (h : d.Rect.contains x y = true) :
    d.PixOffset x y < d.Rect.dx * d.Rect.dy := by
  rw [contains_iff] at h
  obtain ⟨h1, h2, h3, h4⟩ := h
  unfold ImageRGBA.PixOffset Rectangle.dx Rectangle.dy
  obtain ⟨a, ha⟩ : ∃ a : Nat, x - d.Rect.minX = a := ⟨(x - d.Rect.minX).toNat, by omega⟩
  obtain ⟨b, hb⟩ : ∃ b : Nat, y - d.Rect.minY = b := ⟨(y - d.Rect.minY).toNat, by omega⟩
  obtain ⟨w, hw⟩ : ∃ w : Nat, d.Rect.maxX - d.Rect.minX = w :=
    ⟨(d.Rect.maxX - d.Rect.minX).toNat, by omega⟩
  obtain ⟨h, hh⟩ : ∃ h : Nat, d.Rect.maxY - d.Rect.minY = h :=
    ⟨(d.Rect.maxY - d.Rect.minY).toNat, by omega⟩
  rw [ha, hb, hw, hh]
  simp only [Int.toNat_ofNat]
  have e : ((b : Int) * (w : Int) + (a : Int)) = ((b * w + a : Nat) : Int) := by push_cast; ring
  rw [e, Int.toNat_ofNat]
  have haw : a < w := by omega
  have hbh : b < h := by omega
  calc b * w + a < b * w + w := by omega
    _ = (b + 1) * w := by ring
    _ ≤ h * w := Nat.mul_le_mul_right w hbh
    _ = w * h := Nat.mul_comm _ _

/-- Inside the rectangle two points with the same pixel offset coincide. -/
theorem pixOffset_inj (d : ImageRGBA) (x y x2 y2 : Int) (h : d.Rect.contains x y = true)
    (h2 : d.Rect.contains x2 y2 = true) (he : d.PixOffset x y = d.PixOffset x2 y2) :
    x = x2 ∧ y = y2 := by
  rw [contains_iff] at h h2
  obtain ⟨h1, h2', h3, h4⟩ := h
  obtain ⟨k1, k2, k3, k4⟩ := h2
  unfold ImageRGBA.PixOffset Rectangle.dx at he
  obtain ⟨a, ha⟩ : ∃ a : Nat, x - d.Rect.minX = a := ⟨(x - d.Rect.minX).toNat, by omega⟩
  obtain ⟨b, hb⟩ : ∃ b : Nat, y - d.Rect.minY = b := ⟨(y - d.Rect.minY).toNat, by omega⟩
  obtain ⟨a2, ha2⟩ : ∃ a : Nat, x2 - d.Rect.minX = a := ⟨(x2 - d.Rect.minX).toNat, by omega⟩
  obtain ⟨b2, hb2⟩ : ∃ b : Nat, y2 - d.Rect.minY = b := ⟨(y2 - d.Rect.minY).toNat, by omega⟩
  obtain ⟨w, hw⟩ : ∃ w : Nat, d.Rect.maxX - d.Rect.minX = w :=
    ⟨(d.Rect.maxX - d.Rect.minX).toNat, by omega⟩
  rw [ha, hb, ha2, hb2, hw] at he
  simp only [Int.toNat_ofNat] at he
  have e : ∀ p q : Nat, (((p : Int) * (w : Int) + (q : Int)).toNat) = p * w + q := by
    intro p q
    have : ((p : Int) * (w : Int) + (q : Int)) = ((p * w + q : Nat) : Int) := by push_cast; ring
    rw [this, Int.toNat_ofNat]
  rw [e, e] at he
  have haw : a < w := by omega
  have ha2w : a2 < w := by omega
  have hw0 : 0 < w := by omega
  have hq : (b * w + a) / w = b := by
    rw [Nat.add_comm, Nat.add_mul_div_right _ _ hw0, Nat.div_eq_of_lt haw]; simp
  have hq2 : (b2 * w + a2) / w = b2 := by
    rw [Nat.add_comm, Nat.add_mul_div_right _ _ hw0, Nat.div_eq_of_lt ha2w]; simp
  have hr : (b * w + a) % w = a := by
    rw [Nat.add_comm, Nat.add_mul_mod_self_right, Nat.mod_eq_of_lt haw]
  have hr2 : (b2 * w + a2) % w = a2 := by
    rw [Nat.add_comm, Nat.add_mul_mod_self_right, Nat.mod_eq_of_lt ha2w]
  have hbb : b = b2 := by rw [← hq, ← hq2, he]
  have haa : a = a2 := by rw [← hr, ← hr2, he]
  subst hbb; subst haa
  constructor <;> omega

theorem Set_Rect (d : ImageRGBA) (x y : Int) (c : RGBA) : (d.Set x y c).Rect = d.Rect := by
  unfold ImageRGBA.Set
  split <;> rfl

theorem Set_length (d : ImageRGBA) (x y : Int) (c : RGBA) :
    (d.Set x y c).Pix.length = d.Pix.length := by
  unfold ImageRGBA.Set
  split
  · simp
  · rfl

theorem At_Set_same (d : ImageRGBA) (x y : Int) (c : RGBA) (h : d.Rect.contains x y = true)
    (hwf : d.Pix.length = d.Rect.dx * d.Rect.dy) : (d.Set x y c).At x y = c := by
  have hlt := pixOffset_lt d x y h
  unfold ImageRGBA.At
  rw [Set_Rect, h]
  unfold ImageRGBA.Set
  simp only [h, if_true]
  have e : ImageRGBA.PixOffset { Pix := d.Pix.set (d.PixOffset x y) c, Rect := d.Rect } x y
      = d.PixOffset x y := rfl
  rw [e, List.getD_eq_getElem _ _ (by rw [List.length_set]; omega), List.getElem_set_self]

theorem At_Set_other (d : ImageRGBA) (x y x2 y2 : Int) (c : RGBA)
    (hne : ¬ (x2 = x ∧ y2 = y)) : (d.Set x y c).At x2 y2 = d.At x2 y2 := by
  unfold ImageRGBA.At
  rw [Set_Rect]
  by_cases h2 : d.Rect.contains x2 y2 = true
  · simp only [h2, if_true]
    unfold ImageRGBA.Set
    by_cases h : d.Rect.contains x y = true
    · simp only [h, if_true]
      have e : ImageRGBA.PixOffset { Pix := d.Pix.set (d.PixOffset x y) c, Rect := d.Rect } x2 y2
          = d.PixOffset x2 y2 := rfl
      rw [e]
      have hoff : d.PixOffset x y ≠ d.PixOffset x2 y2 := by
        intro he
        obtain ⟨e1, e2⟩ := pixOffset_inj d x y x2 y2 h h2 he
        exact hne ⟨e1.symm, e2.symm⟩
      rw [List.getD_eq_getElem?_getD, List.getD_eq_getElem?_getD, List.getElem?_set_ne hoff]
    · simp only [h]
      rfl
  · simp only [h2]
    rfl

/-! ## A sequence of `Set` calls -/

theorem paint_Rect (ws : List ((Int × Int) × RGBA)) (d : ImageRGBA) :
    (ws.foldl (fun d w => d.Set w.1.1 w.1.2 w.2) d).Rect = d.Rect
    ∧ (ws.foldl (fun d w => d.Set w.1.1 w.1.2 w.2) d).Pix.length = d.Pix.length := by
  induction ws generalizing d with
  | nil => exact ⟨rfl, rfl⟩
  | cons w ws ih =>
    rw [List.foldl_cons]
    obtain ⟨h1, h2⟩ := ih (d.Set w.1.1 w.1.2 w.2)
    exact ⟨by rw [h1, Set_Rect], by rw [h2, Set_length]⟩

/-- A point that no call names keeps its colour. -/
theorem paint_untouched (ws : List ((Int × Int) × RGBA)) (d : ImageRGBA) (qx qy : Int)
    (h : ∀ w ∈ ws, ¬ (qx = w.1.1 ∧ qy = w.1.2)) :
    (ws.foldl (fun d w => d.Set w.1.1 w.1.2 w.2) d).At qx qy = d.At qx qy := by
  induction ws generalizing d with
  | nil => rfl
  | cons w ws ih =>
    rw [List.foldl_cons, ih _ (fun u hu => h u (List.mem_cons_of_mem _ hu)),
      At_Set_other d _ _ qx qy _ (h w (List.mem_cons_self _ _))]

/-- When the calls give one colour per point, a point named by a call ends
with the colour of that call. -/
theorem paint_written (ws : List ((Int × Int) × RGBA)) (d : ImageRGBA)
    (hwf : d.Pix.length = d.Rect.dx * d.Rect.dy)
    (hfun : ∀ u ∈ ws, ∀ v ∈ ws, u.1 = v.1 → u.2 = v.2)
    (w : (Int × Int) × RGBA) (hw : w ∈ ws) (hin : d.Rect.contains w.1.1 w.1.2 = true) :
    (ws.foldl (fun d w => d.Set w.1.1 w.1.2 w.2) d).At w.1.1 w.1.2 = w.2 := by
  induction ws generalizing d with
  | nil => simp at hw
  | cons v t ih =>
    rw [List.foldl_cons]
    by_cases hwt : w ∈ t
    · apply ih
      · rw [Set_length, Set_Rect]; exact hwf
      · exact fun a ha b hb => hfun a (List.mem_cons_of_mem _ ha) b (List.mem_cons_of_mem _ hb)
      · exact hwt
      · rw [Set_Rect]; exact hin
    · have hwv : w = v := by
        rcases List.mem_cons.mp hw with h | h
        · exact h
        · exact absurd h hwt
      subst hwv
      rw [paint_untouched]
      · exact At_Set_same d _ _ _ hin hwf
      · intro u hu hc
        apply hwt
        have h1 : w.1 = u.1 := Prod.ext hc.1 hc.2
        have h2 := hfun w (List.mem_cons_self _ _) u (List.mem_cons_of_mem _ hu) h1
        have : w = u := Prod.ext h1 h2
        rw [this]; exact hu

theorem foldl_nested_pairs {σ β γ : Type} (ys : List β) (xs : List γ) (f : σ → γ → β → σ)
    (s0 : σ) :
    ys.foldl (fun s y => xs.foldl (fun s x => f s x y) s) s0
      = (ys.flatMap (fun y => xs.map (fun x => (x, y)))).foldl (fun s p => f s p.1 p.2) s0 := by
  induction ys generalizing s0 with
  | nil => rfl
  | cons y ys ih =>
    rw [List.foldl_cons, ih, List.flatMap_cons, List.foldl_append, List.foldl_map]

/-- The loops of `handlerRotate` in terms of the destination map `pos`: when
`pos` sends the points of the source, taken from its origin, to distinct
points inside the destination, the destination keeps its rectangle and shows
at `pos x y` the converted source colour of `(Min.X + x, Min.Y + y)`. -/
theorem rotateLoops_At (src : Image) (pos : Int → Int → Int × Int) (dst : ImageRGBA)
    (hwf : dst.Pix.length = dst.Rect.dx * dst.Rect.dy)
    (hin : ∀ x y : Nat, x < src.bounds.Dx.toNat → y < src.bounds.Dy.toNat →
      dst.Rect.contains (pos x y).1 (pos x y).2 = true)
    (hinj : ∀ x y x2 y2 : Nat, x < src.bounds.Dx.toNat → y < src.bounds.Dy.toNat →
      x2 < src.bounds.Dx.toNat → y2 < src.bounds.Dy.toNat → pos x y = pos x2 y2 →
      x = x2 ∧ y = y2) :
    (rotateLoops src pos dst).Rect = dst.Rect
    ∧ (rotateLoops src pos dst).Pix.length = dst.Pix.length
    ∧ ∀ x y : Nat, x < src.bounds.Dx.toNat → y < src.bounds.Dy.toNat →
      (rotateLoops src pos dst).At (pos x y).1 (pos x y).2
        = rgbaModel (src.rgbaAt (src.bounds.minX + (x : Int)) (src.bounds.minY + (y : Int))) := by
  have hfold : rotateLoops src pos dst
      = (((List.range src.bounds.Dy.toNat).flatMap
            (fun y => (List.range src.bounds.Dx.toNat).map (fun x => (x, y)))).map
          (fun p : Nat × Nat => ((pos p.1 p.2),
            rgbaModel (src.rgbaAt (src.bounds.minX + (p.1 : Int))
              (src.bounds.minY + (p.2 : Int)))))).foldl
          (fun d w => d.Set w.1.1 w.1.2 w.2) dst := by
    unfold rotateLoops
    rw [foldl_nested_pairs, List.foldl_map]
  rw [hfold]
  refine ⟨(paint_Rect _ dst).1, (paint_Rect _ dst).2, ?_⟩
  intro x y hx hy
  have hmem : ∀ p : Nat × Nat,
      p ∈ (List.range src.bounds.Dy.toNat).flatMap
          (fun y => (List.range src.bounds.Dx.toNat).map (fun x => (x, y)))
        ↔ p.1 < src.bounds.Dx.toNat ∧ p.2 < src.bounds.Dy.toNat := by
    intro p
    simp only [List.mem_flatMap, List.mem_map, List.mem_range]
    constructor
    · rintro ⟨b, hb, a, ha, rfl⟩
      exact ⟨ha, hb⟩
    · rintro ⟨h1, h2⟩
      exact ⟨p.2, h2, p.1, h1, rfl⟩
  apply paint_written _ dst hwf _
    ((pos x y), rgbaModel (src.rgbaAt (src.bounds.minX + (x : Int)) (src.bounds.minY + (y : Int))))
  · rw [List.mem_map]
    exact ⟨(x, y), (hmem (x, y)).mpr ⟨hx, hy⟩, rfl⟩
  · exact hin x y hx hy
  · intro u hu v hv huv
    rw [List.mem_map] at hu hv
    obtain ⟨p, hp, rfl⟩ := hu
    obtain ⟨q, hq, rfl⟩ := hv
    have hp' := (hmem p).mp hp
    have hq' := (hmem q).mp hq
    obtain ⟨e1, e2⟩ := hinj p.1 p.2 q.1 q.2 hp'.1 hp'.2 hq'.1 hq'.2 huv
    simp only [e1, e2]

/-! ## The rotations: claim C20 -/

theorem Rect_of_nonneg (w h : Int) (hw : 0 ≤ w) (hh : 0 ≤ h) : Rect 0 0 w h = ⟨0, 0, w, h⟩ := by
  unfold Rect
  rw [min_eq_left hw, min_eq_left hh, max_eq_right hw, max_eq_right hh]

theorem NewRGBA_length (r : Rectangle) : (NewRGBA r).Pix.length = (NewRGBA r).Rect.dx * (NewRGBA r).Rect.dy := by
  simp [NewRGBA]

/-- An 8-bit colour survives the conversion that `Set` applies. -/
theorem rgbaModel_RGBA (c : RGBA) (hR : c.R < 256) (hG : c.G < 256) (hB : c.B < 256)
    (hA : c.A < 256) : rgbaModel c.RGBA = c := by
  have key : ∀ v : Nat, v < 256 → (v ||| (v <<< 8)) >>> 8 % 256 = v := by
    intro v hv
    have hX : v < 2 ^ 8 := by norm_num; exact hv
    have h1 : v ||| (v <<< 8) = 2 ^ 8 * v + v := by
      rw [Nat.mul_add_lt_is_or hX, Nat.shiftLeft_eq, Nat.lor_comm, Nat.mul_comm]
    rw [h1, Nat.shiftRight_eq_div_pow]
    have e8 : (2 : Nat) ^ 8 = 256 := by norm_num
    rw [e8]
    have e : (256 * v + v) / 256 = v := by
      rw [Nat.mul_add_div (by norm_num), Nat.div_eq_of_lt hv]; rfl
    rw [e]
    exact Nat.mod_eq_of_lt hv
  unfold rgbaModel RGBA.RGBA
  simp only [key c.R hR, key c.G hG, key c.B hB, key c.A hA]

/-- C20: for every source grid (well-formed bounds) of width `sw` and height
`sh`, the `Rotate90CW` branch produces a grid with rectangle (0, 0, sh, sw),
so of width `sh` and height `sw`, whose pixel at `(sh-1-y, x)` is the source
pixel at `(x, y)` from the source origin, as `Set` stores it (converted to
8-bit RGBA, which leaves an 8-bit RGBA source pixel unchanged), for all
`x < sw`, `y < sh`; every destination point is the target of exactly one
source point, so it is written exactly once. -/
theorem rotate90_swaps (src : Image) (hwfx : src.bounds.minX ≤ src.bounds.maxX)
    (hwfy : src.bounds.minY ≤ src.bounds.maxY) :
    (rotate90CW src).Rect = ⟨0, 0, src.bounds.Dy, src.bounds.Dx⟩
    ∧ (rotate90CW src).Rect.Dx = src.bounds.Dy
    ∧ (rotate90CW src).Rect.Dy = src.bounds.Dx
    ∧ (rotate90CW src).Pix.length = src.bounds.Dy.toNat * src.bounds.Dx.toNat
    ∧ (∀ x y : Nat, (x : Int) < src.bounds.Dx → (y : Int) < src.bounds.Dy →
        (rotate90CW src).At (src.bounds.Dy - 1 - y) x
          = rgbaModel (src.rgbaAt (src.bounds.minX + x) (src.bounds.minY + y)))
    ∧ (∀ g : ImageRGBA, src = g.toImage →
        (∀ x y, (g.At x y).R < 256 ∧ (g.At x y).G < 256 ∧ (g.At x y).B < 256
          ∧ (g.At x y).A < 256) →
        ∀ x y : Nat, (x : Int) < src.bounds.Dx → (y : Int) < src.bounds.Dy →
          (rotate90CW src).At (src.bounds.Dy - 1 - y) x
            = g.At (src.bounds.minX + x) (src.bounds.minY + y))
    ∧ (∀ u v : Int, 0 ≤ u → u < src.bounds.Dy → 0 ≤ v → v < src.bounds.Dx →
        ∃! p : Nat × Nat, (p.1 : Int) < src.bounds.Dx ∧ (p.2 : Int) < src.bounds.Dy
          ∧ src.bounds.Dy - 1 - (p.2 : Int) = u ∧ (p.1 : Int) = v) := by
  have hDx : 0 ≤ src.bounds.Dx := by unfold Rectangle.Dx; omega
  have hDy : 0 ≤ src.bounds.Dy := by unfold Rectangle.Dy; omega
  have hrect : (NewRGBA (Rect 0 0 src.bounds.Dy src.bounds.Dx)).Rect
      = ⟨0, 0, src.bounds.Dy, src.bounds.Dx⟩ := by
    rw [Rect_of_nonneg _ _ hDy hDx]; rfl
  obtain ⟨h1, h2, h3⟩ := rotateLoops_At src (fun x y => (src.bounds.Dy - 1 - y, x))
    (NewRGBA (Rect 0 0 src.bounds.Dy src.bounds.Dx)) (NewRGBA_length _)
    (by
      intro x y hx hy
      rw [hrect, contains_iff]
      simp only
      omega)
    (by
      intro x y x2 y2 _ _ _ _ he
      simp only [Prod.mk.injEq] at he
      omega)
  have hAt : ∀ x y : Nat, (x : Int) < src.bounds.Dx → (y : Int) < src.bounds.Dy →
      (rotate90CW src).At (src.bounds.Dy - 1 - y) x
        = rgbaModel (src.rgbaAt (src.bounds.minX + x) (src.bounds.minY + y)) := by
    intro x y hx hy
    exact h3 x y (by omega) (by omega)
  have hR : (rotate90CW src).Rect = ⟨0, 0, src.bounds.Dy, src.bounds.Dx⟩ := by
    unfold rotate90CW; rw [h1, hrect]
  refine ⟨hR, ?_, ?_, ?_, hAt, ?_, ?_⟩
  · rw [hR]; simp [Rectangle.Dx]
  · rw [hR]; simp [Rectangle.Dy]
  · unfold rotate90CW
    rw [h2, NewRGBA_length, hrect]
    simp [Rectangle.dx, Rectangle.dy]
  · intro g hg hbytes x y hx hy
    rw [hAt x y hx hy]
    subst hg
    obtain ⟨b1, b2, b3, b4⟩ := hbytes (g.toImage.bounds.minX + x) (g.toImage.bounds.minY + y)
    exact rgbaModel_RGBA _ b1 b2 b3 b4
  · intro u v hu0 hu hv0 hv
    refine ⟨(v.toNat, (src.bounds.Dy - 1 - u).toNat), ?_, ?_⟩
    · simp only
      omega
    · rintro ⟨a, b⟩ ⟨ha, hb, e1, e2⟩
      simp only at ha hb e1 e2
      simp only [Prod.mk.injEq]
      omega

/-- C20, witness: a 2x3 source with origin (5, 7). -/
theorem rotate90_swaps_witness :
    (rotate90CW ⟨⟨5, 7, 7, 10⟩, fun x y => ⟨x.toNat * 256, y.toNat * 256, 0, 0xFFFF⟩⟩).Rect
      = ⟨0, 0, 3, 2⟩ :=
  (rotate90_swaps ⟨⟨5, 7, 7, 10⟩, fun x y => ⟨x.toNat * 256, y.toNat * 256, 0, 0xFFFF⟩⟩
    (by decide) (by decide)).1

/-! ## What the extractor reads: claim C25 -/

/-- The extractor started at offset `o` depends only on the bounds and on
the bits of the pixels from index `o` on. -/
theorem extractAt_congr_from (o : Nat) (img img2 : Image) (hb : img2.bounds = img.bounds)
    (hbit : ∀ k, o ≤ k → k < img.npix → img2.bit k = img.bit k) :
    extractAt o img2 = extractAt o img := by
  have hn : img2.npix = img.npix := by unfold Image.npix; rw [hb]
  rw [extractAt_eq, extractAt_eq, hn]
  by_cases h : img.npix < o + 32
  · rw [if_pos h, if_pos h]
  · rw [if_neg h, if_neg h]
    have e1 : (List.range' o 32).map img2.bit = (List.range' o 32).map img.bit := by
      apply List.map_congr_left
      intro k hk
      rw [List.mem_range'_1] at hk
      exact hbit k hk.1 (by omega)
    rw [e1]
    have e2 : ∀ n, (List.range' (o + 32) (min n (img.npix - (o + 32)))).map img2.bit
        = (List.range' (o + 32) (min n (img.npix - (o + 32)))).map img.bit := by
      intro n
      apply List.map_congr_left
      intro k hk
      rw [List.mem_range'_1] at hk
      exact hbit k (by omega) (by omega)
    rw [e2]

/-- The bit the extractor reads from a pixel of an 8-bit grid is the lowest
bit of its blue channel. -/
theorem bit_toImage (p : ImageRGBA) (k : Nat)
    (hB : (p.At (p.toImage.colOf k) (p.toImage.rowOf k)).B < 256) :
    p.toImage.bit k = (p.At (p.toImage.colOf k) (p.toImage.rowOf k)).B % 2 := by
  unfold Image.bit blueBit
  show (((p.At (p.toImage.colOf k) (p.toImage.rowOf k)).RGBA.b % 256) &&& 1) = _
  unfold RGBA.RGBA
  exact lsb_kept _ hB

/-- C25: two grids with the same bounds whose pixels from row-major index
128 on carry the same bit in the lowest position of the blue sample give the
same result of `extractMetaFromImg`, payload or error; in particular two
8-bit RGBA grids with the same rectangle whose blue channels agree modulo 2
from index 128 on give the same result, whatever their first 128 pixels,
their red, green and alpha channels and the upper seven blue bits are. -/
theorem extract_reads_only_blue_lsb (g1 g2 : Image) (hb : g2.bounds = g1.bounds)
    (hbit : ∀ k, 128 ≤ k → k < g1.npix → g2.bit k = g1.bit k) :
    extractMetaFromImg g2 = extractMetaFromImg g1
    ∧ (∀ q1 q2 : ImageRGBA, q2.Rect = q1.Rect →
        (∀ x y, (q1.At x y).B < 256 ∧ (q2.At x y).B < 256) →
        (∀ k, 128 ≤ k → k < q1.toImage.npix →
          (q2.At (q1.toImage.colOf k) (q1.toImage.rowOf k)).B % 2
            = (q1.At (q1.toImage.colOf k) (q1.toImage.rowOf k)).B % 2) →
        extractMetaFromImg q2.toImage = extractMetaFromImg q1.toImage) := by
  refine ⟨extractAt_congr_from 128 g1 g2 hb hbit, ?_⟩
  intro q1 q2 hr h8 hlsb
  have hq : q2.toImage.bounds = q1.toImage.bounds := hr
  apply extractAt_congr_from 128 q1.toImage q2.toImage hq
  intro k hk hlt
  have hc : q2.toImage.colOf k = q1.toImage.colOf k := by unfold Image.colOf; rw [hq]
  have hw : q2.toImage.rowOf k = q1.toImage.rowOf k := by unfold Image.rowOf; rw [hq]
  rw [bit_toImage q1 k (h8 _ _).1, bit_toImage q2 k (h8 _ _).2, hc, hw]
  exact hlsb k hk hlt

/-- C25, witness: a 200x1 grid whose first 128 pixels are white and whose
other pixels are black, against a grid of one colour with red 0x1234 and
blue 0xABFE: the blue samples from index 128 on are even in both. -/
theorem extract_reads_only_blue_lsb_witness :
    extractMetaFromImg ⟨⟨0, 0, 200, 1⟩, fun _ _ => ⟨0x1234, 0, 0xABFE, 0xFFFF⟩⟩
      = extractMetaFromImg ⟨⟨0, 0, 200, 1⟩,
          fun x _ => if x < 128 then ⟨0xFFFF, 0xFFFF, 0xFFFF, 0xFFFF⟩ else ⟨0, 0, 0, 0xFFFF⟩⟩ :=
  (extract_reads_only_blue_lsb
    ⟨⟨0, 0, 200, 1⟩,
      fun x _ => if x < 128 then ⟨0xFFFF, 0xFFFF, 0xFFFF, 0xFFFF⟩ else ⟨0, 0, 0, 0xFFFF⟩⟩
    ⟨⟨0, 0, 200, 1⟩, fun _ _ => ⟨0x1234, 0, 0xABFE, 0xFFFF⟩⟩ rfl
    (by
      intro k hk hlt
      have hdx : (⟨0, 0, 200, 1⟩ : Rectangle).dx = 200 := by unfold Rectangle.dx; simp
      have hlt2 : k < 200 := by
        unfold Image.npix Rectangle.dy at hlt
        simp only [hdx] at hlt
        simpa using hlt
      unfold Image.bit blueBit Image.colOf Image.rowOf
      simp only []
      rw [hdx, Nat.mod_eq_of_lt hlt2, if_neg (by omega)]
      rfl)).1

/-! ## The failure cases of the extractor: claim C26 -/

/-- The signed length `parseInt32` hands to the range check, in terms of the
unsigned header value. -/
theorem parseInt32_header (img : Image) :
    parseInt32 ((List.range' 128 32).map img.bit)
      = if img.header 128 ≥ 2 ^ 31 then 2 ^ 31 - 1 else (img.header 128 : Int) := rfl

/-- With at least 160 pixels, the extractor rejects exactly the headers
outside 1..4096 and returns a payload for the others. -/
theorem extract_of_header (img : Image) (hN : 160 ≤ img.npix) :
    (img.header 128 = 0 ∨ img.header 128 > 4096 →
        ∃ n, extractMetaFromImg img = .error (.invalidLength n))
    ∧ (1 ≤ img.header 128 → img.header 128 ≤ 4096 →
        extractMetaFromImg img
          = .ok (bitsToMsg ((List.range' 160 (min (img.header 128 * 8) (img.npix - 160))).map
              img.bit))) := by
  have hN2 : ¬ (img.npix < 128 + 32) := by omega
  unfold extractMetaFromImg
  rw [extractAt_eq, if_neg hN2, parseInt32_header]
  constructor
  · intro h
    by_cases hbig : img.header 128 ≥ 2 ^ 31
    · rw [if_pos hbig]
      have hc : ((2 : Int) ^ 31 - 1 ≤ 0 ∨ (2 : Int) ^ 31 - 1 > 4096) := by norm_num
      rw [if_pos hc]
      exact ⟨_, rfl⟩
    · rw [if_neg hbig]
      have hc : ((img.header 128 : Int) ≤ 0 ∨ (img.header 128 : Int) > 4096) := by omega
      rw [if_pos hc]
      exact ⟨_, rfl⟩
  · intro h1 h2
    have hbig : ¬ (img.header 128 ≥ 2 ^ 31) := by
      have : (4096 : Nat) < 2 ^ 31 := by norm_num
      omega
    rw [if_neg hbig]
    have hc : ¬ ((img.header 128 : Int) ≤ 0 ∨ (img.header 128 : Int) > 4096) := by omega
    rw [if_neg hc]
    simp

/-- C26: `extractMetaFromImg` returns an error exactly when the grid has
fewer than 160 pixels (the header-incomplete error) or, with 160 pixels or
more, the header decodes to 0 or to more than 4096 (the invalid-length
error); in every other case it returns a payload. A grid of 160 to 167
pixels with a header in 1..4096 gives the empty payload without error. -/
theorem extract_two_failure_cases (img : Image) :
    ((∃ e, extractMetaFromImg img = .error e)
        ↔ (img.npix < 160 ∨ img.header 128 = 0 ∨ img.header 128 > 4096))
    ∧ (img.npix < 160 → extractMetaFromImg img = .error .headerIncomplete)
    ∧ (160 ≤ img.npix → (img.header 128 = 0 ∨ img.header 128 > 4096) →
        ∃ n, extractMetaFromImg img = .error (.invalidLength n))
    ∧ (160 ≤ img.npix → 1 ≤ img.header 128 → img.header 128 ≤ 4096 →
        ∃ p, extractMetaFromImg img = .ok p)
    ∧ (160 ≤ img.npix → img.npix ≤ 167 → 1 ≤ img.header 128 → img.header 128 ≤ 4096 →
        extractMetaFromImg img = .ok []) := by
  have hshort : img.npix < 160 → extractMetaFromImg img = .error .headerIncomplete := by
    intro h
    unfold extractMetaFromImg
    rw [extractAt_eq, if_pos (by omega)]
  refine ⟨⟨?_, ?_⟩, hshort, fun hN => (extract_of_header img hN).1,
    fun hN h1 h2 => ⟨_, (extract_of_header img hN).2 h1 h2⟩, ?_⟩
  · rintro ⟨e, he⟩
    by_contra hc
    have hN : 160 ≤ img.npix := by omega
    rw [(extract_of_header img hN).2 (by omega) (by omega)] at he
    simp at he
  · rintro (h | h)
    · exact ⟨_, hshort h⟩
    · by_cases hN : img.npix < 160
      · exact ⟨_, hshort hN⟩
      · obtain ⟨n, hn⟩ := (extract_of_header img (by omega)).1 h
        exact ⟨_, hn⟩
  · intro hN hM h1 h2
    rw [(extract_of_header img hN).2 h1 h2]
    congr 1
    apply bitsToMsg_short
    simp only [List.length_map, List.length_range']
    omega

/-- C26, witness: a grid of 165 pixels whose only odd blue sample is at
index 159, so that the header is 1, gives the empty payload. -/
theorem extract_two_failure_cases_witness :
    extractMetaFromImg ⟨⟨0, 0, 165, 1⟩,
        fun x _ => if x = 159 then ⟨0, 0, 0xFFFF, 0xFFFF⟩ else ⟨0, 0, 0, 0xFFFF⟩⟩ = .ok [] :=
  (extract_two_failure_cases ⟨⟨0, 0, 165, 1⟩,
      fun x _ => if x = 159 then ⟨0, 0, 0xFFFF, 0xFFFF⟩ else ⟨0, 0, 0, 0xFFFF⟩⟩).2.2.2.2
    (by decide) (by decide) (by decide) (by decide)

/-! ## Embedding twice: claim C27 -/

theorem byte_sample (v : Nat) (hv : v < 256) : (v ||| (v <<< 8)) >>> 8 % 256 = v := by
  have hX : v < 2 ^ 8 := by norm_num; exact hv
  have h1 : v ||| (v <<< 8) = 2 ^ 8 * v + v := by
    rw [Nat.mul_add_lt_is_or hX, Nat.shiftLeft_eq, Nat.lor_comm, Nat.mul_comm]
  rw [h1, Nat.shiftRight_eq_div_pow]
  have e8 : (2 : Nat) ^ 8 = 256 := by norm_num
  rw [e8]
  have e : (256 * v + v) / 256 = v := by
    rw [Nat.mul_add_div (by norm_num), Nat.div_eq_of_lt hv]; rfl
  rw [e]
  exact Nat.mod_eq_of_lt hv

theorem lsb_rewrite (B d : Nat) :
    ((((B &&& 0xFE) ||| d) &&& 0xFE) ||| d) = ((B &&& 0xFE) ||| d) := by
  apply Nat.eq_of_testBit_eq
  intro i
  simp only [Nat.testBit_or, Nat.testBit_and]
  cases Nat.testBit B i <;> cases Nat.testBit 0xFE i <;> cases Nat.testBit d i <;> rfl

theorem stored_blue_lt (B d : Nat) : ((B &&& 0xFE) ||| d % 256) < 256 := by
  have : (B &&& 0xFE) ||| d % 256 < 2 ^ 8 :=
    Nat.or_lt_two_pow (Nat.and_lt_two_pow B (by norm_num)) (by omega)
  simpa using this

/-- Embedding at a pixel that already holds the embedded colour stores the
same colour again. -/
theorem embedPixel_idem (F : List Nat) (skip : Int) (k : Nat) (c : Sample) :
    embedPixel F skip k (embedPixel F skip k c).RGBA = embedPixel F skip k c := by
  have m8 : ∀ v : Nat, v % 256 < 256 := fun v => Nat.mod_lt _ (by norm_num)
  unfold embedPixel
  by_cases hc : skip.toNat ≤ k ∧ k - skip.toNat < F.length
  · simp only [hc, and_self, if_true]
    unfold RGBA.RGBA
    simp only
    rw [byte_sample _ (m8 _), byte_sample _ (m8 _), byte_sample _ (m8 _),
      byte_sample _ (stored_blue_lt _ _), lsb_rewrite]
  · simp only [hc, if_false]
    unfold RGBA.RGBA
    simp only
    rw [byte_sample _ (m8 _), byte_sample _ (m8 _), byte_sample _ (m8 _), byte_sample _ (m8 _)]

/-- C27: for every grid, payload `p` and offset `s`, embedding `p` at `s`
into the result of embedding `p` at `s` gives that result again: the same
rectangle and the same pixel buffer, so the same colour at every point. The
input of the first call may be any image; the claim is the case of an 8-bit
RGBA grid. -/
theorem embed_idempotent (img : Image) (p : List Nat) (s : Int) :
    encodeMetaToImg (encodeMetaToImg img p s).toImage p s = encodeMetaToImg img p s
    ∧ (∀ g : ImageRGBA, ∀ x y : Int,
        (encodeMetaToImg (encodeMetaToImg g.toImage p s).toImage p s).At x y
          = (encodeMetaToImg g.toImage p s).At x y) := by
  have key : ∀ img : Image,
      encodeMetaToImg (encodeMetaToImg img p s).toImage p s = encodeMetaToImg img p s := by
    intro img
    obtain ⟨r1, p1⟩ := encodeMetaToImg_eq img p s
    obtain ⟨r2, p2⟩ := encodeMetaToImg_eq (encodeMetaToImg img p s).toImage p s
    have hb : (encodeMetaToImg img p s).toImage.bounds = img.bounds := r1
    have hn : (encodeMetaToImg img p s).toImage.npix = img.npix := encoded_npix img p s
    have hpix : (encodeMetaToImg (encodeMetaToImg img p s).toImage p s).Pix
        = (encodeMetaToImg img p s).Pix := by
      rw [p2, p1, hn]
      apply List.map_congr_left
      intro k hk
      rw [List.mem_range] at hk
      have hcol : (encodeMetaToImg img p s).toImage.colOf k = img.colOf k := by
        unfold Image.colOf; rw [hb]
      have hrow : (encodeMetaToImg img p s).toImage.rowOf k = img.rowOf k := by
        unfold Image.rowOf; rw [hb]
      rw [hcol, hrow]
      show embedPixel (fullBitsOf p) s k
          ((encodeMetaToImg img p s).At (img.colOf k) (img.rowOf k)).RGBA = _
      rw [encoded_At img p s k hk]
      exact embedPixel_idem _ s k _
    have hrect : (encodeMetaToImg (encodeMetaToImg img p s).toImage p s).Rect
        = (encodeMetaToImg img p s).Rect := by
      rw [r2]; rfl
    cases h1 : encodeMetaToImg (encodeMetaToImg img p s).toImage p s with
    | mk px rc =>
      cases h2 : encodeMetaToImg img p s with
      | mk px2 rc2 =>
        rw [h1, h2] at hpix hrect
        simp only at hpix hrect
        rw [hpix, hrect]
  exact ⟨key img, fun g x y => by rw [key g.toImage]⟩

/-! ## The report entry point: claim C28 -/

/-- C28: for every configuration, every set of backend handlers and every
meta entry, `LogMetaHandler(nil, meta)` returns ("ok", nil), whatever
`archiveHandler` returned for the entry; so when `DecodeData` succeeds on
the token and the JSON parse succeeds on its bytes, `MetaReport` returns
nil, and the backend calls it made are those of step 2 on the parsed
entry. -/
theorem meta_dispatch_errors_swallowed (P : Prims) (now : Int)
    (unmarshal : List Nat → Option MetaPayload) (c : LogConfig) (B : Backends)
    (tok raw : List Nat) (mp : MetaPayload)
    (hdec : DecodeData P now tok = .ok raw) (hjson : unmarshal raw = some mp) :
    (∀ meta : Option MetaPayload, (LogMetaHandler c B none meta).1 = ("ok", none))
    ∧ (∀ m : MetaPayload, ∀ e, (archiveHandler B (some m)).1 = some e →
        (LogMetaHandler c B none (some m)).1 = ("ok", none))
    ∧ (MetaReport P now unmarshal c B tok).1 = none
    ∧ (MetaReport P now unmarshal c B tok).2 = logStep2 B (some mp) := by
  have h1 : ∀ meta : Option MetaPayload, (LogMetaHandler c B none meta).1 = ("ok", none) :=
    fun _ => rfl
  refine ⟨h1, fun m _ _ => h1 _, ?_, ?_⟩
  · unfold MetaReport
    rw [hdec]
    simp only
    unfold reportDecoded
    rw [hjson]
    simp only
    rw [h1]
    rfl
  · unfold MetaReport
    rw [hdec]
    simp only
    unfold reportDecoded
    rw [hjson]
    rfl

/-- C28, witness: the sealed "hello" token, a parser that returns the entry
`demoMeta`, and backends whose handlers all fail: the mysql handler is
called, its error is dropped, and `MetaReport` returns nil. -/
theorem meta_dispatch_errors_swallowed_witness :
    (archiveHandler downBackends (some demoMeta)).1 = some (.backend "connection refused")
    ∧ (MetaReport demoPrims 1700000000 (fun _ => some demoMeta) LogConfig.initial downBackends
        (EncodeData demoPrims 1700000000 demoNonce helloBytes 60)).1 = none
    ∧ (MetaReport demoPrims 1700000000 (fun _ => some demoMeta) LogConfig.initial downBackends
        (EncodeData demoPrims 1700000000 demoNonce helloBytes 60)).2 = [⟨"mysql", demoMeta⟩] :=
  ⟨by decide,
    (meta_dispatch_errors_swallowed demoPrims 1700000000 (fun _ => some demoMeta)
      LogConfig.initial downBackends (EncodeData demoPrims 1700000000 demoNonce helloBytes 60)
      helloBytes demoMeta (by decide) rfl).2.2.1,
    (meta_dispatch_errors_swallowed demoPrims 1700000000 (fun _ => some demoMeta)
      LogConfig.initial downBackends (EncodeData demoPrims 1700000000 demoNonce helloBytes 60)
      helloBytes demoMeta (by decide) rfl).2.2.2.trans (by decide)⟩

/-! ## Rotations composed: claim C30 -/

/-- The three branches of `handlerRotate` share this description: on a
destination `image.NewRGBA(image.Rect(0, 0, w, h))` the loops show at
`pos x y` the converted source colour of the point `(x, y)` from the source
origin, when `pos` maps the source points one-to-one into the destination. -/
theorem rotateLoops_grid (src : Image) (pos : Int → Int → Int × Int) (w h : Int)
    (hw : 0 ≤ w) (hh : 0 ≤ h)
    (hin : ∀ x y : Int, 0 ≤ x → x < src.bounds.Dx → 0 ≤ y → y < src.bounds.Dy →
      0 ≤ (pos x y).1 ∧ (pos x y).1 < w ∧ 0 ≤ (pos x y).2 ∧ (pos x y).2 < h)
    (hinj : ∀ x y x2 y2 : Int, pos x y = pos x2 y2 → x = x2 ∧ y = y2) :
    (rotateLoops src pos (NewRGBA (Rect 0 0 w h))).Rect = ⟨0, 0, w, h⟩
    ∧ ∀ x y : Int, 0 ≤ x → x < src.bounds.Dx → 0 ≤ y → y < src.bounds.Dy →
        (rotateLoops src pos (NewRGBA (Rect 0 0 w h))).At (pos x y).1 (pos x y).2
          = rgbaModel (src.rgbaAt (src.bounds.minX + x) (src.bounds.minY + y)) := by
  have hrect : (NewRGBA (Rect 0 0 w h)).Rect = ⟨0, 0, w, h⟩ := by
    rw [Rect_of_nonneg _ _ hw hh]; rfl
  obtain ⟨h1, _, h3⟩ := rotateLoops_At src pos (NewRGBA (Rect 0 0 w h)) (NewRGBA_length _)
    (by
      intro x y hx hy
      rw [hrect, contains_iff]
      have := hin x y (by omega) (by omega) (by omega) (by omega)
      simp only
      omega)
    (by
      intro x y x2 y2 _ _ _ _ he
      have := hinj x y x2 y2 he
      omega)
  refine ⟨by rw [h1, hrect], ?_⟩
  intro x y hx0 hx hy0 hy
  have := h3 x.toNat y.toNat (by omega) (by omega)
  rw [Int.toNat_of_nonneg hx0, Int.toNat_of_nonneg hy0] at this
  exact this

theorem rotate90CW_grid (src : Image) (hwfx : src.bounds.minX ≤ src.bounds.maxX)
    (hwfy : src.bounds.minY ≤ src.bounds.maxY) :
    (rotate90CW src).Rect = ⟨0, 0, src.bounds.Dy, src.bounds.Dx⟩
    ∧ ∀ x y : Int, 0 ≤ x → x < src.bounds.Dx → 0 ≤ y → y < src.bounds.Dy →
        (rotate90CW src).At (src.bounds.Dy - 1 - y) x
          = rgbaModel (src.rgbaAt (src.bounds.minX + x) (src.bounds.minY + y)) := by
  have hDx : 0 ≤ src.bounds.Dx := by unfold Rectangle.Dx; omega
  have hDy : 0 ≤ src.bounds.Dy := by unfold Rectangle.Dy; omega
  exact rotateLoops_grid src (fun x y => (src.bounds.Dy - 1 - y, x)) _ _ hDy hDx
    (by intro x y _ _ _ _; simp only; omega)
    (by intro x y x2 y2 he; simp only [Prod.mk.injEq] at he; omega)

theorem rotate180_grid (src : Image) (hwfx : src.bounds.minX ≤ src.bounds.maxX)
    (hwfy : src.bounds.minY ≤ src.bounds.maxY) :
    (rotate180 src).Rect = ⟨0, 0, src.bounds.Dx, src.bounds.Dy⟩
    ∧ ∀ x y : Int, 0 ≤ x → x < src.bounds.Dx → 0 ≤ y → y < src.bounds.Dy →
        (rotate180 src).At (src.bounds.Dx - 1 - x) (src.bounds.Dy - 1 - y)
          = rgbaModel (src.rgbaAt (src.bounds.minX + x) (src.bounds.minY + y)) := by
  have hDx : 0 ≤ src.bounds.Dx := by unfold Rectangle.Dx; omega
  have hDy : 0 ≤ src.bounds.Dy := by unfold Rectangle.Dy; omega
  exact rotateLoops_grid src (fun x y => (src.bounds.Dx - 1 - x, src.bounds.Dy - 1 - y)) _ _
    hDx hDy
    (by intro x y _ _ _ _; simp only; omega)
    (by intro x y x2 y2 he; simp only [Prod.mk.injEq] at he; omega)

theorem rotate270CW_grid (src : Image) (hwfx : src.bounds.minX ≤ src.bounds.maxX)
    (hwfy : src.bounds.minY ≤ src.bounds.maxY) :
    (rotate270CW src).Rect = ⟨0, 0, src.bounds.Dy, src.bounds.Dx⟩
    ∧ ∀ x y : Int, 0 ≤ x → x < src.bounds.Dx → 0 ≤ y → y < src.bounds.Dy →
        (rotate270CW src).At y (src.bounds.Dx - 1 - x)
          = rgbaModel (src.rgbaAt (src.bounds.minX + x) (src.bounds.minY + y)) := by
  have hDx : 0 ≤ src.bounds.Dx := by unfold Rectangle.Dx; omega
  have hDy : 0 ≤ src.bounds.Dy := by unfold Rectangle.Dy; omega
  exact rotateLoops_grid src (fun x y => (y, src.bounds.Dx - 1 - x)) _ _ hDy hDx
    (by intro x y _ _ _ _; simp only; omega)
    (by intro x y x2 y2 he; simp only [Prod.mk.injEq] at he; omega)

/-- Converting a stored colour again changes nothing. -/
theorem rgbaModel_idem (c : Sample) : rgbaModel (rgbaModel c).RGBA = rgbaModel c := by
  have m8 : ∀ v : Nat, v % 256 < 256 := fun v => Nat.mod_lt _ (by norm_num)
  exact rgbaModel_RGBA _ (m8 _) (m8 _) (m8 _) (m8 _)

/-- C30: for every source grid (well-formed bounds) of width `sw` and height
`sh`, the `Rotate180` loops applied twice, and the `Rotate90CW` loops
followed by the `Rotate270CW` loops, give a grid with rectangle
(0, 0, sw, sh), the original dimensions, whose pixel at `(x, y)` is the
source pixel at `(x, y)` from the source origin as `Set` stores it
(converted to 8-bit RGBA, which leaves the pixels of an 8-bit RGBA source
unchanged), for all `0 ≤ x < sw`, `0 ≤ y < sh`. -/
theorem rotations_compose (src : Image) (hwfx : src.bounds.minX ≤ src.bounds.maxX)
    (hwfy : src.bounds.minY ≤ src.bounds.maxY) :
    (rotate180 (rotate180 src).toImage).Rect = ⟨0, 0, src.bounds.Dx, src.bounds.Dy⟩
    ∧ (rotate270CW (rotate90CW src).toImage).Rect = ⟨0, 0, src.bounds.Dx, src.bounds.Dy⟩
    ∧ (∀ x y : Int, 0 ≤ x → x < src.bounds.Dx → 0 ≤ y → y < src.bounds.Dy →
        (rotate180 (rotate180 src).toImage).At x y
          = rgbaModel (src.rgbaAt (src.bounds.minX + x) (src.bounds.minY + y))
        ∧ (rotate270CW (rotate90CW src).toImage).At x y
          = rgbaModel (src.rgbaAt (src.bounds.minX + x) (src.bounds.minY + y)))
    ∧ (∀ g : ImageRGBA, src = g.toImage →
        (∀ x y, (g.At x y).R < 256 ∧ (g.At x y).G < 256 ∧ (g.At x y).B < 256
          ∧ (g.At x y).A < 256) →
        ∀ x y : Int, 0 ≤ x → x < src.bounds.Dx → 0 ≤ y → y < src.bounds.Dy →
          (rotate180 (rotate180 src).toImage).At x y
            = g.At (src.bounds.minX + x) (src.bounds.minY + y)
          ∧ (rotate270CW (rotate90CW src).toImage).At x y
            = g.At (src.bounds.minX + x) (src.bounds.minY + y)) := by
  obtain ⟨r180, a180⟩ := rotate180_grid src hwfx hwfy
  obtain ⟨r90, a90⟩ := rotate90CW_grid src hwfx hwfy
  have hDx : 0 ≤ src.bounds.Dx := by unfold Rectangle.Dx; omega
  have hDy : 0 ≤ src.bounds.Dy := by unfold Rectangle.Dy; omega
  -- the intermediate grids as sources
  have b180 : (rotate180 src).toImage.bounds = ⟨0, 0, src.bounds.Dx, src.bounds.Dy⟩ := r180
  have b90 : (rotate90CW src).toImage.bounds = ⟨0, 0, src.bounds.Dy, src.bounds.Dx⟩ := r90
  have dx180 : (rotate180 src).toImage.bounds.Dx = src.bounds.Dx := by
    rw [b180]; simp [Rectangle.Dx]
  have dy180 : (rotate180 src).toImage.bounds.Dy = src.bounds.Dy := by
    rw [b180]; simp [Rectangle.Dy]
  have dx90 : (rotate90CW src).toImage.bounds.Dx = src.bounds.Dy := by
    rw [b90]; simp [Rectangle.Dx]
  have dy90 : (rotate90CW src).toImage.bounds.Dy = src.bounds.Dx := by
    rw [b90]; simp [Rectangle.Dy]
  obtain ⟨r2, a2⟩ := rotate180_grid (rotate180 src).toImage
    (by rw [b180]; exact hDx) (by rw [b180]; exact hDy)
  obtain ⟨r3, a3⟩ := rotate270CW_grid (rotate90CW src).toImage
    (by rw [b90]; exact hDy) (by rw [b90]; exact hDx)
  rw [dx180, dy180] at r2 a2
  rw [dx90, dy90] at r3 a3
  have hpix : ∀ x y : Int, 0 ≤ x → x < src.bounds.Dx → 0 ≤ y → y < src.bounds.Dy →
      (rotate180 (rotate180 src).toImage).At x y
        = rgbaModel (src.rgbaAt (src.bounds.minX + x) (src.bounds.minY + y))
      ∧ (rotate270CW (rotate90CW src).toImage).At x y
        = rgbaModel (src.rgbaAt (src.bounds.minX + x) (src.bounds.minY + y)) := by
    intro x y hx0 hx hy0 hy
    constructor
    · have h := a2 (src.bounds.Dx - 1 - x) (src.bounds.Dy - 1 - y) (by omega) (by omega)
        (by omega) (by omega)
      have e1 : src.bounds.Dx - 1 - (src.bounds.Dx - 1 - x) = x := by ring
      have e2 : src.bounds.Dy - 1 - (src.bounds.Dy - 1 - y) = y := by ring
      rw [e1, e2, b180] at h
      rw [h]
      show rgbaModel ((rotate180 src).At (0 + (src.bounds.Dx - 1 - x))
        (0 + (src.bounds.Dy - 1 - y))).RGBA = _
      rw [zero_add, zero_add, a180 x y hx0 hx hy0 hy, rgbaModel_idem]
    · have h := a3 (src.bounds.Dy - 1 - y) x (by omega) (by omega) hx0 hx
      have e2 : src.bounds.Dy - 1 - (src.bounds.Dy - 1 - y) = y := by ring
      rw [e2, b90] at h
      rw [h]
      show rgbaModel ((rotate90CW src).At (0 + (src.bounds.Dy - 1 - y)) (0 + x)).RGBA = _
      rw [zero_add, zero_add, a90 x y hx0 hx hy0 hy, rgbaModel_idem]
  refine ⟨r2, r3, hpix, ?_⟩
  intro g hg hbytes x y hx0 hx hy0 hy
  obtain ⟨p1, p2⟩ := hpix x y hx0 hx hy0 hy
  rw [p1, p2]
  subst hg
  obtain ⟨b1, b2, b3, b4⟩ := hbytes (g.toImage.bounds.minX + x) (g.toImage.bounds.minY + y)
  exact ⟨rgbaModel_RGBA _ b1 b2 b3 b4, rgbaModel_RGBA _ b1 b2 b3 b4⟩

/-- C30, witness: a 2x3 source with origin (5, 7). -/
theorem rotations_compose_witness :
    (rotate180 (rotate180
        ⟨⟨5, 7, 7, 10⟩, fun x y => ⟨x.toNat * 256, y.toNat * 256, 0, 0xFFFF⟩⟩).toImage).Rect
      = ⟨0, 0, 2, 3⟩
    ∧ (rotate270CW (rotate90CW
        ⟨⟨5, 7, 7, 10⟩, fun x y => ⟨x.toNat * 256, y.toNat * 256, 0, 0xFFFF⟩⟩).toImage).Rect
      = ⟨0, 0, 2, 3⟩ :=
  ⟨(rotations_compose ⟨⟨5, 7, 7, 10⟩, fun x y => ⟨x.toNat * 256, y.toNat * 256, 0, 0xFFFF⟩⟩
      (by decide) (by decide)).1,
    (rotations_compose ⟨⟨5, 7, 7, 10⟩, fun x y => ⟨x.toNat * 256, y.toNat * 256, 0, 0xFFFF⟩⟩
      (by decide) (by decide)).2.1⟩

/-! ## The rectangle crop: claim C29 -/

/-- Where the requested corner lies left of and above the far edges of a
non-empty image, the `ModeRect` rectangle is non-empty and inside the
bounds. -/
theorem rect_crop_inside_of_lt (opt : crop.Options) (b : Rectangle)
    (hbx : b.minX < b.maxX) (hby : b.minY < b.maxY) (hX : opt.X < b.maxX) (hY : opt.Y < b.maxY) :
    b.minX ≤ (crop.rectXYWH opt b).1
    ∧ (crop.rectXYWH opt b).1 + (crop.rectXYWH opt b).2.2.1 ≤ b.maxX
    ∧ b.minY ≤ (crop.rectXYWH opt b).2.1
    ∧ (crop.rectXYWH opt b).2.1 + (crop.rectXYWH opt b).2.2.2 ≤ b.maxY
    ∧ 1 ≤ (crop.rectXYWH opt b).2.2.1 ∧ 1 ≤ (crop.rectXYWH opt b).2.2.2 := by
  unfold crop.rectXYWH crop.clamp
  simp only
  refine ⟨?_, ?_, ?_, ?_, ?_, ?_⟩ <;> split_ifs <;> omega

/-- C29, failing input: on the bounds (0, 0, 4, 3), `ModeRect` with `X = 4`,
`Width = 2` computes `x = 4` and `w = 0`, the empty rectangle (4, 0, 4, 2),
and with `X = 9`, `Width = 0` it computes `x = 4` and `w = 1`, so that
`x + w = 5` lies beyond `Max.X = 4`; the same happens along `y`. The first
`clamp` lets `x` reach `Max.X`, which leaves the second one the empty range
from 1 to 0. -/
theorem rect_crop_leaves_bounds :
    crop.rectXYWH ⟨crop.ModeRect, 4, 0, 2, 2, 0, 0, 80⟩ ⟨0, 0, 4, 3⟩ = (4, 0, 0, 2)
    ∧ crop.cropRect ⟨crop.ModeRect, 4, 0, 2, 2, 0, 0, 80⟩ ⟨0, 0, 4, 3⟩ = some ⟨4, 0, 4, 2⟩
    ∧ crop.rectXYWH ⟨crop.ModeRect, 9, 0, 0, 2, 0, 0, 80⟩ ⟨0, 0, 4, 3⟩ = (4, 0, 1, 2)
    ∧ crop.cropRect ⟨crop.ModeRect, 9, 0, 0, 2, 0, 0, 80⟩ ⟨0, 0, 4, 3⟩ = some ⟨4, 0, 5, 2⟩
    ∧ crop.rectXYWH ⟨crop.ModeRect, 0, 3, 2, 2, 0, 0, 80⟩ ⟨0, 0, 4, 3⟩ = (0, 3, 2, 0)
    ∧ crop.rectXYWH ⟨crop.ModeRect, 0, 7, 2, -5, 0, 0, 80⟩ ⟨0, 0, 4, 3⟩ = (0, 3, 2, 1) := by
  decide

/-! ## The centre-ratio crop: claim C23 -/

set_option maxRecDepth 100000 in
/-- C23, failing input: a 70x70 image cropped to the ratio 21:9. The handler
computes `target = 21/9` rounded to a `float64`, and `float64(70) / target`
rounded is just below 30, so `int(...)` gives `ch = 29` and the rectangle
(0, 20, 70, 49); the claim's size is (70, floor(70*9/21)) = (70, 30). -/
theorem center_crop_truncates_rounded_quotient :
    crop.centerSize 21 9 70 70 = some (70, 29)
    ∧ crop.cropRect ⟨crop.ModeCenterRatio, 0, 0, 0, 0, 21, 9, 80⟩ ⟨0, 0, 70, 70⟩
        = some ⟨0, 20, 70, 49⟩
    ∧ centerSizeExact 21 9 70 70 = (70, 30) := by
  refine ⟨by decide, by decide, ?_⟩
  unfold centerSizeExact
  norm_num

/-! ## Rounding to 53 bits -/

theorem two_pow_bitLenAux_le (fuel n : Nat) (h : n ≤ fuel) (hn : 0 < n) :
    2 ^ (bitLenAux fuel n - 1) ≤ n := by
  induction fuel generalizing n with
  | zero => omega
  | succ fuel ih =>
    rw [bitLenAux, if_neg (by omega)]
    simp only [Nat.add_sub_cancel]
    by_cases h2 : n / 2 = 0
    · have : bitLenAux fuel (n / 2) = 0 := by
        rw [h2]; cases fuel <;> simp [bitLenAux]
      rw [this]; simpa using hn
    · have h3 := ih (n / 2) (by omega) (by omega)
      have h4 : 1 ≤ bitLenAux fuel (n / 2) := by
        cases fuel with
        | zero => omega
        | succ f => rw [bitLenAux, if_neg h2]; omega
      have h5 : bitLenAux fuel (n / 2) = (bitLenAux fuel (n / 2) - 1) + 1 := by omega
      rw [h5, pow_succ]
      omega

/-- The number of binary digits of a positive `n`. -/
theorem bitLen_spec (n : Nat) (hn : 0 < n) :
    1 ≤ bitLen n ∧ 2 ^ (bitLen n - 1) ≤ n ∧ n < 2 ^ bitLen n := by
  refine ⟨?_, two_pow_bitLenAux_le n n (le_refl _) hn, lt_two_pow_bitLenAux n n (le_refl _)⟩
  unfold bitLen
  cases n with
  | zero => omega
  | succ k => rw [bitLenAux, if_neg (by omega)]; omega

/-- `floorLog2 p q` is the integer part of the binary logarithm of `p/q`. -/
theorem floorLog2_spec (p q : Nat) (hp : 0 < p) (hq : 0 < q) :
    (2 : ℚ) ^ (floorLog2 p q) ≤ (p : ℚ) / q ∧ (p : ℚ) / q < (2 : ℚ) ^ (floorLog2 p q + 1) := by
  obtain ⟨a1, a2, a3⟩ := bitLen_spec p hp
  obtain ⟨b1, b2, b3⟩ := bitLen_spec q hq
  have hq' : (0 : ℚ) < q := by exact_mod_cast hq
  have two : (2 : ℚ) ≠ 0 := by norm_num
  have a2' : (2 : ℚ) ^ (((bitLen p - 1 : ℕ)) : ℤ) ≤ p := by
    rw [zpow_natCast]; exact_mod_cast a2
  have a3' : (p : ℚ) < (2 : ℚ) ^ ((bitLen p : ℕ) : ℤ) := by
    rw [zpow_natCast]; exact_mod_cast a3
  have b2' : (2 : ℚ) ^ (((bitLen q - 1 : ℕ)) : ℤ) ≤ q := by
    rw [zpow_natCast]; exact_mod_cast b2
  have b3' : (q : ℚ) < (2 : ℚ) ^ ((bitLen q : ℕ) : ℤ) := by
    rw [zpow_natCast]; exact_mod_cast b3
  -- the two generic bounds, for `d = bitLen p - bitLen q`
  have G1 : ∀ d : ℤ, d = (bitLen p : ℤ) - bitLen q → (p : ℚ) / q < (2 : ℚ) ^ (d + 1) := by
    intro d hd
    rw [div_lt_iff₀ hq']
    have e : (2 : ℚ) ^ (d + 1) * (2 : ℚ) ^ (((bitLen q - 1 : ℕ)) : ℤ)
        = (2 : ℚ) ^ ((bitLen p : ℕ) : ℤ) := by
      rw [← zpow_add₀ two]; congr 1; omega
    calc (p : ℚ) < (2 : ℚ) ^ ((bitLen p : ℕ) : ℤ) := a3'
      _ = (2 : ℚ) ^ (d + 1) * (2 : ℚ) ^ (((bitLen q - 1 : ℕ)) : ℤ) := e.symm
      _ ≤ (2 : ℚ) ^ (d + 1) * q := by
        apply mul_le_mul_of_nonneg_left b2'
        positivity
  have G2 : ∀ d : ℤ, d = (bitLen p : ℤ) - bitLen q → (2 : ℚ) ^ (d - 1) ≤ (p : ℚ) / q := by
    intro d hd
    rw [le_div_iff₀ hq']
    have e : (2 : ℚ) ^ (d - 1) * (2 : ℚ) ^ ((bitLen q : ℕ) : ℤ)
        = (2 : ℚ) ^ (((bitLen p - 1 : ℕ)) : ℤ) := by
      rw [← zpow_add₀ two]; congr 1; omega
    calc (2 : ℚ) ^ (d - 1) * q ≤ (2 : ℚ) ^ (d - 1) * (2 : ℚ) ^ ((bitLen q : ℕ) : ℤ) := by
          apply mul_le_mul_of_nonneg_left (le_of_lt b3')
          positivity
      _ = (2 : ℚ) ^ (((bitLen p - 1 : ℕ)) : ℤ) := e
      _ ≤ p := a2'
  unfold floorLog2
  by_cases hc : bitLen q ≤ bitLen p
  · rw [if_pos hc]
    have T : q * 2 ^ (bitLen p - bitLen q) ≤ p
        ↔ (2 : ℚ) ^ (((bitLen p - bitLen q : ℕ)) : ℤ) ≤ (p : ℚ) / q := by
      rw [zpow_natCast, le_div_iff₀ hq']
      constructor
      · intro h
        have : ((q * 2 ^ (bitLen p - bitLen q) : ℕ) : ℚ) ≤ p := by exact_mod_cast h
        push_cast at this
        linarith
      · intro h
        have : ((q * 2 ^ (bitLen p - bitLen q) : ℕ) : ℚ) ≤ p := by
          push_cast; linarith
        exact_mod_cast this
    by_cases ht : q * 2 ^ (bitLen p - bitLen q) ≤ p
    · rw [if_pos ht]
      exact ⟨T.mp ht, G1 _ (by omega)⟩
    · rw [if_neg ht]
      refine ⟨G2 _ (by omega), ?_⟩
      have := lt_of_not_le (fun h => ht (T.mpr h))
      simpa using this
  · rw [if_neg hc]
    have T : q ≤ p * 2 ^ (bitLen q - bitLen p)
        ↔ (2 : ℚ) ^ (-(((bitLen q - bitLen p : ℕ)) : ℤ)) ≤ (p : ℚ) / q := by
      rw [zpow_neg, zpow_natCast, le_div_iff₀ hq',
        inv_mul_le_iff₀ (by positivity : (0 : ℚ) < 2 ^ (bitLen q - bitLen p))]
      constructor
      · intro h
        have : ((q : ℕ) : ℚ) ≤ ((p * 2 ^ (bitLen q - bitLen p) : ℕ) : ℚ) := by exact_mod_cast h
        push_cast at this
        linarith
      · intro h
        have : ((q : ℕ) : ℚ) ≤ ((p * 2 ^ (bitLen q - bitLen p) : ℕ) : ℚ) := by
          push_cast; linarith
        exact_mod_cast this
    by_cases ht : q ≤ p * 2 ^ (bitLen q - bitLen p)
    · rw [if_pos ht]
      exact ⟨T.mp ht, G1 _ (by omega)⟩
    · rw [if_neg ht]
      refine ⟨G2 _ (by omega), ?_⟩
      have := lt_of_not_le (fun h => ht (T.mpr h))
      simpa using this

/-- Rounding a quotient of naturals to an integer as `roundFrac` does: the
result is within one half of the quotient, and even on a tie. -/
theorem roundNearest_spec (N D : Nat) (hD : 0 < D) :
    N / D ≤ (if 2 * (N % D) < D then N / D else if D < 2 * (N % D) then N / D + 1
        else if (N / D) % 2 = 0 then N / D else N / D + 1)
    ∧ (if 2 * (N % D) < D then N / D else if D < 2 * (N % D) then N / D + 1
        else if (N / D) % 2 = 0 then N / D else N / D + 1) ≤ N / D + 1
    ∧ |(((if 2 * (N % D) < D then N / D else if D < 2 * (N % D) then N / D + 1
        else if (N / D) % 2 = 0 then N / D else N / D + 1 : ℕ) : ℚ)) - (N : ℚ) / D| ≤ 1 / 2
    ∧ (2 * (N % D) = D →
        (if 2 * (N % D) < D then N / D else if D < 2 * (N % D) then N / D + 1
          else if (N / D) % 2 = 0 then N / D else N / D + 1) % 2 = 0) := by
  have hD' : (0 : ℚ) < D := by exact_mod_cast hD
  have hdiv : (N : ℚ) / D = (N / D : ℕ) + ((N % D : ℕ) : ℚ) / D := by
    have h := Nat.div_add_mod N D
    have h' : ((D * (N / D) + N % D : ℕ) : ℚ) = N := by exact_mod_cast h
    push_cast at h'
    field_simp
    linarith
  have hr : N % D < D := Nat.mod_lt _ hD
  have hr' : ((N % D : ℕ) : ℚ) < D := by exact_mod_cast hr
  have hr0 : (0 : ℚ) ≤ ((N % D : ℕ) : ℚ) := by positivity
  refine ⟨by split_ifs <;> omega, by split_ifs <;> omega, ?_, ?_⟩
  · rw [hdiv, abs_le]
    by_cases c1 : 2 * (N % D) < D
    · rw [if_pos c1]
      have : (2 : ℚ) * ((N % D : ℕ) : ℚ) < D := by exact_mod_cast c1
      have h1 : ((N % D : ℕ) : ℚ) / D < 1 / 2 := by
        rw [div_lt_iff₀ hD']; linarith
      have h0 : 0 ≤ ((N % D : ℕ) : ℚ) / D := by positivity
      constructor <;> linarith
    · rw [if_neg c1]
      have c1' : (D : ℚ) ≤ 2 * ((N % D : ℕ) : ℚ) := by exact_mod_cast Nat.le_of_not_lt c1
      have hge : 1 / 2 ≤ ((N % D : ℕ) : ℚ) / D := by
        rw [le_div_iff₀ hD']; linarith
      have hlt : ((N % D : ℕ) : ℚ) / D < 1 := by
        rw [div_lt_iff₀ hD']; linarith
      by_cases c2 : D < 2 * (N % D)
      · rw [if_pos c2]
        push_cast
        constructor <;> linarith
      · rw [if_neg c2]
        have c2' : 2 * ((N % D : ℕ) : ℚ) ≤ (D : ℚ) := by exact_mod_cast Nat.le_of_not_lt c2
        have heq : ((N % D : ℕ) : ℚ) / D = 1 / 2 := by
          rw [div_eq_iff (ne_of_gt hD')]; linarith
        by_cases c3 : (N / D) % 2 = 0
        · rw [if_pos c3, heq]
          constructor <;> linarith
        · rw [if_neg c3, heq]
          push_cast
          constructor <;> linarith
  · intro ht
    rw [if_neg (by omega), if_neg (by omega)]
    by_cases c3 : (N / D) % 2 = 0
    · rw [if_pos c3]; exact c3
    · rw [if_neg c3]; omega

/-- What `roundFrac` returns: a mantissa of 53 bits (or `2^53` after a
carry) and the exponent of its last bit, with the value `m * 2^e` within
half a unit of the last bit of `p/q`. -/
theorem roundFrac_spec (p q : Nat) (hp : 0 < p) (hq : 0 < q) :
    2 ^ 52 ≤ (roundFrac p q).1 ∧ (roundFrac p q).1 ≤ 2 ^ 53
    ∧ (roundFrac p q).2 = floorLog2 p q - 52
    ∧ |((roundFrac p q).1 : ℚ) * (2 : ℚ) ^ (roundFrac p q).2 - (p : ℚ) / q|
        ≤ (2 : ℚ) ^ (roundFrac p q).2 / 2 := by
  obtain ⟨l1, l2⟩ := floorLog2_spec p q hp hq
  have two : (2 : ℚ) ≠ 0 := by norm_num
  have hq' : (0 : ℚ) < q := by exact_mod_cast hq
  -- the scaled numerator and denominator
  obtain ⟨N, D, hND, hD, hx⟩ : ∃ N D : Nat,
      (N = (if floorLog2 p q - 52 < 0 then p * 2 ^ (-(floorLog2 p q - 52)).toNat else p)
        ∧ D = (if floorLog2 p q - 52 < 0 then q else q * 2 ^ (floorLog2 p q - 52).toNat))
      ∧ 0 < D ∧ (N : ℚ) / D = (p : ℚ) / q * (2 : ℚ) ^ (-(floorLog2 p q - 52)) := by
    refine ⟨_, _, ⟨rfl, rfl⟩, ?_, ?_⟩
    · split_ifs
      · exact hq
      · positivity
    · by_cases hneg : floorLog2 p q - 52 < 0
      · rw [if_pos hneg, if_pos hneg]
        have e : (2 : ℚ) ^ (-(floorLog2 p q - 52))
            = ((2 ^ (-(floorLog2 p q - 52)).toNat : ℕ) : ℚ) := by
          push_cast
          rw [← zpow_natCast, Int.toNat_of_nonneg (by omega)]
        rw [e]
        push_cast
        ring
      · rw [if_neg hneg, if_neg hneg]
        have e : (2 : ℚ) ^ (-(floorLog2 p q - 52))
            = (((2 ^ (floorLog2 p q - 52).toNat : ℕ) : ℚ))⁻¹ := by
          push_cast
          rw [zpow_neg, ← zpow_natCast, Int.toNat_of_nonneg (by omega)]
        rw [e]
        push_cast
        field_simp
  have hD' : (0 : ℚ) < D := by exact_mod_cast hD
  have hlo : (2 : ℚ) ^ (52 : ℕ) ≤ (N : ℚ) / D := by
    rw [hx]
    have e : (2 : ℚ) ^ (52 : ℕ) = (2 : ℚ) ^ (floorLog2 p q) * (2 : ℚ) ^ (-(floorLog2 p q - 52)) := by
      rw [← zpow_add₀ two, ← zpow_natCast]; congr 1; omega
    rw [e]
    apply mul_le_mul_of_nonneg_right l1
    positivity
  have hhi : (N : ℚ) / D < (2 : ℚ) ^ (53 : ℕ) := by
    rw [hx]
    have e : (2 : ℚ) ^ (53 : ℕ)
        = (2 : ℚ) ^ (floorLog2 p q + 1) * (2 : ℚ) ^ (-(floorLog2 p q - 52)) := by
      rw [← zpow_add₀ two, ← zpow_natCast]; congr 1; omega
    rw [e]
    apply mul_lt_mul_of_pos_right l2
    positivity
  have hlo' : 2 ^ 52 ≤ N / D := by
    rw [Nat.le_div_iff_mul_le hD]
    rw [le_div_iff₀ hD'] at hlo
    have : ((2 ^ 52 * D : ℕ) : ℚ) ≤ (N : ℚ) := by push_cast; exact hlo
    exact_mod_cast this
  have hhi' : N / D < 2 ^ 53 := by
    rw [Nat.div_lt_iff_lt_mul hD]
    rw [div_lt_iff₀ hD'] at hhi
    have : (N : ℚ) < ((2 ^ 53 * D : ℕ) : ℚ) := by push_cast; exact hhi
    exact_mod_cast this
  obtain ⟨r1, r2, r3, _⟩ := roundNearest_spec N D hD
  have hm : (roundFrac p q).1
      = (if 2 * (N % D) < D then N / D else if D < 2 * (N % D) then N / D + 1
          else if (N / D) % 2 = 0 then N / D else N / D + 1) := by
    rw [hND.1, hND.2]; rfl
  have he : (roundFrac p q).2 = floorLog2 p q - 52 := rfl
  rw [hm, he]
  refine ⟨by omega, by omega, rfl, ?_⟩
  have hpq : (p : ℚ) / q = (N : ℚ) / D * (2 : ℚ) ^ (floorLog2 p q - 52) := by
    rw [hx, mul_assoc, ← zpow_add₀ two]
    simp
  have hpos : (0 : ℚ) < (2 : ℚ) ^ (floorLog2 p q - 52) := by positivity
  rw [hpq, ← sub_mul, abs_mul, abs_of_pos hpos]
  calc _ ≤ (1 / 2 : ℚ) * (2 : ℚ) ^ (floorLog2 p q - 52) :=
        mul_le_mul_of_nonneg_right r3 (le_of_lt hpos)
    _ = (2 : ℚ) ^ (floorLog2 p q - 52) / 2 := by ring

/-! ## Resizing: claim C21 -/

theorem idRaster_WF : idRaster.WF := ⟨fun _ _ _ _ => rfl, fun _ _ _ _ _ => rfl⟩

theorem resize_max_one (v : Int) (h : 1 ≤ v) : resize.max 1 v = v := by
  unfold resize.max
  split <;> omega

/-- A canvas with sides from 0 to 65535 passes the test of `image.NewRGBA`. -/
theorem newRGBAFits_of_le (w h : Int) (hw0 : 0 ≤ w) (hh0 : 0 ≤ h) (hw : w ≤ 65535)
    (hh : h ≤ 65535) : newRGBAFits ⟨0, 0, w, h⟩ = true := by
  unfold newRGBAFits
  simp only [Rectangle.Dx, Rectangle.Dy, sub_zero, decide_eq_true_eq]
  have h1 : w * h ≤ 65535 * 65535 := mul_le_mul hw hh hh0 (by norm_num)
  refine ⟨hw0, hh0, by omega, ?_⟩
  have : 4 * w * h = 4 * (w * h) := by ring
  rw [this]
  omega

/-- The JPEG encoder accepts a grid with sides below 65536 and returns an
error from 65536 on. -/
theorem jpegEncode_eq (m : ImageRGBA) :
    (m.Rect.Dx ≤ 65535 → m.Rect.Dy ≤ 65535 → jpegEncode m = .ok m)
    ∧ (65536 ≤ m.Rect.Dx ∨ 65536 ≤ m.Rect.Dy → jpegEncode m = .error .tooLarge) := by
  unfold jpegEncode
  constructor
  · intro h1 h2
    rw [if_neg (by omega)]
  · intro h
    rw [if_pos (by omega)]

/-- The stretch branch of `handlerResize` for a box of at least 1 by 1. -/
theorem stretch_eq (K : Raster) (opt : resize.Options) (src : Image)
    (hmode : opt.Mode = resize.ModeStretch) (hW : 1 ≤ opt.Width) (hH : 1 ≤ opt.Height) :
    resize.handlerResize K opt src
      = if newRGBAFits ⟨0, 0, opt.Width, opt.Height⟩ then
          jpegEncode (K.Scale (NewRGBA ⟨0, 0, opt.Width, opt.Height⟩)
            (NewRGBA ⟨0, 0, opt.Width, opt.Height⟩).Rect src src.bounds)
        else .error .hugeCanvas := by
  have hR : Rect 0 0 opt.Width opt.Height = ⟨0, 0, opt.Width, opt.Height⟩ :=
    Rect_of_nonneg _ _ (by omega) (by omega)
  unfold resize.handlerResize
  simp only [hmode, if_true, resize_max_one _ hW, resize_max_one _ hH, hR]

/-- C21, counterexample: in stretch mode with `Width = 65536` and
`Height = 1` the canvas of 65536 by 1 pixels is built, and `jpeg.Encode`
refuses it: the handler returns the error and no image. -/
theorem stretch_too_large_fails :
    (1 : Int) ≤ 65536 ∧ (1 : Int) ≤ 1
    ∧ (resize.handlerResize idRaster ⟨resize.ModeStretch, 65536, 1, 85⟩
        (blackGrid 4 3).toImage).map (fun d => d.Rect) = .error .tooLarge := by
  refine ⟨by norm_num, by norm_num, ?_⟩
  have h : resize.handlerResize idRaster ⟨resize.ModeStretch, 65536, 1, 85⟩
      (blackGrid 4 3).toImage = .error .tooLarge := by
    rw [stretch_eq idRaster ⟨resize.ModeStretch, 65536, 1, 85⟩ _ rfl (by norm_num) (by norm_num)]
    have hf : newRGBAFits ⟨0, 0, 65536, 1⟩ = true := by
      unfold newRGBAFits
      simp only [Rectangle.Dx, Rectangle.Dy, decide_eq_true_eq]
      norm_num
    rw [if_pos hf]
    apply (jpegEncode_eq _).2
    left
    show (65536 : Int) ≤ (65536 : Int) - 0
    norm_num
  rw [h]
  rfl

/-- Up to 65535 for both sides the stretch branch returns a grid of the
requested size. -/
theorem stretch_ok_to_65535 (K : Raster) (hK : K.WF) (opt : resize.Options) (src : Image)
    (hmode : opt.Mode = resize.ModeStretch) (hW : 1 ≤ opt.Width) (hH : 1 ≤ opt.Height)
    (hW2 : opt.Width ≤ 65535) (hH2 : opt.Height ≤ 65535) :
    ∃ dst, resize.handlerResize K opt src = .ok dst
      ∧ dst.Rect = ⟨0, 0, opt.Width, opt.Height⟩
      ∧ dst.Rect.Dx = opt.Width ∧ dst.Rect.Dy = opt.Height
      ∧ dst.toImage.npix = opt.Width.toNat * opt.Height.toNat := by
  have hR : Rect 0 0 opt.Width opt.Height = ⟨0, 0, opt.Width, opt.Height⟩ :=
    Rect_of_nonneg _ _ (by omega) (by omega)
  have hrect : (K.Scale (NewRGBA (Rect 0 0 opt.Width opt.Height))
      (NewRGBA (Rect 0 0 opt.Width opt.Height)).Rect src src.bounds).Rect
      = ⟨0, 0, opt.Width, opt.Height⟩ := by
    rw [hK.scale_Rect, hR]; rfl
  refine ⟨K.Scale (NewRGBA (Rect 0 0 opt.Width opt.Height))
    (NewRGBA (Rect 0 0 opt.Width opt.Height)).Rect src src.bounds, ?_, hrect, ?_, ?_, ?_⟩
  · unfold resize.handlerResize
    simp only [hmode, if_true, resize_max_one _ hW, resize_max_one _ hH]
    rw [if_pos (by rw [hR]; exact newRGBAFits_of_le _ _ (by omega) (by omega) hW2 hH2)]
    apply (jpegEncode_eq _).1
    · rw [hrect]; simpa [Rectangle.Dx] using hW2
    · rw [hrect]; simpa [Rectangle.Dy] using hH2
  · rw [hrect]; simp [Rectangle.Dx]
  · rw [hrect]; simp [Rectangle.Dy]
  · unfold Image.npix
    show (K.Scale _ _ _ _).Rect.dx * (K.Scale _ _ _ _).Rect.dy = _
    rw [hrect]
    simp [Rectangle.dx, Rectangle.dy]

/-- From 65536 on, for either side, the stretch branch returns no image. -/
theorem stretch_fails_from_65536 (K : Raster) (hK : K.WF) (opt : resize.Options) (src : Image)
    (hmode : opt.Mode = resize.ModeStretch) (hW : 1 ≤ opt.Width) (hH : 1 ≤ opt.Height)
    (hbig : 65536 ≤ opt.Width ∨ 65536 ≤ opt.Height) :
    resize.handlerResize K opt src = .error .tooLarge
    ∨ resize.handlerResize K opt src = .error .hugeCanvas := by
  have hR : Rect 0 0 opt.Width opt.Height = ⟨0, 0, opt.Width, opt.Height⟩ :=
    Rect_of_nonneg _ _ (by omega) (by omega)
  unfold resize.handlerResize
  simp only [hmode, if_true, resize_max_one _ hW, resize_max_one _ hH]
  by_cases hf : newRGBAFits (Rect 0 0 opt.Width opt.Height) = true
  · rw [if_pos hf]
    left
    apply (jpegEncode_eq _).2
    rw [hK.scale_Rect, hR]
    simpa [NewRGBA, Rectangle.Dx, Rectangle.Dy] using hbig
  · rw [if_neg hf]
    right; rfl

/-- C21, amended: in stretch mode, for every source image and every
requested `Width ≥ 1` and `Height ≥ 1`: when both are at most 65535,
`handlerResize` returns the encoding of a grid with rectangle
(0, 0, Width, Height), exactly `Width` by `Height` pixels, whatever the size
of the source; when either is 65536 or more it returns no image, the
encoder refusing the canvas (or `image.NewRGBA` the allocation). -/
theorem stretch_exact_size (K : Raster) (hK : K.WF) (opt : resize.Options) (src : Image)
    (hmode : opt.Mode = resize.ModeStretch) (hW : 1 ≤ opt.Width) (hH : 1 ≤ opt.Height) :
    (opt.Width ≤ 65535 → opt.Height ≤ 65535 →
      ∃ dst, resize.handlerResize K opt src = .ok dst
        ∧ dst.Rect = ⟨0, 0, opt.Width, opt.Height⟩
        ∧ dst.Rect.Dx = opt.Width ∧ dst.Rect.Dy = opt.Height
        ∧ dst.toImage.npix = opt.Width.toNat * opt.Height.toNat)
    ∧ (65536 ≤ opt.Width ∨ 65536 ≤ opt.Height →
      resize.handlerResize K opt src = .error .tooLarge
      ∨ resize.handlerResize K opt src = .error .hugeCanvas) :=
  ⟨fun h1 h2 => stretch_ok_to_65535 K hK opt src hmode hW hH h1 h2,
    fun h => stretch_fails_from_65536 K hK opt src hmode hW hH h⟩

/-- C21, witness: a 4x3 source stretched to 800x450. -/
theorem stretch_exact_size_witness :
    ∃ dst, resize.handlerResize idRaster ⟨resize.ModeStretch, 800, 450, 85⟩
        (blackGrid 4 3).toImage = .ok dst
      ∧ dst.Rect = ⟨0, 0, 800, 450⟩
      ∧ dst.Rect.Dx = 800 ∧ dst.Rect.Dy = 450
      ∧ dst.toImage.npix = (800 : Int).toNat * (450 : Int).toNat :=
  (stretch_exact_size idRaster idRaster_WF ⟨resize.ModeStretch, 800, 450, 85⟩
    (blackGrid 4 3).toImage rfl (by decide) (by decide)).1 (by decide) (by decide)

/-! ## Borders: claim C24 -/

set_option maxRecDepth 100000 in
/-- C22, failing input: an 84x84 source fitted into the box 800x450. The
handler computes `scale = 450/84` rounded to a `float64`, and
`float64(84) * scale` rounded is just below 450, so `int(...)` gives
`tw = th = 449` and the handler returns the encoding of a grid of 449x449;
the claim's `max(1, floor(84 * min(800/84, 450/84)))` is 450. -/
theorem fit_truncates_rounded_product :
    resize.fitSize 800 450 84 84 = some (449, 449)
    ∧ (resize.handlerResize idRaster ⟨resize.ModeFit, 800, 450, 85⟩
        (blackGrid 84 84).toImage).map (fun d => d.Rect) = .ok ⟨0, 0, 449, 449⟩
    ∧ fitSizeExact 800 450 84 84 = (450, 450) := by
  refine ⟨by decide, by decide, ?_⟩
  unfold fitSizeExact
  norm_num

/-! ## Flipping a bit of a token: claim C3 -/

theorem b64Val_lt (c v : Nat) (h : b64Val c = some v) : v < 64 := by
  unfold b64Val at h
  split_ifs at h <;> simp at h <;> omega

theorem b64Val_inj (c c2 v : Nat) (h : b64Val c = some v) (h2 : b64Val c2 = some v) : c = c2 := by
  unfold b64Val at h h2
  split_ifs at h <;> split_ifs at h2 <;> simp at h h2 <;> omega

theorem b64Val_newline : b64Val 10 = none ∧ b64Val 13 = none := by decide

/-- The decoder returns three bytes for four characters, rounded down. -/
theorem b64Quanta_length : ∀ (s r : List Nat), b64Quanta s = some r → r.length = s.length * 3 / 4
  | [], r, h => by
    simp [b64Quanta] at h
    subst h; rfl
  | [_], r, h => by simp [b64Quanta] at h
  | [c0, c1], r, h => by
    unfold b64Quanta at h
    cases h0 : b64Val c0 <;> cases h1 : b64Val c1 <;> simp [h0, h1] at h
    subst h; simp
  | [c0, c1, c2], r, h => by
    unfold b64Quanta at h
    cases h0 : b64Val c0 <;> cases h1 : b64Val c1 <;> cases h2 : b64Val c2
      <;> simp [h0, h1, h2] at h
    subst h; simp
  | c0 :: c1 :: c2 :: c3 :: rest, r, h => by
    rw [b64Quanta] at h
    cases h0 : b64Val c0 <;> cases h1 : b64Val c1 <;> cases h2 : b64Val c2
      <;> cases h3 : b64Val c3 <;> cases h4 : b64Quanta rest
      <;> simp [h0, h1, h2, h3, h4] at h
    have ih := b64Quanta_length rest _ h4
    subst h
    simp only [List.length_cons, ih]
    omega

/-- Replacing one character by one of another value changes the decoded
bytes, unless it is the last character of a text whose length is not a
multiple of 4: there the decoder ignores the low bits. -/
theorem b64Quanta_set_same : ∀ (s : List Nat) (i c2 : Nat) (r : List Nat),
    b64Quanta s = some r → b64Quanta (s.set i c2) = some r → i < s.length →
    b64Val (s.getD i 0) ≠ b64Val c2 → i + 1 = s.length ∧ s.length % 4 ≠ 0
  | [], i, c2, r, _, _, hi, _ => by simp at hi
  | [_], i, c2, r, h, _, _, _ => by simp [b64Quanta] at h
  | [c0, c1], i, c2, r, h, h', hi, hne => by
    match i, hi with
    | 0, _ =>
      simp only [List.set_cons_zero, List.getD_cons_zero] at h' hne
      unfold b64Quanta at h h'
      cases h0 : b64Val c0 <;> cases h1 : b64Val c1 <;> cases h2 : b64Val c2
        <;> simp [h0, h1, h2] at h h' hne
      have := b64Val_lt _ _ h0
      have := b64Val_lt _ _ h1
      have := b64Val_lt _ _ h2
      subst h
      simp only [List.cons.injEq, and_true] at h'
      exfalso; omega
    | 1, _ => simp
  | [c0, c1, c3], i, c2, r, h, h', hi, hne => by
    match i, hi with
    | 0, _ =>
      simp only [List.set_cons_zero, List.getD_cons_zero] at h' hne
      unfold b64Quanta at h h'
      cases h0 : b64Val c0 <;> cases h1 : b64Val c1 <;> cases h2 : b64Val c2
        <;> cases h3 : b64Val c3 <;> simp [h0, h1, h2, h3] at h h' hne
      have := b64Val_lt _ _ h0
      have := b64Val_lt _ _ h1
      have := b64Val_lt _ _ h2
      have := b64Val_lt _ _ h3
      subst h
      simp only [List.cons.injEq, and_true] at h'
      exfalso; omega
    | 1, _ =>
      simp only [List.set_cons_zero, List.set_cons_succ, List.getD_cons_zero,
        List.getD_cons_succ] at h' hne
      unfold b64Quanta at h h'
      cases h0 : b64Val c0 <;> cases h1 : b64Val c1 <;> cases h2 : b64Val c2
        <;> cases h3 : b64Val c3 <;> simp [h0, h1, h2, h3] at h h' hne
      have := b64Val_lt _ _ h0
      have := b64Val_lt _ _ h1
      have := b64Val_lt _ _ h2
      have := b64Val_lt _ _ h3
      subst h
      simp only [List.cons.injEq, and_true] at h'
      exfalso; omega
    | 2, _ => simp
  | c0 :: c1 :: c3 :: c4 :: rest, i, c2, r, h, h', hi, hne => by
    rw [b64Quanta] at h
    cases h0 : b64Val c0 <;> cases h1 : b64Val c1 <;> cases h3 : b64Val c3
      <;> cases h4 : b64Val c4 <;> cases h5 : b64Quanta rest
      <;> simp [h0, h1, h3, h4, h5] at h
    have := b64Val_lt _ _ h0
    have := b64Val_lt _ _ h1
    have := b64Val_lt _ _ h3
    have := b64Val_lt _ _ h4
    subst h
    match i, hi with
    | 0, _ =>
      simp only [List.set_cons_zero, List.getD_cons_zero] at h' hne
      rw [b64Quanta] at h'
      cases h2 : b64Val c2 <;> simp [h0, h1, h2, h3, h4, h5] at h' hne
      have := b64Val_lt _ _ h2
      exfalso; omega
    | 1, _ =>
      simp only [List.set_cons_zero, List.set_cons_succ, List.getD_cons_zero,
        List.getD_cons_succ] at h' hne
      rw [b64Quanta] at h'
      cases h2 : b64Val c2 <;> simp [h0, h1, h2, h3, h4, h5] at h' hne
      have := b64Val_lt _ _ h2
      exfalso; omega
    | 2, _ =>
      simp only [List.set_cons_zero, List.set_cons_succ, List.getD_cons_zero,
        List.getD_cons_succ] at h' hne
      rw [b64Quanta] at h'
      cases h2 : b64Val c2 <;> simp [h0, h1, h2, h3, h4, h5] at h' hne
      have := b64Val_lt _ _ h2
      exfalso; omega
    | 3, _ =>
      simp only [List.set_cons_zero, List.set_cons_succ, List.getD_cons_zero,
        List.getD_cons_succ] at h' hne
      rw [b64Quanta] at h'
      cases h2 : b64Val c2 <;> simp [h0, h1, h2, h3, h4, h5] at h' hne
      have := b64Val_lt _ _ h2
      exfalso; omega
    | k + 4, hk =>
      simp only [List.set_cons_succ, List.getD_cons_succ] at h' hne
      rw [b64Quanta] at h'
      simp only [h0, h1, h3, h4] at h'
      cases h6 : b64Quanta (rest.set k c2) with
      | none => simp [h6] at h'
      | some tl2 =>
        simp only [h6, Option.some.injEq, List.cons.injEq, true_and] at h'
        subst h'
        have hk' : k < rest.length := by simpa using hk
        obtain ⟨e1, e2⟩ := b64Quanta_set_same rest k c2 _ h5 h6 hk' hne
        simp only [List.length_cons]
        omega

theorem mem_set_new (s : List Nat) (i c2 : Nat) (hi : i < s.length) : c2 ∈ s.set i c2 := by
  have h : i < (s.set i c2).length := by simpa using hi
  have e : (s.set i c2)[i] = c2 := List.getElem_set_self _
  have m : (s.set i c2)[i] ∈ s.set i c2 := List.getElem_mem h
  rw [e] at m
  exact m

theorem filter_set_eraseIdx (p : Nat → Bool) (c2 : Nat) (hp : p c2 = false) :
    ∀ (s : List Nat) (i : Nat), i < s.length → (s.set i c2).filter p = (s.eraseIdx i).filter p
  | [], i, hi => by simp at hi
  | a :: s, 0, _ => by
    rw [List.set_cons_zero, List.eraseIdx_cons_zero, List.filter_cons, hp]
    simp
  | a :: s, i + 1, hi => by
    rw [List.set_cons_succ, List.eraseIdx_cons_succ, List.filter_cons, List.filter_cons,
      filter_set_eraseIdx p c2 hp s i (by simpa using hi)]

/-- A character outside the alphabet that is not a line feed or carriage
return makes the decoder fail. -/
theorem b64Decode_set_outside (s : List Nat) (i c2 : Nat) (hi : i < s.length)
    (hv : b64Val c2 = none) (h10 : c2 ≠ 10) (h13 : c2 ≠ 13) : b64Decode (s.set i c2) = none := by
  rw [b64Decode_eq_none_iff]
  unfold isB64UrlText
  rw [Bool.and_eq_false_iff]
  left
  rw [List.all_eq_false]
  refine ⟨c2, ?_, by simp [hv]⟩
  unfold dropNewlines
  rw [List.mem_filter]
  exact ⟨mem_set_new s i c2 hi, by simp [h10, h13]⟩

/-- A line feed or carriage return written over a character is skipped: the
decoder sees the text without that character. -/
theorem b64Decode_set_newline (s : List Nat) (i c2 : Nat) (hi : i < s.length)
    (hc : c2 = 10 ∨ c2 = 13) : b64Decode (s.set i c2) = b64Decode (s.eraseIdx i) := by
  unfold b64Decode
  rw [filter_set_eraseIdx _ c2 (by rcases hc with rfl | rfl <;> rfl) s i hi]

/-- A character of the alphabet written over a character of base64url text
gives base64url text again: the decoder returns as many bytes as before. -/
theorem b64Decode_set_inside (s r : List Nat) (i c2 v2 : Nat) (hs : b64Quanta s = some r)
    (hv : b64Val c2 = some v2) :
    ∃ r2, b64Decode (s.set i c2) = some r2 ∧ b64Quanta (s.set i c2) = some r2
      ∧ r2.length = r.length := by
  have htext : isB64UrlText s = true := by
    rw [← b64Quanta_isSome, hs]; rfl
  unfold isB64UrlText at htext
  rw [Bool.and_eq_true, List.all_eq_true, decide_eq_true_eq] at htext
  obtain ⟨hall, hlen⟩ := htext
  have hall2 : ∀ c ∈ s.set i c2, (b64Val c).isSome = true := by
    intro c hc
    rcases List.mem_or_eq_of_mem_set hc with h | rfl
    · exact hall c h
    · rw [hv]; rfl
  have hfilter : (s.set i c2).filter (fun c => !(c == 10 || c == 13)) = s.set i c2 := by
    rw [List.filter_eq_self]
    intro c hc
    have h := hall2 c hc
    by_cases e10 : c = 10
    · subst e10; rw [b64Val_newline.1] at h; simp at h
    · by_cases e13 : c = 13
      · subst e13; rw [b64Val_newline.2] at h; simp at h
      · simp [e10, e13]
  have hsome : (b64Quanta (s.set i c2)).isSome = true := by
    rw [b64Quanta_isSome]
    unfold isB64UrlText
    rw [Bool.and_eq_true, List.all_eq_true, decide_eq_true_eq]
    exact ⟨hall2, by simpa using hlen⟩
  obtain ⟨r2, hr2⟩ := Option.isSome_iff_exists.mp hsome
  refine ⟨r2, ?_, hr2, ?_⟩
  · unfold b64Decode
    rw [hfilter, hr2]
  · rw [b64Quanta_length _ _ hr2, b64Quanta_length _ _ hs]
    simp

/-- Every token starts with the character `A`: the version byte is 1, so the
first six bits are zero. -/
theorem token_head (P : Prims) (t0 : Int) (nonce raw : List Nat) (ttl : Int) :
    ∃ rest, EncodeData P t0 nonce raw ttl = 65 :: rest := by
  unfold EncodeData sealBytes sealBody putUint32
  simp only [List.singleton_append, List.cons_append, List.append_assoc, List.nil_append]
  rw [b64Encode]
  have h1 : uint32 (t0 + ttl) / 16777216 % 256 < 256 := Nat.mod_lt _ (by norm_num)
  have h2 : uint32 (t0 + ttl) / 65536 % 256 < 256 := Nat.mod_lt _ (by norm_num)
  have h0 : (1 * 65536 + uint32 (t0 + ttl) / 16777216 % 256 * 256
      + uint32 (t0 + ttl) / 65536 % 256) / 262144 % 64 = 0 := by omega
  rw [h0]
  exact ⟨_, rfl⟩

/-- Flipping the top bit of the first character of a token makes
`DecodeData` fail with "invalid", whatever the compressor, the MAC, the
payload and the clock are. -/
theorem first_char_flip_invalid (P : Prims) (t0 t1 : Int) (nonce raw : List Nat) (ttl : Int) :
    DecodeData P t1 (flipBit (EncodeData P t0 nonce raw ttl) 0 7) = .error .invalid := by
  obtain ⟨rest, hr⟩ := token_head P t0 nonce raw ttl
  rw [hr]
  have hf : flipBit (65 :: rest) 0 7 = (65 :: rest).set 0 193 := by
    have e : (65 : Nat) ^^^ 2 ^ 7 = 193 := by decide
    simp [flipBit, e]
  rw [hf]
  unfold DecodeData
  rw [b64Decode_set_outside _ 0 193 (by simp) (by decide) (by decide) (by decide)]

/-- The character a flip writes differs from the one it replaces. -/
theorem flipBit_char (l : List Nat) (i j : Nat) (hi : i < l.length) :
    flipBit l i j = l.set i ((flipBit l i j).getD i 0)
    ∧ (flipBit l i j).getD i 0 ≠ l.getD i 0 := by
  have hg : (flipBit l i j).getD i 0 = l.getD i 0 ^^^ 2 ^ j := by
    unfold flipBit
    rw [List.getD_eq_getElem _ _ (by simpa using hi), List.getElem_set_self]
  constructor
  · rw [hg]; rfl
  · rw [hg]
    intro h
    have h2 : l.getD i 0 ^^^ 2 ^ j = l.getD i 0 ^^^ 0 := by rw [h]; simp
    have h3 := Nat.xor_right_injective h2
    have : 0 < 2 ^ j := Nat.two_pow_pos j
    omega

/-- C3, amended: for every token produced by `EncodeData` and every single
bit of it, `DecodeData` applied to the token with that bit flipped behaves
as follows, at every clock reading. When the flipped character is outside
the base64url alphabet and is no line feed or carriage return, it fails with
"invalid". When the flipped character is a line feed or carriage return, the
decoder skips it and the result is that of the token without the character:
"invalid" or "check failed", provided the bytes the shortened token decodes
to do not carry their own MAC as tag.
When the flipped character is in the alphabet, the token decodes to as many
bytes as were sealed; if these differ from the sealed bytes in the tag only,
it fails with "check failed"; if they differ before the tag, it fails with
"check failed" provided the MAC of the altered bytes is not the tag they
carry; and if they do not differ, which happens only at the last character
of a token whose length is no multiple of 4, the result is that of the
unflipped token. -/
theorem flipped_token_bit_outcomes (P : Prims) (hP : P.WF) (t0 t1 : Int)
    (nonce raw : List Nat) (ttl : Int) (hn8 : nonce.length = 8) (hn : ∀ b ∈ nonce, b < 256)
    (tok : List Nat) (htok : tok = EncodeData P t0 nonce raw ttl)
    (i j : Nat) (hi : i < tok.length) :
    (b64Val ((flipBit tok i j).getD i 0) = none → (flipBit tok i j).getD i 0 ≠ 10 →
        (flipBit tok i j).getD i 0 ≠ 13 →
        DecodeData P t1 (flipBit tok i j) = .error .invalid)
    ∧ ((flipBit tok i j).getD i 0 = 10 ∨ (flipBit tok i j).getD i 0 = 13 →
        DecodeData P t1 (flipBit tok i j) = DecodeData P t1 (tok.eraseIdx i)
        ∧ ((∀ r, b64Decode (tok.eraseIdx i) = some r →
              P.hmac (r.take (r.length - 32)) ≠ r.drop (r.length - 32)) →
            DecodeData P t1 (flipBit tok i j) = .error .invalid
            ∨ DecodeData P t1 (flipBit tok i j) = .error .checkFailed))
    ∧ (∀ v, b64Val ((flipBit tok i j).getD i 0) = some v →
        ∃ raw2, b64Decode (flipBit tok i j) = some raw2
          ∧ raw2.length = (sealBytes P t0 nonce raw ttl).length
          ∧ (raw2 ≠ sealBytes P t0 nonce raw ttl →
              raw2.take (raw2.length - 32) = sealBody P t0 nonce raw ttl →
              DecodeData P t1 (flipBit tok i j) = .error .checkFailed)
          ∧ (raw2.take (raw2.length - 32) ≠ sealBody P t0 nonce raw ttl →
              P.hmac (raw2.take (raw2.length - 32)) ≠ raw2.drop (raw2.length - 32) →
              DecodeData P t1 (flipBit tok i j) = .error .checkFailed)
          ∧ (raw2 = sealBytes P t0 nonce raw ttl →
              DecodeData P t1 (flipBit tok i j) = DecodeData P t1 tok
              ∧ i + 1 = tok.length ∧ tok.length % 4 ≠ 0)) := by
  subst htok
  have hbytes := sealBytes_bytes P hP t0 nonce raw ttl hn
  have hq : b64Quanta (EncodeData P t0 nonce raw ttl) = some (sealBytes P t0 nonce raw ttl) :=
    b64Quanta_b64Encode _ hbytes
  obtain ⟨hset, hne⟩ := flipBit_char (EncodeData P t0 nonce raw ttl) i j hi
  generalize (flipBit (EncodeData P t0 nonce raw ttl) i j).getD i 0 = c2 at hset hne ⊢
  rw [hset]
  have hlen : 45 ≤ (sealBytes P t0 nonce raw ttl).length := by
    unfold sealBytes
    rw [List.length_append, sealBody_length P t0 nonce raw ttl hn8, hP.hmac_length]
    omega
  have hsplit : (sealBytes P t0 nonce raw ttl).length - 32
      = (sealBody P t0 nonce raw ttl).length := by
    unfold sealBytes
    rw [List.length_append, hP.hmac_length]
    omega
  refine ⟨?_, ?_, ?_⟩
  · intro hv h10 h13
    unfold DecodeData
    rw [b64Decode_set_outside _ i c2 hi hv h10 h13]
  · intro hc
    have hsame : DecodeData P t1 ((EncodeData P t0 nonce raw ttl).set i c2)
        = DecodeData P t1 ((EncodeData P t0 nonce raw ttl).eraseIdx i) := by
      unfold DecodeData
      rw [b64Decode_set_newline _ i c2 hi hc]
    refine ⟨hsame, ?_⟩
    intro hforge
    rw [hsame]
    unfold DecodeData
    cases hdec : b64Decode ((EncodeData P t0 nonce raw ttl).eraseIdx i) with
    | none => left; rfl
    | some r =>
      simp only
      by_cases hshort : r.length < 45
      · left
        unfold openBytes
        rw [if_pos (by omega)]
      · right
        rw [(openBytes_of_length P t1 r (by omega)).2]
        exact fun h => hforge r hdec h.symm
  · intro v hv
    obtain ⟨r2, hd, hq2, hl⟩ := b64Decode_set_inside _ _ i c2 v hq hv
    have hD : DecodeData P t1 ((EncodeData P t0 nonce raw ttl).set i c2) = openBytes P t1 r2 := by
      unfold DecodeData
      rw [hd]
    have hcf := (openBytes_of_length P t1 r2 (by omega)).2
    refine ⟨r2, hd, hl, ?_, ?_, ?_⟩
    · intro hdiff htake
      rw [hD, hcf, htake]
      intro hdrop
      apply hdiff
      have e := List.take_append_drop (r2.length - 32) r2
      rw [htake, hdrop] at e
      rw [← e]
      rfl
    · intro _ hmac
      rw [hD, hcf]
      exact fun h => hmac h.symm
    · intro hsame
      subst hsame
      refine ⟨?_, ?_⟩
      · rw [hD]
        exact (DecodeData_b64Encode P t1 _ hbytes).symm
      · apply b64Quanta_set_same _ i c2 _ hq hq2 hi
        intro he
        rw [hv] at he
        exact hne (b64Val_inj _ _ v hv he)

/-- C3, witness: the token of "hello" sealed by the stand-in collaborators.
Bit 7 of the first character leaves the alphabet: "invalid". Bit 1 of the
first character turns `A` into `C` and the version byte 1 into 9: "check
failed". Bit 6 of character 10 turns `M` into a carriage return: the result
is that of the token without the character. Bit 0 of the last character
turns `4` into `5`, which differ in a bit the decoder ignores: the result is
that of the unflipped token. -/
theorem flipped_token_bit_outcomes_witness :
    DecodeData demoPrims 1700000050
        (flipBit (EncodeData demoPrims 1700000000 demoNonce helloBytes 60) 0 7)
      = .error .invalid
    ∧ DecodeData demoPrims 1700000050
        (flipBit (EncodeData demoPrims 1700000000 demoNonce helloBytes 60) 0 1)
      = .error .checkFailed
    ∧ DecodeData demoPrims 1700000050
        (flipBit (EncodeData demoPrims 1700000000 demoNonce helloBytes 60) 10 6)
      = DecodeData demoPrims 1700000050
          ((EncodeData demoPrims 1700000000 demoNonce helloBytes 60).eraseIdx 10)
    ∧ DecodeData demoPrims 1700000050
        (flipBit (EncodeData demoPrims 1700000000 demoNonce helloBytes 60) 66 0)
      = DecodeData demoPrims 1700000050
          (EncodeData demoPrims 1700000000 demoNonce helloBytes 60) := by
  refine ⟨?_, ?_, ?_, ?_⟩
  · exact (flipped_token_bit_outcomes demoPrims demoPrims_WF 1700000000 1700000050 demoNonce
      helloBytes 60 (by decide) (by decide) _ rfl 0 7 (by decide)).1
      (by decide) (by decide) (by decide)
  · obtain ⟨raw2, hd, _, _, h2, _⟩ :=
      (flipped_token_bit_outcomes demoPrims demoPrims_WF 1700000000 1700000050 demoNonce
        helloBytes 60 (by decide) (by decide) _ rfl 0 1 (by decide)).2.2 2 (by decide)
    have e : raw2 = (b64Decode
        (flipBit (EncodeData demoPrims 1700000000 demoNonce helloBytes 60) 0 1)).getD [] := by
      rw [hd]; rfl
    subst e
    exact h2 (by decide) (by decide)
  · exact ((flipped_token_bit_outcomes demoPrims demoPrims_WF 1700000000 1700000050 demoNonce
      helloBytes 60 (by decide) (by decide) _ rfl 10 6 (by decide)).2.1
      (Or.inr (by decide))).1
  · obtain ⟨raw2, hd, _, _, _, h3⟩ :=
      (flipped_token_bit_outcomes demoPrims demoPrims_WF 1700000000 1700000050 demoNonce
        helloBytes 60 (by decide) (by decide) _ rfl 66 0 (by decide)).2.2 57 (by decide)
    have e : raw2 = (b64Decode
        (flipBit (EncodeData demoPrims 1700000000 demoNonce helloBytes 60) 66 0)).getD [] := by
      rw [hd]; rfl
    subst e
    exact (h3 (by decide)).1

end Imgpipe
